import Mathlib

/-!
Verification of the Raccoon lexer (`src/compiler/lexer/lexer.rs`).

The Rust lexer is embedded shallowly: the character iterator `Chars` becomes a
`List Char`, the `u32` cursor becomes a `Nat`, and the `i32` indentation
counters become `Int` (machine-width overflow is not modelled).  The
`Vec<Token>` token buffer is mirrored as a list whose head is the vector's
last element, so `Vec::push`/`Vec::pop` become `cons`/head-removal.  The
pull-based iterator `Lexer::tokenize` becomes a total function producing the
finite list of yielded items; every `unwrap` in the source sits behind a
`matches!`/`peek` guard and is embedded by the guarded list pattern match.
Token, operator, delimiter and keyword shapes follow the revision of
`token.rs` that this lexer imports (keyword constructors carry a `kw` prefix
to avoid clashes with Lean keywords).
-/

set_option maxHeartbeats 1000000

namespace Raccoon

/-- Half-open source interval `[start, stop)` in consumed characters; the
source struct `Span` calls the second field `end`, renamed `stop` here. -/
structure Span where
  start : Nat
  stop : Nat
deriving Repr, DecidableEq

/-- Integer base recorded in `Integer` tokens (`IntegerKind` in token.rs). -/
inductive IntegerKind
  | Bin | Oct | Dec | Hex
deriving Repr, DecidableEq

/-- String flavors (`StringKind` in token.rs). -/
inductive StringKind
  | Str | RawStr | Format | RawFormat
deriving Repr, DecidableEq

/-- Byte-string flavors (`BytesKind` in token.rs). -/
inductive BytesKind
  | Bytes | RawBytes
deriving Repr, DecidableEq

/-- Operators (`Operator` enum), with the variant names used by lexer.rs. -/
inductive Operator
  | Plus | Minus | Mul | Div | IntDiv | Mod | ShiftL | ShiftR
  | BitAnd | BitOr | BitXor | BitNot | Less | Greater | LessEq | GreaterEq
  | Eq | NotEq | Pow | Square | Sqrt
deriving Repr, DecidableEq

/-- Delimiters (`Delimiter` enum), with the variant names used by lexer.rs. -/
inductive Delimiter
  | LParen | RParen | LBracket | RBracket | LBrace | RBrace
  | Comma | Colon | Dot | SemiColon | At | Assign | Arrow
  | PlusAssign | MinusAssign | MulAssign | DivAssign | IntDivAssign
  | ModAssign | AtAssign | BitAndAssign | BitOrAssign | BitXorAssign
  | ShiftRAssign | ShiftLAssign
deriving Repr, DecidableEq

/-- The 47 keywords of `Keyword::try_from`; constructors are prefixed with
`kw` (`Keyword::And` becomes `kwAnd`, and so on). -/
inductive Keyword
  | kwAnd | kwAs | kwAssert | kwAsync | kwAwait | kwBreak | kwClass | kwConst
  | kwContinue | kwDef | kwDel | kwElif | kwElse | kwEnum | kwExcept | kwFalse
  | kwFinally | kwFor | kwFrom | kwGlobal | kwIf | kwImport | kwIn
  | kwInterface | kwIs | kwLambda | kwLet | kwMacroKw | kwMatch | kwMut
  | kwNonlocal | kwNot | kwOr | kwPass | kwPtr | kwRaise | kwRef | kwReturn
  | kwTrue | kwTry | kwTypealias | kwVal | kwVar | kwWhere | kwWhile | kwWith
  | kwYield
deriving Repr, DecidableEq

/-- The keyword table (`impl TryFrom<&str> for Keyword`). -/
def keyword_from_string : String → Option Keyword
  | "and" => some .kwAnd
  | "as" => some .kwAs
  | "assert" => some .kwAssert
  | "async" => some .kwAsync
  | "await" => some .kwAwait
  | "break" => some .kwBreak
  | "class" => some .kwClass
  | "const" => some .kwConst
  | "continue" => some .kwContinue
  | "def" => some .kwDef
  | "del" => some .kwDel
  | "elif" => some .kwElif
  | "else" => some .kwElse
  | "enum" => some .kwEnum
  | "except" => some .kwExcept
  | "false" => some .kwFalse
  | "finally" => some .kwFinally
  | "for" => some .kwFor
  | "from" => some .kwFrom
  | "global" => some .kwGlobal
  | "if" => some .kwIf
  | "import" => some .kwImport
  | "in" => some .kwIn
  | "interface" => some .kwInterface
  | "is" => some .kwIs
  | "lambda" => some .kwLambda
  | "let" => some .kwLet
  | "macro" => some .kwMacroKw
  | "match" => some .kwMatch
  | "mut" => some .kwMut
  | "nonlocal" => some .kwNonlocal
  | "not" => some .kwNot
  | "or" => some .kwOr
  | "pass" => some .kwPass
  | "ptr" => some .kwPtr
  | "raise" => some .kwRaise
  | "ref" => some .kwRef
  | "return" => some .kwReturn
  | "true" => some .kwTrue
  | "try" => some .kwTry
  | "typealias" => some .kwTypealias
  | "val" => some .kwVal
  | "var" => some .kwVar
  | "where" => some .kwWhere
  | "while" => some .kwWhile
  | "with" => some .kwWith
  | "yield" => some .kwYield
  | _ => none

/-- Token kinds (`TokenKind` in token.rs). -/
inductive TokenKind
  | Newline
  | Indent
  | Dedent
  | Identifier (text : String)
  | Float (text : String)
  | Integer (text : String) (kind : IntegerKind)
  | Imag (text : String)
  | Str (text : String) (kind : StringKind)
  | ByteStr (text : String) (kind : BytesKind)
  | Op (op : Operator)
  | Delim (delim : Delimiter)
  | Keyword (keyword : Keyword)
deriving Repr, DecidableEq

/-- A token: a kind and its span. -/
structure Token where
  kind : TokenKind
  span : Span
deriving Repr, DecidableEq

/-- Lexer error kinds; exactly the `LexerErrorKind` variants that
lexer.rs constructs. -/
inductive LexerErrorKind
  | MixedSpaces
  | InconsistentIndent
  | MixedIndentSizes
  | InconsistentDedent
  | UnterminatedString
  | InvalidCharacterInByteString
  | InvalidLineContinuationEscapeSequence
  | InvalidLeadingZeroInDecInteger
  | InvalidCharacterAfterUnderscoreInDigitPart
  | MissingDigitPartInFloatFraction
  | MissingDigitPartInFloatExponent
  | MissingDigitPartInBinInteger
  | MissingDigitPartInOctInteger
  | MissingDigitPartInHexInteger
  | InvalidDigitInInteger
  | InvalidOperator
  | InvalidCharacter
deriving Repr, DecidableEq

/-- A lexer error: a kind and its span (`LexerError::new`). -/
structure LexerError where
  kind : LexerErrorKind
  span : Span
deriving Repr, DecidableEq

/-- Indentation character kinds (`IndentKind`). -/
inductive IndentKind
  | Unknown | Tab | Space
deriving Repr, DecidableEq

/-- Conversion `impl From<char> for IndentKind`. -/
def indent_kind_of_char (c : Char) : IndentKind :=
  if c = ' ' then .Space else if c = '\t' then .Tab else .Unknown

/-- Integer base argument of `lex_prefixed_digits` (`IntBase`). -/
inductive IntBase
  | Dec | Bin | Oct | Hex
deriving Repr, DecidableEq

/-- The lexer state (`struct Lexer`): the remaining characters, the cursor,
and the indentation bookkeeping.  The head of `token_buffer` is the last
element of the source `Vec` (its `pop` end). -/
structure Lexer where
  chars : List Char
  cursor : Nat
  indent_kind : IndentKind
  indent_level : Int
  indent_size : Int
  token_buffer : List Token
deriving Repr, DecidableEq

/-! Character class tests used by the `matches!` range patterns. -/

/-- Rust range pattern `'0'..='9'`. -/
def is_dec_digit (c : Char) : Bool := '0' ≤ c && c ≤ '9'

/-- Rust range pattern `'0'..='1'`. -/
def is_bin_digit (c : Char) : Bool := c = '0' || c = '1'

/-- Rust range pattern `'0'..='7'`. -/
def is_oct_digit (c : Char) : Bool := '0' ≤ c && c ≤ '7'

/-- Rust range pattern `'2'..='7'`. -/
def is_two_to_seven (c : Char) : Bool := '2' ≤ c && c ≤ '7'

/-- Rust range pattern `'8'..='9' | 'a'..='f' | 'A'..='F'`. -/
def is_high_hex_digit (c : Char) : Bool :=
  (c = '8' || c = '9') || ('a' ≤ c && c ≤ 'f') || ('A' ≤ c && c ≤ 'F')

/-- Rust range pattern `'0'..='9' | 'a'..='f' | 'A'..='F'`. -/
def is_hex_digit (c : Char) : Bool :=
  is_dec_digit c || ('a' ≤ c && c ≤ 'f') || ('A' ≤ c && c ≤ 'F')

/-- Rust range pattern `'a'..='z' | 'A'..='Z' | '0'..='9' | '_'`. -/
def is_word_char (c : Char) : Bool :=
  ('a' ≤ c && c ≤ 'z') || ('A' ≤ c && c ≤ 'Z') || is_dec_digit c || c = '_'

/-- Rust `char::is_ascii`. -/
def is_ascii_char (c : Char) : Bool := c.toNat ≤ 127

/-! The helper recognizers.  Each works on the pair of the remaining
characters and the cursor, exactly the two fields of `self` they touch;
`peek_char` is the head of the list and `eat_char` removes it and bumps the
cursor. -/

/-- Digit loop of `Lexer::lex_dec_digits`, entered after its first character
was already folded into `digits`. -/
def lex_dec_digits_loop (digits : String) (start : Nat) :
    List Char → Nat → Except LexerError (String × List Char × Nat)
  | c :: rest, cursor =>
    if c = '_' then
      -- eat the underscore, then require a decimal digit right after it
      if (rest.head?.elim false is_dec_digit : Bool) then
        lex_dec_digits_loop digits start rest (cursor + 1)
      else
        .error ⟨.InvalidCharacterAfterUnderscoreInDigitPart, ⟨start, cursor + 1⟩⟩
    else if is_dec_digit c then
      lex_dec_digits_loop (digits.push c) start rest (cursor + 1)
    else
      .ok (digits, c :: rest, cursor)
  | [], cursor => .ok (digits, [], cursor)

/-- `Lexer::lex_dec_digits`: `char` is the first, already consumed character
of the digit part (dropped when it is an underscore). -/
def lex_dec_digits (c : Char) (start : Nat) (chars : List Char) (cursor : Nat) :
    Except LexerError (String × List Char × Nat) :=
  lex_dec_digits_loop (if c ≠ '_' then String.singleton c else "") start chars cursor

/-- Underscore look-ahead guard inside `Lexer::lex_prefixed_digits`. -/
def prefixed_underscore_ok (base : IntBase) (peeked : Option Char) : Bool :=
  (base = IntBase.Bin && peeked.elim false is_bin_digit) ||
  (base = IntBase.Oct && peeked.elim false is_oct_digit) ||
  (base = IntBase.Hex && peeked.elim false is_hex_digit)

/-- Digit loop of `Lexer::lex_prefixed_digits`. -/
def lex_prefixed_digits_loop (digits : String) (start : Nat) (base : IntBase) :
    List Char → Nat → Except LexerError (String × List Char × Nat)
  | c :: rest, cursor =>
    if c = '_' then
      -- eat the underscore, then check the peeked character fits the base
      if prefixed_underscore_ok base rest.head? then
        lex_prefixed_digits_loop digits start base rest (cursor + 1)
      else
        .error ⟨.InvalidCharacterAfterUnderscoreInDigitPart, ⟨start, cursor + 1⟩⟩
    else if is_bin_digit c then
      lex_prefixed_digits_loop (digits.push c) start base rest (cursor + 1)
    else if is_two_to_seven c then
      if base = IntBase.Bin then
        .error ⟨.InvalidDigitInInteger, ⟨start, cursor⟩⟩
      else
        lex_prefixed_digits_loop (digits.push c) start base rest (cursor + 1)
    else if is_high_hex_digit c then
      if base = IntBase.Bin ∨ base = IntBase.Oct then
        .error ⟨.InvalidDigitInInteger, ⟨start, cursor⟩⟩
      else
        lex_prefixed_digits_loop (digits.push c) start base rest (cursor + 1)
    else
      .ok (digits, c :: rest, cursor)
  | [], cursor => .ok (digits, [], cursor)

/-- `Lexer::lex_prefixed_digits`. -/
def lex_prefixed_digits (c : Char) (start : Nat) (base : IntBase)
    (chars : List Char) (cursor : Nat) :
    Except LexerError (String × List Char × Nat) :=
  lex_prefixed_digits_loop (if c ≠ '_' then String.singleton c else "") start base chars cursor

/-- `Lexer::lex_float_exponent`: the `e`/`E` marker is already consumed; the
canonical payload always starts with `e` and an explicit sign. -/
def lex_float_exponent (start : Nat) (chars : List Char) (cursor : Nat) :
    Except LexerError (String × List Char × Nat) :=
  match chars with
  | c :: rest =>
    if c = '-' ∨ c = '+' then
      -- eat the sign, then require the digit part
      match rest with
      | d :: rest2 =>
        if is_dec_digit d then
          match lex_dec_digits d start rest2 (cursor + 2) with
          | .ok (digits, chars2, cursor2) =>
            .ok (("e".push c) ++ digits, chars2, cursor2)
          | .error e => .error e
        else
          .error ⟨.MissingDigitPartInFloatExponent, ⟨start, cursor + 1⟩⟩
      | [] => .error ⟨.MissingDigitPartInFloatExponent, ⟨start, cursor + 1⟩⟩
    else if is_dec_digit c then
      match lex_dec_digits c start rest (cursor + 1) with
      | .ok (digits, chars2, cursor2) => .ok ("e+" ++ digits, chars2, cursor2)
      | .error e => .error e
    else
      .error ⟨.MissingDigitPartInFloatExponent, ⟨start, cursor⟩⟩
  | [] => .error ⟨.MissingDigitPartInFloatExponent, ⟨start, cursor⟩⟩

/-- `Lexer::lex_float_fraction`: the dot is already consumed; after the
digit part only a lowercase `e` continues into the exponent. -/
def lex_float_fraction (start : Nat) (chars : List Char) (cursor : Nat) :
    Except LexerError (String × List Char × Nat) :=
  match chars with
  | c :: rest =>
    if is_dec_digit c then
      match lex_dec_digits c start rest (cursor + 1) with
      | .ok (digits, chars1, cursor1) =>
        match chars1 with
        | 'e' :: rest1 =>
          match lex_float_exponent start rest1 (cursor1 + 1) with
          | .ok (expo, chars2, cursor2) =>
            .ok ("." ++ digits ++ expo, chars2, cursor2)
          | .error e => .error e
        | _ => .ok ("." ++ digits, chars1, cursor1)
      | .error e => .error e
    else .error ⟨.MissingDigitPartInFloatFraction, ⟨start, cursor⟩⟩
  | [] => .error ⟨.MissingDigitPartInFloatFraction, ⟨start, cursor⟩⟩

/-- Body loop of `Lexer::lex_short_or_long_string`, entered after any long
delimiter was consumed.  The source consumes two further characters after
the first closing quote in the `else` arm even when `long` is false. -/
def lex_string_loop (quote : Char) (start : Nat) (long : Bool) (acc : String) :
    List Char → Nat → Except LexerError (String × List Char × Nat)
  | pc :: rest, cursor =>
    if pc = quote then
      -- eat the delimiter, then check for the long closing delimiter
      if long ∧ rest.take 2 ≠ [quote, quote] then
        -- consume any incomplete delimiter to make the cursor position right
        match rest with
        | q :: _ =>
          if q = quote then .error ⟨.UnterminatedString, ⟨start, cursor + 2⟩⟩
          else .error ⟨.UnterminatedString, ⟨start, cursor + 1⟩⟩
        | [] => .error ⟨.UnterminatedString, ⟨start, cursor + 1⟩⟩
      else
        .ok (acc, rest.drop 2, cursor + 1 + min 2 rest.length)
    else if ¬long ∧ (pc = '\n' ∨ pc = '\r') then
      .error ⟨.UnterminatedString, ⟨start, cursor⟩⟩
    else
      lex_string_loop quote start long (acc.push pc) rest (cursor + 1)
  | [], cursor => .error ⟨.UnterminatedString, ⟨start, cursor⟩⟩

/-- `Lexer::lex_short_or_long_string`: `chars`/`cursor` sit right after the
opening quote; a long literal first consumes the two extra quotes. -/
def lex_short_or_long_string (quote : Char) (start : Nat) (long : Bool)
    (chars : List Char) (cursor : Nat) :
    Except LexerError (String × List Char × Nat) :=
  if long then lex_string_loop quote start long "" (chars.drop 2) (cursor + 2)
  else lex_string_loop quote start long "" chars cursor

/-- Body loop of `Lexer::lex_short_or_long_bytes`: as the string loop, plus
the ASCII requirement on every body character. -/
def lex_bytes_loop (quote : Char) (start : Nat) (long : Bool) (acc : String) :
    List Char → Nat → Except LexerError (String × List Char × Nat)
  | pc :: rest, cursor =>
    if pc = quote then
      if long ∧ rest.take 2 ≠ [quote, quote] then
        match rest with
        | q :: _ =>
          if q = quote then .error ⟨.UnterminatedString, ⟨start, cursor + 2⟩⟩
          else .error ⟨.UnterminatedString, ⟨start, cursor + 1⟩⟩
        | [] => .error ⟨.UnterminatedString, ⟨start, cursor + 1⟩⟩
      else
        .ok (acc, rest.drop 2, cursor + 1 + min 2 rest.length)
    else if ¬long ∧ (pc = '\n' ∨ pc = '\r') then
      .error ⟨.UnterminatedString, ⟨start, cursor⟩⟩
    else if is_ascii_char pc then
      lex_bytes_loop quote start long (acc.push pc) rest (cursor + 1)
    else
      .error ⟨.InvalidCharacterInByteString, ⟨start, cursor⟩⟩
  | [], cursor => .error ⟨.UnterminatedString, ⟨start, cursor⟩⟩

/-- `Lexer::lex_short_or_long_bytes`. -/
def lex_short_or_long_bytes (quote : Char) (start : Nat) (long : Bool)
    (chars : List Char) (cursor : Nat) :
    Except LexerError (String × List Char × Nat) :=
  if long then lex_bytes_loop quote start long "" (chars.drop 2) (cursor + 2)
  else lex_bytes_loop quote start long "" chars cursor

/-- The `peek_string(2) == "im"` imaginary-suffix check shared by every
completed decimal form: on `im` both characters are consumed and the token
is relabelled `Imag`, otherwise the plain kind is kept. -/
def finish_num (plain : String → TokenKind) (payload : String) (start : Nat)
    (chars : List Char) (cursor : Nat) : Token × List Char × Nat :=
  if chars.take 2 = ['i', 'm'] then
    (⟨.Imag payload, ⟨start, cursor + 2⟩⟩, chars.drop 2, cursor + 2)
  else
    (⟨plain payload, ⟨start, cursor⟩⟩, chars, cursor)

/-- `Lexer::tokenize_prefixed_integer`: `c` is the consumed base letter.
The final arm covers `x`/`X`; the source marks other letters unreachable
because the dispatcher only passes `x X b B o O`. -/
def tokenize_prefixed_integer (c : Char) (start : Nat)
    (chars : List Char) (cursor : Nat) :
    Except LexerError (Token × List Char × Nat) :=
  if c = 'b' ∨ c = 'B' then
    match chars with
    | d :: rest =>
      if d = '_' ∨ is_bin_digit d then
        match lex_prefixed_digits d start IntBase.Bin rest (cursor + 1) with
        | .ok (digits, chars2, cursor2) =>
          .ok (⟨.Integer digits .Bin, ⟨start, cursor2⟩⟩, chars2, cursor2)
        | .error e => .error e
      else .error ⟨.MissingDigitPartInBinInteger, ⟨start, cursor⟩⟩
    | [] => .error ⟨.MissingDigitPartInBinInteger, ⟨start, cursor⟩⟩
  else if c = 'o' ∨ c = 'O' then
    match chars with
    | d :: rest =>
      if d = '_' ∨ is_oct_digit d then
        match lex_prefixed_digits d start IntBase.Oct rest (cursor + 1) with
        | .ok (digits, chars2, cursor2) =>
          .ok (⟨.Integer digits .Oct, ⟨start, cursor2⟩⟩, chars2, cursor2)
        | .error e => .error e
      else .error ⟨.MissingDigitPartInOctInteger, ⟨start, cursor⟩⟩
    | [] => .error ⟨.MissingDigitPartInOctInteger, ⟨start, cursor⟩⟩
  else
    match chars with
    | d :: rest =>
      if d = '_' ∨ is_hex_digit d then
        match lex_prefixed_digits d start IntBase.Hex rest (cursor + 1) with
        | .ok (digits, chars2, cursor2) =>
          .ok (⟨.Integer digits .Hex, ⟨start, cursor2⟩⟩, chars2, cursor2)
        | .error e => .error e
      else .error ⟨.MissingDigitPartInHexInteger, ⟨start, cursor⟩⟩
    | [] => .error ⟨.MissingDigitPartInHexInteger, ⟨start, cursor⟩⟩

/-- `Lexer::tokenize_leading_zero_dec_integer_or_float_or_im`.  Note that
only a lowercase `e` starts an exponent inside this loop. -/
def tokenize_leading_zero (start : Nat) :
    List Char → Nat → Except LexerError (Token × List Char × Nat)
  | c :: rest, cursor =>
    if c = '_' then
      -- eat the underscore, then require another zero
      if rest.head? = some '0' then
        tokenize_leading_zero start rest (cursor + 1)
      else
        .error ⟨.InvalidCharacterAfterUnderscoreInDigitPart, ⟨start, cursor + 1⟩⟩
    else if c = '0' then
      tokenize_leading_zero start rest (cursor + 1)
    else if c = '.' then
      match lex_float_fraction start rest (cursor + 1) with
      | .ok (frac, chars2, cursor2) =>
        .ok (finish_num .Float ("0" ++ frac) start chars2 cursor2)
      | .error e => .error e
    else if c = 'e' then
      match lex_float_exponent start rest (cursor + 1) with
      | .ok (expo, chars2, cursor2) =>
        .ok (finish_num .Float ("0" ++ expo) start chars2 cursor2)
      | .error e => .error e
    else if is_dec_digit c then
      .error ⟨.InvalidLeadingZeroInDecInteger, ⟨start, cursor⟩⟩
    else
      .ok (finish_num (fun p => .Integer p .Dec) "0" start (c :: rest) cursor)
  | [], cursor => .ok (finish_num (fun p => .Integer p .Dec) "0" start [] cursor)

/-- `Lexer::tokenize_leading_non_zero_dec_integer_or_float_or_im`. -/
def tokenize_leading_non_zero (acc : String) (start : Nat) :
    List Char → Nat → Except LexerError (Token × List Char × Nat)
  | c :: rest, cursor =>
    if c = '_' then
      -- eat the underscore, then require a decimal digit
      if (rest.head?.elim false is_dec_digit : Bool) then
        tokenize_leading_non_zero acc start rest (cursor + 1)
      else
        .error ⟨.InvalidCharacterAfterUnderscoreInDigitPart, ⟨start, cursor + 1⟩⟩
    else if is_dec_digit c then
      tokenize_leading_non_zero (acc.push c) start rest (cursor + 1)
    else if c = '.' then
      match lex_float_fraction start rest (cursor + 1) with
      | .ok (frac, chars2, cursor2) =>
        .ok (finish_num .Float (acc ++ frac) start chars2 cursor2)
      | .error e => .error e
    else if c = 'e' ∨ c = 'E' then
      match lex_float_exponent start rest (cursor + 1) with
      | .ok (expo, chars2, cursor2) =>
        .ok (finish_num .Float (acc ++ expo) start chars2 cursor2)
      | .error e => .error e
    else
      .ok (finish_num (fun p => .Integer p .Dec) acc start (c :: rest) cursor)
  | [], cursor => .ok (finish_num (fun p => .Integer p .Dec) acc start [] cursor)

/-- `Lexer::tokenize_identifier_or_keyword`: extend the word maximally, then
classify against the keyword table. -/
def tokenize_identifier_or_keyword (acc : String) (start : Nat) :
    List Char → Nat → Token × List Char × Nat
  | c :: rest, cursor =>
    if is_word_char c then
      tokenize_identifier_or_keyword (acc.push c) start rest (cursor + 1)
    else
      (⟨(keyword_from_string acc).elim (.Identifier acc) .Keyword, ⟨start, cursor⟩⟩,
        c :: rest, cursor)
  | [], cursor =>
    (⟨(keyword_from_string acc).elim (.Identifier acc) .Keyword, ⟨start, cursor⟩⟩,
      [], cursor)

/-- Skip loop for mid-line spaces and tabs in `next_token`. -/
def skip_horizontal : List Char → Nat → List Char × Nat
  | c :: rest, cursor =>
    if c = ' ' ∨ c = '\t' then skip_horizontal rest (cursor + 1)
    else (c :: rest, cursor)
  | [], cursor => ([], cursor)

/-- Skip loop for `#` comments in `next_token`: consume up to, but not
including, the next CR/LF. -/
def skip_comment : List Char → Nat → List Char × Nat
  | c :: rest, cursor =>
    if c = '\r' ∨ c = '\n' then (c :: rest, cursor)
    else skip_comment rest (cursor + 1)
  | [], cursor => ([], cursor)

/-- Leading-whitespace counting loop of
`Lexer::tokenize_newline_or_indentation`; returns the last whitespace
character seen, the count, the mixed-spaces flag, and the rest. -/
def count_spaces : List Char → Nat → Option Char → Int → Bool →
    Option Char × Int × Bool × List Char × Nat
  | c :: rest, cursor, prev, count, mixed =>
    if c = ' ' ∨ c = '\t' then
      count_spaces rest (cursor + 1) (some c) (count + 1)
        (mixed || (prev.isSome && some c ≠ prev))
    else (prev, count, mixed, c :: rest, cursor)
  | [], cursor, prev, count, mixed => (prev, count, mixed, [], cursor)

/-- The Windows-newline step of `tokenize_newline_or_indentation`: after a
CR, a directly following LF is consumed too. -/
def crlf_skip (c : Char) (chars : List Char) (cursor : Nat) : List Char × Nat :=
  if c = '\r' ∧ chars.head? = some '\n' then (chars.drop 1, cursor + 1)
  else (chars, cursor)

/-- Embeds `Lexer::tokenize_newline_or_indentation`: `c` is the consumed
CR/LF and `start` the cursor value just before it; `st.chars` sits right
after `c`. -/
def tokenize_newline_or_indentation (c : Char) (start : Nat) (st : Lexer) :
    Except LexerError (Token × Lexer) :=
  match crlf_skip c st.chars st.cursor with
  | (chars0, cursor0) =>
  match count_spaces chars0 cursor0 none 0 false with
  | (prev_space, space_count, mixed_spaces, chars1, cursor1) =>
    let prev_space_count : Int := st.indent_level * st.indent_size
    let indent_diff : Int := space_count - prev_space_count
    let peek1 := chars1.head?
    if space_count > 0 ∧ ¬(peek1 = some '\r' ∨ peek1 = some '\n' ∨ peek1 = some '#') then
      if mixed_spaces then .error ⟨.MixedSpaces, ⟨start, cursor1⟩⟩
      else
        let space_kind := indent_kind_of_char (prev_space.getD ' ')
        if st.indent_kind ≠ IndentKind.Unknown ∧ space_kind ≠ st.indent_kind then
          .error ⟨.InconsistentIndent, ⟨start, cursor1⟩⟩
        else if indent_diff > 0 then
          -- an indentation; the first one fixes the indent size and kind
          if st.indent_size = 0 then
            .ok (⟨.Indent, ⟨start, cursor1⟩⟩,
              { st with
                chars := chars1
                cursor := cursor1
                indent_size := indent_diff
                indent_kind := space_kind
                indent_level := space_count / indent_diff })
          else if st.indent_size ≠ indent_diff then
            .error ⟨.MixedIndentSizes, ⟨start, cursor1⟩⟩
          else
            .ok (⟨.Indent, ⟨start, cursor1⟩⟩,
              { st with
                chars := chars1
                cursor := cursor1
                indent_level := space_count / st.indent_size })
        else if indent_diff < 0 then
          -- a dedentation; all dedents but the last go to the buffer
          if indent_diff % st.indent_size ≠ 0 then
            .error ⟨.InconsistentDedent, ⟨start, cursor1⟩⟩
          else
            .ok (⟨.Dedent, ⟨start, cursor1⟩⟩,
              { st with
                chars := chars1
                cursor := cursor1
                token_buffer :=
                  List.replicate (|indent_diff| / st.indent_size - 1).toNat
                    ⟨.Dedent, ⟨start, cursor1⟩⟩ ++ st.token_buffer
                indent_level := space_count / st.indent_size })
        else .ok (⟨.Newline, ⟨start, cursor1⟩⟩, { st with chars := chars1, cursor := cursor1 })
    else if peek1 = none then
      -- the code ends with this newline: flush pending dedents
      if indent_diff < 0 then
        .ok (⟨.Dedent, ⟨start, cursor1⟩⟩,
          { st with
            chars := chars1
            cursor := cursor1
            token_buffer :=
              List.replicate (|indent_diff| / st.indent_size - 1).toNat
                ⟨.Dedent, ⟨start, cursor1⟩⟩ ++ st.token_buffer
            indent_level := space_count / st.indent_size })
      else .ok (⟨.Newline, ⟨start, cursor1⟩⟩, { st with chars := chars1, cursor := cursor1 })
    else .ok (⟨.Newline, ⟨start, cursor1⟩⟩, { st with chars := chars1, cursor := cursor1 })

/-- Rebuilds the lexer state around a recognizer result. -/
def with_state (st : Lexer) :
    Except LexerError (Token × List Char × Nat) → Except LexerError (Token × Lexer)
  | .ok (t, chars2, cursor2) => .ok (t, { st with chars := chars2, cursor := cursor2 })
  | .error e => .error e

/-- String-literal recognition step shared by the quote branches:
`chars`/`cursor` sit right after the opening quote, the long flag is the
source's `peek_string(2)` comparison. -/
def lex_quoted_string (quote : Char) (mk : String → TokenKind) (start : Nat)
    (st : Lexer) (chars : List Char) (cursor : Nat) :
    Except LexerError (Token × Lexer) :=
  match lex_short_or_long_string quote start (chars.take 2 = [quote, quote]) chars cursor with
  | .ok (s, chars2, cursor2) =>
    .ok (⟨mk s, ⟨start, cursor2⟩⟩, { st with chars := chars2, cursor := cursor2 })
  | .error e => .error e

/-- Byte-literal recognition step shared by the `b`/`rb`/`r`/`rf` quote
branches (the source routes all of these through
`lex_short_or_long_bytes`). -/
def lex_quoted_bytes (quote : Char) (mk : String → TokenKind) (start : Nat)
    (st : Lexer) (chars : List Char) (cursor : Nat) :
    Except LexerError (Token × Lexer) :=
  match lex_short_or_long_bytes quote start (chars.take 2 = [quote, quote]) chars cursor with
  | .ok (s, chars2, cursor2) =>
    .ok (⟨mk s, ⟨start, cursor2⟩⟩, { st with chars := chars2, cursor := cursor2 })
  | .error e => .error e

/-- Advance the state by `k` already-peeked characters. -/
def adv (st : Lexer) (k : Nat) : Lexer :=
  { st with chars := st.chars.drop k, cursor := st.cursor + k }

/-- The dispatch loop of `Lexer::next_token`.  The fuel only feeds the
`continue` branches (whitespace runs, comments, line continuations), each of
which consumes at least one character first, so `chars.length + 1` is always
enough; `next_token` passes exactly that. -/
def next_token_loop : Nat → Lexer → Option (Except LexerError (Token × Lexer))
  | 0, _ => none
  | fuel + 1, st =>
    match st.chars with
    | [] => none
    | c :: rest =>
      let start := st.cursor
      let st1 : Lexer := { st with chars := rest, cursor := st.cursor + 1 }
      if c = ' ' ∨ c = '\t' then
        -- skip horizontal spaces
        match skip_horizontal rest st1.cursor with
        | (chars2, cursor2) =>
          next_token_loop fuel { st with chars := chars2, cursor := cursor2 }
      else if c = '\r' ∨ c = '\n' then
        some (tokenize_newline_or_indentation c start st1)
      else if c = '#' then
        -- skip single line comments
        match skip_comment rest st1.cursor with
        | (chars2, cursor2) =>
          next_token_loop fuel { st with chars := chars2, cursor := cursor2 }
      else if c = '\\' then
        -- skip line continuation escape sequences
        if rest.head? = some '\r' then
          if (rest.drop 1).head? = some '\n' then
            next_token_loop fuel { st with chars := rest.drop 2, cursor := st.cursor + 3 }
          else
            next_token_loop fuel { st with chars := rest.drop 1, cursor := st.cursor + 2 }
        else if rest.head? = some '\n' then
          next_token_loop fuel { st with chars := rest.drop 1, cursor := st.cursor + 2 }
        else some (.error ⟨.InvalidLineContinuationEscapeSequence, ⟨start, st1.cursor⟩⟩)
      else if c = '\'' then
        some (lex_quoted_string '\'' (fun s => .Str s .Str) start st1 rest st1.cursor)
      else if c = '"' then
        some (lex_quoted_string '"' (fun s => .Str s .Str) start st1 rest st1.cursor)
      else if c = '.' then
        -- float starting at the fraction, or the dot delimiter
        if (rest.head?.elim false is_dec_digit : Bool) then
          some (match lex_float_fraction start rest st1.cursor with
            | .ok (frac, chars2, cursor2) =>
              with_state st1 (.ok (finish_num .Float ("0" ++ frac) start chars2 cursor2))
            | .error e => .error e)
        else some (.ok (⟨.Delim .Dot, ⟨start, st1.cursor⟩⟩, st1))
      else if c = '0' then
        some (match rest.head? with
          | some c2 =>
            if c2 = 'x' ∨ c2 = 'X' ∨ c2 = 'b' ∨ c2 = 'B' ∨ c2 = 'o' ∨ c2 = 'O' then
              with_state st1 (tokenize_prefixed_integer c2 start (rest.drop 1) (st1.cursor + 1))
            else if c2 = '_' ∨ c2 = '0' then
              if c2 = '_' ∧ ¬((rest.drop 1).head? = some '0') then
                .error ⟨.InvalidCharacterAfterUnderscoreInDigitPart, ⟨start, st1.cursor + 1⟩⟩
              else
                with_state st1 (tokenize_leading_zero start (rest.drop 1) (st1.cursor + 1))
            else if is_dec_digit c2 then
              .error ⟨.InvalidLeadingZeroInDecInteger, ⟨start, st1.cursor⟩⟩
            else if c2 = '.' then
              (match lex_float_fraction start (rest.drop 1) (st1.cursor + 1) with
                | .ok (frac, chars2, cursor2) =>
                  with_state st1 (.ok (finish_num .Float ("0" ++ frac) start chars2 cursor2))
                | .error e => .error e)
            else if c2 = 'e' ∨ c2 = 'E' then
              (match lex_float_exponent start (rest.drop 1) (st1.cursor + 1) with
                | .ok (expo, chars2, cursor2) =>
                  with_state st1 (.ok (finish_num .Float ("0" ++ expo) start chars2 cursor2))
                | .error e => .error e)
            else with_state st1 (.ok (finish_num (fun p => .Integer p .Dec) "0" start rest st1.cursor))
          | none => with_state st1 (.ok (finish_num (fun p => .Integer p .Dec) "0" start rest st1.cursor)))
      else if is_dec_digit c then
        some (match rest.head? with
          | some c2 =>
            if c2 = '_' ∨ is_dec_digit c2 then
              if c2 = '_' ∧ ¬(((rest.drop 1).head?.elim false is_dec_digit : Bool)) then
                .error ⟨.InvalidCharacterAfterUnderscoreInDigitPart, ⟨start, st1.cursor + 1⟩⟩
              else
                with_state st1 (tokenize_leading_non_zero
                  (if c2 = '_' then String.singleton c else (String.singleton c).push c2)
                  start (rest.drop 1) (st1.cursor + 1))
            else if c2 = '.' then
              (match lex_float_fraction start (rest.drop 1) (st1.cursor + 1) with
                | .ok (frac, chars2, cursor2) =>
                  with_state st1 (.ok (finish_num .Float (String.singleton c ++ frac) start chars2 cursor2))
                | .error e => .error e)
            else if c2 = 'e' ∨ c2 = 'E' then
              (match lex_float_exponent start (rest.drop 1) (st1.cursor + 1) with
                | .ok (expo, chars2, cursor2) =>
                  with_state st1 (.ok (finish_num .Float (String.singleton c ++ expo) start chars2 cursor2))
                | .error e => .error e)
            else with_state st1 (.ok (finish_num (fun p => .Integer p .Dec) (String.singleton c) start rest st1.cursor))
          | none => with_state st1 (.ok (finish_num (fun p => .Integer p .Dec) (String.singleton c) start rest st1.cursor)))
      else if c = 'f' then
        some (match rest.head? with
          | some '"' => lex_quoted_string '"' (fun s => .Str s .Format) start st1 (rest.drop 1) (st1.cursor + 1)
          | some '\'' => lex_quoted_string '\'' (fun s => .Str s .Format) start st1 (rest.drop 1) (st1.cursor + 1)
          | _ => with_state st1 (.ok (tokenize_identifier_or_keyword "f" start rest st1.cursor)))
      else if c = 'b' then
        some (match rest.head? with
          | some '"' => lex_quoted_bytes '"' (fun s => .ByteStr s .Bytes) start st1 (rest.drop 1) (st1.cursor + 1)
          | some '\'' => lex_quoted_bytes '\'' (fun s => .ByteStr s .Bytes) start st1 (rest.drop 1) (st1.cursor + 1)
          | _ => with_state st1 (.ok (tokenize_identifier_or_keyword "b" start rest st1.cursor)))
      else if c = 'r' then
        some (match rest.head? with
          | some '"' => lex_quoted_bytes '"' (fun s => .Str s .RawStr) start st1 (rest.drop 1) (st1.cursor + 1)
          | some '\'' => lex_quoted_bytes '\'' (fun s => .Str s .RawStr) start st1 (rest.drop 1) (st1.cursor + 1)
          | some 'b' =>
            (match (rest.drop 1).head? with
              | some '"' => lex_quoted_bytes '"' (fun s => .ByteStr s .RawBytes) start st1 (rest.drop 2) (st1.cursor + 2)
              | some '\'' => lex_quoted_bytes '\'' (fun s => .ByteStr s .RawBytes) start st1 (rest.drop 2) (st1.cursor + 2)
              | _ => with_state st1 (.ok (tokenize_identifier_or_keyword "rb" start (rest.drop 1) (st1.cursor + 1))))
          | some 'f' =>
            (match (rest.drop 1).head? with
              | some '"' => lex_quoted_bytes '"' (fun s => .Str s .RawFormat) start st1 (rest.drop 2) (st1.cursor + 2)
              | some '\'' => lex_quoted_bytes '\'' (fun s => .Str s .RawFormat) start st1 (rest.drop 2) (st1.cursor + 2)
              | _ => with_state st1 (.ok (tokenize_identifier_or_keyword "rf" start (rest.drop 1) (st1.cursor + 1))))
          | _ => with_state st1 (.ok (tokenize_identifier_or_keyword "r" start rest st1.cursor)))
      else if ('a' ≤ c ∧ c ≤ 'z') ∨ ('A' ≤ c ∧ c ≤ 'Z') ∨ c = '_' then
        some (with_state st1 (.ok (tokenize_identifier_or_keyword (String.singleton c) start rest st1.cursor)))
      else if c = '/' then
        some (.ok (
          if rest.head? = some '/' then
            if (rest.drop 1).head? = some '=' then
              (⟨.Delim .IntDivAssign, ⟨start, st.cursor + 3⟩⟩, adv st 3)
            else (⟨.Op .IntDiv, ⟨start, st.cursor + 2⟩⟩, adv st 2)
          else if rest.head? = some '=' then
            (⟨.Delim .DivAssign, ⟨start, st.cursor + 2⟩⟩, adv st 2)
          else (⟨.Op .Div, ⟨start, st.cursor + 1⟩⟩, st1)))
      else if c = '>' then
        some (.ok (
          if rest.head? = some '>' then
            if (rest.drop 1).head? = some '=' then
              (⟨.Delim .ShiftRAssign, ⟨start, st.cursor + 3⟩⟩, adv st 3)
            else (⟨.Op .ShiftR, ⟨start, st.cursor + 2⟩⟩, adv st 2)
          else if rest.head? = some '=' then
            (⟨.Op .GreaterEq, ⟨start, st.cursor + 2⟩⟩, adv st 2)
          else (⟨.Op .Greater, ⟨start, st.cursor + 1⟩⟩, st1)))
      else if c = '<' then
        some (.ok (
          if rest.head? = some '<' then
            if (rest.drop 1).head? = some '=' then
              (⟨.Delim .ShiftLAssign, ⟨start, st.cursor + 3⟩⟩, adv st 3)
            else (⟨.Op .ShiftL, ⟨start, st.cursor + 2⟩⟩, adv st 2)
          else if rest.head? = some '=' then
            (⟨.Op .LessEq, ⟨start, st.cursor + 2⟩⟩, adv st 2)
          else (⟨.Op .Less, ⟨start, st.cursor + 1⟩⟩, st1)))
      else if c = '=' then
        some (.ok (
          if rest.head? = some '=' then (⟨.Op .Eq, ⟨start, st.cursor + 2⟩⟩, adv st 2)
          else (⟨.Delim .Assign, ⟨start, st.cursor + 1⟩⟩, st1)))
      else if c = '!' then
        some (
          if rest.head? = some '=' then .ok (⟨.Op .NotEq, ⟨start, st.cursor + 2⟩⟩, adv st 2)
          else .error ⟨.InvalidOperator, ⟨start, st1.cursor⟩⟩)
      else if c = '|' then
        some (.ok (
          if rest.head? = some '=' then (⟨.Delim .BitOrAssign, ⟨start, st.cursor + 2⟩⟩, adv st 2)
          else (⟨.Op .BitOr, ⟨start, st.cursor + 1⟩⟩, st1)))
      else if c = '-' then
        some (.ok (
          if rest.head? = some '=' then (⟨.Delim .MinusAssign, ⟨start, st.cursor + 2⟩⟩, adv st 2)
          else if rest.head? = some '>' then (⟨.Delim .Arrow, ⟨start, st.cursor + 2⟩⟩, adv st 2)
          else (⟨.Op .Minus, ⟨start, st.cursor + 1⟩⟩, st1)))
      else if c = '+' then
        some (.ok (
          if rest.head? = some '=' then (⟨.Delim .PlusAssign, ⟨start, st.cursor + 2⟩⟩, adv st 2)
          else (⟨.Op .Plus, ⟨start, st.cursor + 1⟩⟩, st1)))
      else if c = '*' then
        some (.ok (
          if rest.head? = some '=' then (⟨.Delim .MulAssign, ⟨start, st.cursor + 2⟩⟩, adv st 2)
          else if rest.head? = some '*' then (⟨.Op .Pow, ⟨start, st.cursor + 2⟩⟩, adv st 2)
          else (⟨.Op .Mul, ⟨start, st.cursor + 1⟩⟩, st1)))
      else if c = '^' then
        some (.ok (
          if rest.head? = some '=' then (⟨.Delim .BitXorAssign, ⟨start, st.cursor + 2⟩⟩, adv st 2)
          else (⟨.Op .BitXor, ⟨start, st.cursor + 1⟩⟩, st1)))
      else if c = '&' then
        some (.ok (
          if rest.head? = some '=' then (⟨.Delim .BitAndAssign, ⟨start, st.cursor + 2⟩⟩, adv st 2)
          else (⟨.Op .BitAnd, ⟨start, st.cursor + 1⟩⟩, st1)))
      else if c = '%' then
        some (.ok (
          if rest.head? = some '=' then (⟨.Delim .ModAssign, ⟨start, st.cursor + 2⟩⟩, adv st 2)
          else (⟨.Op .Mod, ⟨start, st.cursor + 1⟩⟩, st1)))
      else if c = '@' then
        some (.ok (
          if rest.head? = some '=' then (⟨.Delim .AtAssign, ⟨start, st.cursor + 2⟩⟩, adv st 2)
          else (⟨.Delim .At, ⟨start, st.cursor + 1⟩⟩, st1)))
      else if c = '~' then some (.ok (⟨.Op .BitNot, ⟨start, st1.cursor⟩⟩, st1))
      else if c = '²' then some (.ok (⟨.Op .Square, ⟨start, st1.cursor⟩⟩, st1))
      else if c = '√' then some (.ok (⟨.Op .Sqrt, ⟨start, st1.cursor⟩⟩, st1))
      else if c = '{' then some (.ok (⟨.Delim .LBrace, ⟨start, st1.cursor⟩⟩, st1))
      else if c = '}' then some (.ok (⟨.Delim .RBrace, ⟨start, st1.cursor⟩⟩, st1))
      else if c = '(' then some (.ok (⟨.Delim .LParen, ⟨start, st1.cursor⟩⟩, st1))
      else if c = ')' then some (.ok (⟨.Delim .RParen, ⟨start, st1.cursor⟩⟩, st1))
      else if c = '[' then some (.ok (⟨.Delim .LBracket, ⟨start, st1.cursor⟩⟩, st1))
      else if c = ']' then some (.ok (⟨.Delim .RBracket, ⟨start, st1.cursor⟩⟩, st1))
      else if c = ',' then some (.ok (⟨.Delim .Comma, ⟨start, st1.cursor⟩⟩, st1))
      else if c = ':' then some (.ok (⟨.Delim .Colon, ⟨start, st1.cursor⟩⟩, st1))
      else if c = ';' then some (.ok (⟨.Delim .SemiColon, ⟨start, st1.cursor⟩⟩, st1))
      else some (.error ⟨.InvalidCharacter, ⟨start, st1.cursor⟩⟩)

/-- `Lexer::next_token`: drain the token buffer first, then run the
dispatch loop. -/
def next_token (st : Lexer) : Option (Except LexerError (Token × Lexer)) :=
  match st.token_buffer with
  | t :: rest => some (.ok (t, { st with token_buffer := rest }))
  | [] => next_token_loop (st.chars.length + 1) st

/-- The iterator of `Lexer::tokenize`: pull tokens until the end or the
first error; nothing is yielded after an error. -/
def stream : Nat → Lexer → List (Except LexerError Token)
  | 0, _ => []
  | fuel + 1, st =>
    match next_token st with
    | none => []
    | some (.error e) => [.error e]
    | some (.ok (t, st')) => .ok t :: stream fuel st'

instance {ε α : Type} [DecidableEq ε] [DecidableEq α] : DecidableEq (Except ε α)
  | .ok a, .ok b =>
    if h : a = b then .isTrue (by rw [h]) else .isFalse (by simp [h])
  | .error a, .error b =>
    if h : a = b then .isTrue (by rw [h]) else .isFalse (by simp [h])
  | .ok _, .error _ => .isFalse (by simp)
  | .error _, .ok _ => .isFalse (by simp)

/-- `Lexer::new`. -/
def init_lexer (code : String) : Lexer :=
  ⟨code.data, 0, .Unknown, 0, 0, []⟩

/-- `Lexer::tokenize code` as the finite list of yielded items.  The fuel
`2 * length + 1` strictly dominates the step measure
`2 * chars + buffered + indent_level`, which every pull decreases, so the
list is the entire output of the iterator (proved below). -/
def tokenize (code : String) : List (Except LexerError Token) :=
  stream (2 * code.length + 1) (init_lexer code)

/-! Frame facts.  Every recognizer only consumes input: its resulting
character list is a suffix of the input and the cursor advances by exactly
the number of consumed characters. -/

/-- `(chars', cursor')` arises from `(chars, cursor)` by consuming a prefix. -/
def Adv (chars : List Char) (cursor : Nat) (chars' : List Char) (cursor' : Nat) : Prop :=
  ∃ k, k ≤ chars.length ∧ chars' = chars.drop k ∧ cursor' = cursor + k

/-- What a payload recognizer guarantees: on success it only consumed input,
and on failure the reported span starts at `start`, is non-empty, and stays
inside the input. -/
def RecogSpec (start : Nat) (chars : List Char) (cursor : Nat) {α : Type} :
    Except LexerError (α × List Char × Nat) → Prop
  | .ok (_, chars', cursor') => Adv chars cursor chars' cursor'
  | .error e =>
    e.span.start = start ∧ start < e.span.stop ∧ e.span.stop ≤ cursor + chars.length

/-- What a token recognizer guarantees: additionally the produced token's
span runs from `start` to the final cursor. -/
def TokSpec (start : Nat) (chars : List Char) (cursor : Nat) :
    Except LexerError (Token × List Char × Nat) → Prop
  | .ok (t, chars', cursor') =>
    Adv chars cursor chars' cursor' ∧ t.span.start = start ∧ t.span.stop = cursor'
  | .error e =>
    e.span.start = start ∧ start < e.span.stop ∧ e.span.stop ≤ cursor + chars.length

/-- How a token kind shifts the `Indent`-minus-`Dedent` balance. -/
def token_delta (k : TokenKind) : Int :=
  match k with
  | .Indent => 1
  | .Dedent => -1
  | _ => 0

/-- Exponent canonicity of a payload: every `e` is directly followed by an
explicit `+` or `-` sign. -/
def expo_signed : List Char → Bool
  | [] => true
  | c :: rest =>
    if c = 'e' then
      match rest with
      | c2 :: rest2 => (c2 == '+' || c2 == '-') && expo_signed rest2
      | [] => false
    else expo_signed rest

/-- Canonical payload of a numeric token: underscores are stripped, and in
float or imaginary payloads the exponent marker always carries a sign. -/
def payload_canonical (t : Token) : Prop :=
  match t.kind with
  | .Integer p _ => '_' ∉ p.data
  | .Float p => '_' ∉ p.data ∧ expo_signed p.data = true
  | .Imag p => '_' ∉ p.data ∧ expo_signed p.data = true
  | _ => True

/-- States reachable by the lexer: the indentation counters are non-negative
(a level exists only after a size was fixed), and the pending buffer holds
only identical `Dedent` tokens with proper spans behind the cursor. -/
def StateInv (s : Lexer) : Prop :=
  0 ≤ s.indent_level ∧ 0 ≤ s.indent_size ∧
  (s.indent_size = 0 → s.indent_level = 0) ∧
  (∀ u ∈ s.token_buffer, u.kind = .Dedent ∧ u.span.start < u.span.stop ∧
    u.span.stop ≤ s.cursor) ∧
  (∀ u ∈ s.token_buffer, ∀ v ∈ s.token_buffer, u = v)

/-- Everything one successful pull guarantees. -/
def NextOk (s : Lexer) (t : Token) (s' : Lexer) : Prop :=
  s.cursor ≤ s'.cursor ∧
  s'.cursor + s'.chars.length = s.cursor + s.chars.length ∧
  t.span.start < t.span.stop ∧
  t.span.stop ≤ s'.cursor ∧
  (∀ u ∈ s'.token_buffer, u = t) ∧
  (s.token_buffer = [] → s.cursor ≤ t.span.start) ∧
  s'.indent_level + (s'.token_buffer.length : Int) =
    s.indent_level + (s.token_buffer.length : Int) + token_delta t.kind ∧
  payload_canonical t ∧
  2 * s'.chars.length + s'.token_buffer.length + s'.indent_level.toNat
    < 2 * s.chars.length + s.token_buffer.length + s.indent_level.toNat

/-- Everything a failing pull guarantees. -/
def NextErr (s : Lexer) (e : LexerError) : Prop :=
  e.span.start < e.span.stop ∧ e.span.stop ≤ s.cursor + s.chars.length

/-- What the newline handler guarantees, stated on the state `st1` that sits
right after the consumed CR/LF at `start`. -/
def HandlerSpec (start : Nat) (st1 : Lexer) :
    Except LexerError (Token × Lexer) → Prop
  | .ok (t, s') =>
    st1.cursor ≤ s'.cursor ∧
    s'.cursor + s'.chars.length = st1.cursor + st1.chars.length ∧
    t.span.start = start ∧ t.span.stop = s'.cursor ∧
    (∀ u ∈ s'.token_buffer, u = t) ∧
    (s'.token_buffer ≠ [] → t.kind = TokenKind.Dedent) ∧
    s'.indent_level + (s'.token_buffer.length : Int) =
      st1.indent_level + token_delta t.kind ∧
    0 ≤ s'.indent_level ∧ 0 ≤ s'.indent_size ∧
    (s'.indent_size = 0 → s'.indent_level = 0) ∧
    (t.kind = .Indent ∨ t.kind = .Dedent ∨ t.kind = .Newline)
  | .error e =>
    e.span.start = start ∧ start < e.span.stop ∧
    e.span.stop ≤ st1.cursor + st1.chars.length

/-- The payload fragments that make canonical numeric text. -/
def payload_ok (l : List Char) : Prop := '_' ∉ l ∧ expo_signed l = true

/-- Accumulated digit strings. -/
def digits_only (s : String) : Prop := ∀ ch ∈ s.data, is_dec_digit ch

/-- Token facts the dispatcher needs about every freshly produced token:
it does not move the indentation balance and its payload is canonical. -/
def TokGood (t : Token) : Prop := token_delta t.kind = 0 ∧ payload_canonical t

/-- What one pull of the dispatcher guarantees from a state satisfying the
invariant with an empty buffer. -/
def StepSpec (s : Lexer) : Except LexerError (Token × Lexer) → Prop
  | .ok (t, s') => NextOk s t s' ∧ StateInv s'
  | .error e => NextErr s e

/-- `StepSpec` lifted over the optional result of the fueled loop. -/
def OptStepSpec (s : Lexer) : Option (Except LexerError (Token × Lexer)) → Prop
  | none => True
  | some r => StepSpec s r

/-- The shape `Lexer::tokenize` guarantees of its item list: tokens, then at
most one error, and nothing after an error. -/
def OkThenErr : List (Except LexerError Token) → Prop
  | [] => True
  | .ok _ :: rest => OkThenErr rest
  | .error _ :: rest => rest = []

/-- The `Ok` tokens of the yielded items, in order. -/
def ok_tokens : List (Except LexerError Token) → List Token
  | [] => []
  | .ok t :: rest => t :: ok_tokens rest
  | .error _ :: rest => ok_tokens rest

/-- How two successive tokens of the stream relate: they touch in order, or
they are two buffered `Dedent` tokens sharing one span. -/
def span_rel (t u : Token) : Prop :=
  (t.span.stop ≤ u.span.start ∧ u.span.start ≤ u.span.stop) ∨
  (t.kind = TokenKind.Dedent ∧ u.kind = TokenKind.Dedent ∧ t.span = u.span)

/-- What holds of the state after a token was yielded, looking back at it. -/
def PrevOk (t : Token) (s : Lexer) : Prop :=
  (s.token_buffer = [] → t.span.stop ≤ s.cursor) ∧
  (∀ u ∈ s.token_buffer, u = t)

/-- Every yielded item carries a non-empty span inside the input. -/
def item_span_ok (bound : Nat) : Except LexerError Token → Prop
  | .ok t => t.span.start < t.span.stop ∧ t.span.stop ≤ bound
  | .error e => e.span.start < e.span.stop ∧ e.span.stop ≤ bound

/-- Every yielded token has a canonical payload. -/
def item_canonical : Except LexerError Token → Prop
  | .ok t => payload_canonical t
  | .error _ => True

/-- One item's contribution to the `Indent`-minus-`Dedent` balance. -/
def item_delta : Except LexerError Token → Int
  | .ok t => token_delta t.kind
  | .error _ => 0

/-- The `Indent`-minus-`Dedent` balance of a list of items. -/
def bal : List (Except LexerError Token) → Int
  | [] => 0
  | item :: rest => item_delta item + bal rest

/-- Number of `Indent` tokens among the items. -/
def indent_count : List (Except LexerError Token) → Nat
  | [] => 0
  | .ok t :: rest => (if t.kind = TokenKind.Indent then 1 else 0) + indent_count rest
  | .error _ :: rest => indent_count rest

/-- Number of `Dedent` tokens among the items. -/
def dedent_count : List (Except LexerError Token) → Nat
  | [] => 0
  | .ok t :: rest => (if t.kind = TokenKind.Dedent then 1 else 0) + dedent_count rest
  | .error _ :: rest => dedent_count rest

theorem Adv.refl (chars : List Char) (cursor : Nat) : Adv chars cursor chars cursor :=
  ⟨0, by simp⟩

theorem Adv.drop (chars : List Char) (cursor : Nat) (j : Nat) (hj : j ≤ chars.length) :
    Adv chars cursor (chars.drop j) (cursor + j) :=
  ⟨j, hj, rfl, rfl⟩

theorem adv_cons {rest chars' : List Char} {cursor cursor' : Nat} (c : Char)
    (h : Adv rest (cursor + 1) chars' cursor') :
    Adv (c :: rest) cursor chars' cursor' := by
  obtain ⟨k, hk, hch, hcu⟩ := h
  exact ⟨k + 1, by simpa using hk, by simpa using hch, by omega⟩

theorem Adv.trans {a b c : List Char} {ca cb cc : Nat}
    (h1 : Adv a ca b cb) (h2 : Adv b cb c cc) : Adv a ca c cc := by
  obtain ⟨k, hk, hch, hcu⟩ := h1
  obtain ⟨j, hj, hch', hcu'⟩ := h2
  refine ⟨k + j, ?_, ?_, by omega⟩
  · subst hch; simp only [List.length_drop] at hj; omega
  · subst hch; rw [hch', List.drop_drop]; try rw [Nat.add_comm]

theorem Adv.cursor_le {a b : List Char} {ca cb : Nat} (h : Adv a ca b cb) : ca ≤ cb := by
  obtain ⟨k, _, _, hcu⟩ := h; omega

theorem Adv.sync {a b : List Char} {ca cb : Nat} (h : Adv a ca b cb) :
    cb + b.length = ca + a.length := by
  obtain ⟨k, hk, hch, hcu⟩ := h
  subst hch hcu; simp only [List.length_drop]; omega

theorem Adv.length_le {a b : List Char} {ca cb : Nat} (h : Adv a ca b cb) :
    b.length ≤ a.length := by
  have := h.sync; have := h.cursor_le; omega

theorem Adv.length_lt {a b : List Char} {ca cb : Nat} (h : Adv a ca b cb)
    (hcu : ca < cb) : b.length < a.length := by
  have := h.sync; omega

theorem recog_spec_cons {α : Type} {start cursor : Nat} {rest : List Char} (c : Char)
    {r : Except LexerError (α × List Char × Nat)}
    (h : RecogSpec start rest (cursor + 1) r) :
    RecogSpec start (c :: rest) cursor r := by
  match r with
  | .ok (a, chars', cursor') => exact adv_cons c h
  | .error e =>
    obtain ⟨h1, h2, h3⟩ := h
    exact ⟨h1, h2, by simp only [List.length_cons]; omega⟩

theorem tok_spec_cons {start cursor : Nat} {rest : List Char} (c : Char)
    {r : Except LexerError (Token × List Char × Nat)}
    (h : TokSpec start rest (cursor + 1) r) :
    TokSpec start (c :: rest) cursor r := by
  match r with
  | .ok (t, chars', cursor') => exact ⟨adv_cons c h.1, h.2⟩
  | .error e =>
    obtain ⟨h1, h2, h3⟩ := h
    exact ⟨h1, h2, by simp only [List.length_cons]; omega⟩

theorem recog_spec_error_mk {α : Type} (start cursor stop : Nat) (chars : List Char)
    (k : LexerErrorKind) (h1 : start < stop) (h2 : stop ≤ cursor + chars.length) :
    RecogSpec (α := α) start chars cursor (.error ⟨k, ⟨start, stop⟩⟩) :=
  ⟨rfl, h1, h2⟩

theorem lex_dec_digits_loop_spec (digits : String) (start : Nat)
    (chars : List Char) (cursor : Nat) (h : start < cursor) :
    RecogSpec start chars cursor (lex_dec_digits_loop digits start chars cursor) := by
  induction chars generalizing digits cursor with
  | nil => exact Adv.refl [] cursor
  | cons c rest ih =>
    unfold lex_dec_digits_loop
    by_cases hc : c = '_'
    · rw [if_pos hc]
      by_cases hd : (rest.head?.elim false is_dec_digit : Bool)
      · rw [if_pos hd]
        exact recog_spec_cons c (ih digits (cursor + 1) (by omega))
      · rw [if_neg hd]
        exact recog_spec_error_mk start cursor (cursor + 1) _ _ (by omega)
          (by simp only [List.length_cons]; omega)
    · rw [if_neg hc]
      by_cases hd : is_dec_digit c
      · rw [if_pos hd]
        exact recog_spec_cons c (ih (digits.push c) (cursor + 1) (by omega))
      · rw [if_neg hd]
        exact Adv.refl _ cursor

theorem lex_prefixed_digits_loop_spec (digits : String) (start : Nat) (base : IntBase)
    (chars : List Char) (cursor : Nat) (h : start < cursor) :
    RecogSpec start chars cursor (lex_prefixed_digits_loop digits start base chars cursor) := by
  induction chars generalizing digits cursor with
  | nil => exact Adv.refl [] cursor
  | cons c rest ih =>
    unfold lex_prefixed_digits_loop
    by_cases hc : c = '_'
    · rw [if_pos hc]
      by_cases hd : prefixed_underscore_ok base rest.head?
      · rw [if_pos hd]
        exact recog_spec_cons c (ih digits (cursor + 1) (by omega))
      · rw [if_neg hd]
        exact recog_spec_error_mk start cursor (cursor + 1) _ _ (by omega)
          (by simp only [List.length_cons]; omega)
    · rw [if_neg hc]
      by_cases h1 : is_bin_digit c
      · rw [if_pos h1]
        exact recog_spec_cons c (ih (digits.push c) (cursor + 1) (by omega))
      · rw [if_neg h1]
        by_cases h2 : is_two_to_seven c
        · rw [if_pos h2]
          by_cases hb : base = IntBase.Bin
          · rw [if_pos hb]
            exact recog_spec_error_mk start cursor cursor _ _ h
              (by simp only [List.length_cons]; omega)
          · rw [if_neg hb]
            exact recog_spec_cons c (ih (digits.push c) (cursor + 1) (by omega))
        · rw [if_neg h2]
          by_cases h3 : is_high_hex_digit c
          · rw [if_pos h3]
            by_cases hb : base = IntBase.Bin ∨ base = IntBase.Oct
            · rw [if_pos hb]
              exact recog_spec_error_mk start cursor cursor _ _ h
                (by simp only [List.length_cons]; omega)
            · rw [if_neg hb]
              exact recog_spec_cons c (ih (digits.push c) (cursor + 1) (by omega))
          · rw [if_neg h3]
            exact Adv.refl _ cursor

theorem lex_float_exponent_spec (start : Nat) (chars : List Char) (cursor : Nat)
    (h : start < cursor) :
    RecogSpec start chars cursor (lex_float_exponent start chars cursor) := by
  unfold lex_float_exponent
  split
  case h_1 c rest =>
    split
    · split
      case h_1 d rest2 =>
        split
        · rename_i hd
          have hs := lex_dec_digits_loop_spec
            (if d ≠ '_' then String.singleton d else "") start rest2 (cursor + 2) (by omega)
          rw [show cursor + 2 = cursor + 1 + 1 by omega] at hs
          unfold lex_dec_digits
          split
          case h_1 digits chars2 cursor2 hr =>
            rw [hr] at hs
            exact adv_cons c (adv_cons d hs)
          case h_2 e hr =>
            rw [hr] at hs
            obtain ⟨h1, h2, h3⟩ := hs
            exact ⟨h1, h2, by simp only [List.length_cons] at h3 ⊢; omega⟩
        · exact recog_spec_error_mk _ _ _ _ _ (by omega)
            (by simp only [List.length_cons]; omega)
      case h_2 =>
        exact recog_spec_error_mk _ _ _ _ _ (by omega)
          (by simp only [List.length_cons, List.length_nil]; omega)
    · split
      · rename_i hc hd
        have hs := lex_dec_digits_loop_spec
          (if c ≠ '_' then String.singleton c else "") start rest (cursor + 1) (by omega)
        unfold lex_dec_digits
        split
        case h_1 digits chars2 cursor2 hr =>
          rw [hr] at hs
          exact adv_cons c hs
        case h_2 e hr =>
          rw [hr] at hs
          obtain ⟨h1, h2, h3⟩ := hs
          exact ⟨h1, h2, by simp only [List.length_cons] at h3 ⊢; omega⟩
      · exact recog_spec_error_mk _ _ _ _ _ h
          (by simp only [List.length_cons]; omega)
  case h_2 =>
    exact recog_spec_error_mk _ _ _ _ _ h
      (by simp only [List.length_nil]; omega)

theorem drop_min_two (l : List Char) : l.drop (min 2 l.length) = l.drop 2 := by
  match l with
  | [] => rfl
  | [a] => rfl
  | a :: b :: t =>
    have h2 : min 2 (a :: b :: t).length = 2 := by
      simp only [List.length_cons]; omega
    rw [h2]

theorem lex_float_fraction_spec (start : Nat) (chars : List Char) (cursor : Nat)
    (h : start < cursor) :
    RecogSpec start chars cursor (lex_float_fraction start chars cursor) := by
  unfold lex_float_fraction
  split
  case h_2 => exact recog_spec_error_mk _ _ _ _ _ h (by simp only [List.length_nil]; omega)
  case h_1 c rest =>
    split
    · rename_i hd
      have hs := lex_dec_digits_loop_spec
        (if c ≠ '_' then String.singleton c else "") start rest (cursor + 1) (by omega)
      unfold lex_dec_digits
      split
      case h_1 digits chars2 cursor2 hr =>
        rw [hr] at hs
        split
        · rename_i rest1
          have hstep : Adv ('e' :: rest1) cursor2 rest1 (cursor2 + 1) :=
            ⟨1, by simp only [List.length_cons]; omega, rfl, rfl⟩
          have hexpo := lex_float_exponent_spec start rest1 (cursor2 + 1)
            (by have := hs.cursor_le; omega)
          split
          case h_1 expo chars3 cursor3 hr2 =>
            rw [hr2] at hexpo
            exact adv_cons c (hs.trans (hstep.trans hexpo))
          case h_2 e hr2 =>
            rw [hr2] at hexpo
            obtain ⟨h1, h2, h3⟩ := hexpo
            have hsync := hs.sync
            refine ⟨h1, h2, ?_⟩
            simp only [List.length_cons] at hsync h3 ⊢
            omega
        · exact adv_cons c hs
      case h_2 e hr =>
        rw [hr] at hs
        obtain ⟨h1, h2, h3⟩ := hs
        exact ⟨h1, h2, by simp only [List.length_cons] at h3 ⊢; omega⟩
    · exact recog_spec_error_mk _ _ _ _ _ h (by simp only [List.length_cons]; omega)

theorem lex_string_loop_spec (quote : Char) (start : Nat) (long : Bool)
    (acc : String) (chars : List Char) (cursor : Nat) (h : start < cursor) :
    RecogSpec start chars cursor (lex_string_loop quote start long acc chars cursor) := by
  induction chars generalizing acc cursor with
  | nil =>
    exact recog_spec_error_mk _ _ _ _ _ h (by simp only [List.length_nil]; omega)
  | cons pc rest ih =>
    unfold lex_string_loop
    by_cases hq : pc = quote
    · rw [if_pos hq]
      by_cases hl : long = true ∧ rest.take 2 ≠ [quote, quote]
      · rw [if_pos hl]
        split
        · rename_i q rest'
          by_cases hq2 : q = quote
          · rw [if_pos hq2]
            exact recog_spec_error_mk _ _ _ _ _ (by omega)
              (by simp only [List.length_cons]; omega)
          · rw [if_neg hq2]
            exact recog_spec_error_mk _ _ _ _ _ (by omega)
              (by simp only [List.length_cons]; omega)
        · exact recog_spec_error_mk _ _ _ _ _ (by omega)
            (by simp only [List.length_cons, List.length_nil]; omega)
      · rw [if_neg hl]
        refine ⟨1 + min 2 rest.length, ?_, ?_, by omega⟩
        · simp only [List.length_cons]; omega
        · rw [show (1 + min 2 rest.length) = (min 2 rest.length) + 1 by omega]
          simp only [List.drop_succ_cons]
          exact (drop_min_two rest).symm
    · rw [if_neg hq]
      by_cases hnl : ¬long = true ∧ (pc = '\n' ∨ pc = '\r')
      · rw [if_pos hnl]
        exact recog_spec_error_mk _ _ _ _ _ h (by simp only [List.length_cons]; omega)
      · rw [if_neg hnl]
        exact recog_spec_cons pc (ih (acc.push pc) (cursor + 1) (by omega))

theorem lex_bytes_loop_spec (quote : Char) (start : Nat) (long : Bool)
    (acc : String) (chars : List Char) (cursor : Nat) (h : start < cursor) :
    RecogSpec start chars cursor (lex_bytes_loop quote start long acc chars cursor) := by
  induction chars generalizing acc cursor with
  | nil =>
    exact recog_spec_error_mk _ _ _ _ _ h (by simp only [List.length_nil]; omega)
  | cons pc rest ih =>
    unfold lex_bytes_loop
    by_cases hq : pc = quote
    · rw [if_pos hq]
      by_cases hl : long = true ∧ rest.take 2 ≠ [quote, quote]
      · rw [if_pos hl]
        split
        · rename_i q rest'
          by_cases hq2 : q = quote
          · rw [if_pos hq2]
            exact recog_spec_error_mk _ _ _ _ _ (by omega)
              (by simp only [List.length_cons]; omega)
          · rw [if_neg hq2]
            exact recog_spec_error_mk _ _ _ _ _ (by omega)
              (by simp only [List.length_cons]; omega)
        · exact recog_spec_error_mk _ _ _ _ _ (by omega)
            (by simp only [List.length_cons, List.length_nil]; omega)
      · rw [if_neg hl]
        refine ⟨1 + min 2 rest.length, ?_, ?_, by omega⟩
        · simp only [List.length_cons]; omega
        · rw [show (1 + min 2 rest.length) = (min 2 rest.length) + 1 by omega]
          simp only [List.drop_succ_cons]
          exact (drop_min_two rest).symm
    · rw [if_neg hq]
      by_cases hnl : ¬long = true ∧ (pc = '\n' ∨ pc = '\r')
      · rw [if_pos hnl]
        exact recog_spec_error_mk _ _ _ _ _ h (by simp only [List.length_cons]; omega)
      · rw [if_neg hnl]
        by_cases ha : is_ascii_char pc
        · rw [if_pos ha]
          exact recog_spec_cons pc (ih (acc.push pc) (cursor + 1) (by omega))
        · rw [if_neg ha]
          exact recog_spec_error_mk _ _ _ _ _ h (by simp only [List.length_cons]; omega)

theorem lex_short_or_long_string_spec (quote : Char) (start : Nat) (long : Bool)
    (chars : List Char) (cursor : Nat) (h : start < cursor)
    (hlong : long = true → 2 ≤ chars.length) :
    RecogSpec start chars cursor (lex_short_or_long_string quote start long chars cursor) := by
  unfold lex_short_or_long_string
  by_cases hl : long = true
  · rw [if_pos hl]
    have hs := lex_string_loop_spec quote start long "" (chars.drop 2) (cursor + 2) (by omega)
    have hA : Adv chars cursor (chars.drop 2) (cursor + 2) :=
      Adv.drop chars cursor 2 (hlong hl)
    match hr : lex_string_loop quote start long "" (chars.drop 2) (cursor + 2) with
    | .ok (s, chars2, cursor2) =>
      rw [hr] at hs
      exact hA.trans hs
    | .error e =>
      rw [hr] at hs
      obtain ⟨h1, h2, h3⟩ := hs
      refine ⟨h1, h2, ?_⟩
      have := List.length_drop 2 chars
      have h2l := hlong hl
      omega
  · rw [if_neg hl]
    exact lex_string_loop_spec quote start long "" chars cursor h

theorem lex_short_or_long_bytes_spec (quote : Char) (start : Nat) (long : Bool)
    (chars : List Char) (cursor : Nat) (h : start < cursor)
    (hlong : long = true → 2 ≤ chars.length) :
    RecogSpec start chars cursor (lex_short_or_long_bytes quote start long chars cursor) := by
  unfold lex_short_or_long_bytes
  by_cases hl : long = true
  · rw [if_pos hl]
    have hs := lex_bytes_loop_spec quote start long "" (chars.drop 2) (cursor + 2) (by omega)
    have hA : Adv chars cursor (chars.drop 2) (cursor + 2) :=
      Adv.drop chars cursor 2 (hlong hl)
    match hr : lex_bytes_loop quote start long "" (chars.drop 2) (cursor + 2) with
    | .ok (s, chars2, cursor2) =>
      rw [hr] at hs
      exact hA.trans hs
    | .error e =>
      rw [hr] at hs
      obtain ⟨h1, h2, h3⟩ := hs
      refine ⟨h1, h2, ?_⟩
      have := List.length_drop 2 chars
      have h2l := hlong hl
      omega
  · rw [if_neg hl]
    exact lex_bytes_loop_spec quote start long "" chars cursor h

theorem finish_num_spec (plain : String → TokenKind) (payload : String) (start : Nat)
    (chars : List Char) (cursor : Nat) :
    TokSpec start chars cursor (.ok (finish_num plain payload start chars cursor)) := by
  unfold finish_num
  split
  · rename_i him
    refine ⟨⟨2, ?_, rfl, rfl⟩, rfl, rfl⟩
    have hlen : (chars.take 2).length = 2 := by rw [him]; rfl
    simp only [List.length_take] at hlen
    omega
  · exact ⟨Adv.refl _ _, rfl, rfl⟩

theorem tokenize_identifier_or_keyword_spec (acc : String) (start : Nat)
    (chars : List Char) (cursor : Nat) :
    TokSpec start chars cursor (.ok (tokenize_identifier_or_keyword acc start chars cursor)) := by
  induction chars generalizing acc cursor with
  | nil => exact ⟨Adv.refl _ _, rfl, rfl⟩
  | cons c rest ih =>
    unfold tokenize_identifier_or_keyword
    by_cases hw : is_word_char c
    · rw [if_pos hw]
      have := ih (acc.push c) (cursor + 1)
      match hr : tokenize_identifier_or_keyword (acc.push c) start rest (cursor + 1) with
      | (t, chars2, cursor2) =>
        rw [hr] at this
        exact ⟨adv_cons c this.1, this.2⟩
    · rw [if_neg hw]
      exact ⟨Adv.refl _ _, rfl, rfl⟩

theorem tok_spec_error_mk (start cursor stop : Nat) (chars : List Char)
    (k : LexerErrorKind) (h1 : start < stop) (h2 : stop ≤ cursor + chars.length) :
    TokSpec start chars cursor (.error ⟨k, ⟨start, stop⟩⟩) :=
  ⟨rfl, h1, h2⟩

theorem prefixed_digits_tok_spec (d : Char) (start : Nat) (base : IntBase)
    (ik : IntegerKind) (rest : List Char) (cursor : Nat) (h : start < cursor) :
    TokSpec start (d :: rest) cursor
      (match lex_prefixed_digits d start base rest (cursor + 1) with
        | .ok (digits, ch, cu) =>
          .ok (⟨.Integer digits ik, ⟨start, cu⟩⟩, ch, cu)
        | .error e => .error e) := by
  have hs := lex_prefixed_digits_loop_spec (if d ≠ '_' then String.singleton d else "")
    start base rest (cursor + 1) (by omega)
  unfold lex_prefixed_digits
  split
  case h_1 digits ch cu hr =>
    rw [hr] at hs
    exact ⟨adv_cons d hs, rfl, rfl⟩
  case h_2 e hr =>
    rw [hr] at hs
    exact ⟨hs.1, hs.2.1, by
      have := hs.2.2; simp only [List.length_cons] at this ⊢; omega⟩

theorem tokenize_prefixed_integer_spec (c : Char) (start : Nat)
    (chars : List Char) (cursor : Nat) (h : start < cursor) :
    TokSpec start chars cursor (tokenize_prefixed_integer c start chars cursor) := by
  unfold tokenize_prefixed_integer
  split
  · split
    · rename_i d rest
      split
      · exact prefixed_digits_tok_spec d start IntBase.Bin .Bin rest cursor h
      · exact tok_spec_error_mk _ _ _ _ _ h (by simp only [List.length_cons]; omega)
    · exact tok_spec_error_mk _ _ _ _ _ h (by simp only [List.length_nil]; omega)
  · split
    · split
      · rename_i d rest
        split
        · exact prefixed_digits_tok_spec d start IntBase.Oct .Oct rest cursor h
        · exact tok_spec_error_mk _ _ _ _ _ h (by simp only [List.length_cons]; omega)
      · exact tok_spec_error_mk _ _ _ _ _ h (by simp only [List.length_nil]; omega)
    · split
      · rename_i d rest
        split
        · exact prefixed_digits_tok_spec d start IntBase.Hex .Hex rest cursor h
        · exact tok_spec_error_mk _ _ _ _ _ h (by simp only [List.length_cons]; omega)
      · exact tok_spec_error_mk _ _ _ _ _ h (by simp only [List.length_nil]; omega)

theorem recog_error_cons {α : Type} (c : Char) {start cursor : Nat} {rest : List Char}
    {e : LexerError} (hs : RecogSpec (α := α) start rest (cursor + 1) (.error e)) :
    TokSpec start (c :: rest) cursor (.error e) :=
  ⟨hs.1, hs.2.1, by
    have := hs.2.2; simp only [List.length_cons] at this ⊢; omega⟩

theorem recog_finish_ok (c : Char) (plain : String → TokenKind) (payload : String)
    {start cursor : Nat} {rest ch2 : List Char} {cu2 : Nat} {s : String}
    (hs : RecogSpec (α := String) start rest (cursor + 1) (.ok (s, ch2, cu2))) :
    TokSpec start (c :: rest) cursor (.ok (finish_num plain payload start ch2 cu2)) := by
  have hf := finish_num_spec plain payload start ch2 cu2
  match hfn : finish_num plain payload start ch2 cu2 with
  | (t, ch3, cu3) =>
    rw [hfn] at hf
    exact ⟨adv_cons c ((hs : Adv rest (cursor + 1) ch2 cu2).trans hf.1), hf.2⟩

theorem tokenize_leading_zero_spec (start : Nat) (chars : List Char) (cursor : Nat)
    (h : start < cursor) :
    TokSpec start chars cursor (tokenize_leading_zero start chars cursor) := by
  induction chars generalizing cursor with
  | nil => exact finish_num_spec _ "0" start [] cursor
  | cons c rest ih =>
    unfold tokenize_leading_zero
    by_cases hc : c = '_'
    · rw [if_pos hc]
      by_cases hz : rest.head? = some '0'
      · rw [if_pos hz]
        exact tok_spec_cons c (ih (cursor + 1) (by omega))
      · rw [if_neg hz]
        exact tok_spec_error_mk _ _ _ _ _ (by omega) (by simp only [List.length_cons]; omega)
    · rw [if_neg hc]
      by_cases h0 : c = '0'
      · rw [if_pos h0]
        exact tok_spec_cons c (ih (cursor + 1) (by omega))
      · rw [if_neg h0]
        by_cases hdot : c = '.'
        · rw [if_pos hdot]
          have hs := lex_float_fraction_spec start rest (cursor + 1) (by omega)
          split
          · rename_i frac ch2 cu2 hr
            rw [hr] at hs
            exact recog_finish_ok c .Float ("0" ++ frac) hs
          · rename_i e hr
            rw [hr] at hs
            exact recog_error_cons c hs
        · rw [if_neg hdot]
          by_cases he : c = 'e'
          · rw [if_pos he]
            have hs := lex_float_exponent_spec start rest (cursor + 1) (by omega)
            split
            · rename_i expo ch2 cu2 hr
              rw [hr] at hs
              exact recog_finish_ok c .Float ("0" ++ expo) hs
            · rename_i e hr
              rw [hr] at hs
              exact recog_error_cons c hs
          · rw [if_neg he]
            by_cases hd : is_dec_digit c
            · rw [if_pos hd]
              exact tok_spec_error_mk _ _ _ _ _ h (by simp only [List.length_cons]; omega)
            · rw [if_neg hd]
              exact finish_num_spec _ "0" start (c :: rest) cursor

theorem tokenize_leading_non_zero_spec (acc : String) (start : Nat)
    (chars : List Char) (cursor : Nat) (h : start < cursor) :
    TokSpec start chars cursor (tokenize_leading_non_zero acc start chars cursor) := by
  induction chars generalizing acc cursor with
  | nil => exact finish_num_spec _ acc start [] cursor
  | cons c rest ih =>
    unfold tokenize_leading_non_zero
    by_cases hc : c = '_'
    · rw [if_pos hc]
      by_cases hz : (rest.head?.elim false is_dec_digit : Bool)
      · rw [if_pos hz]
        exact tok_spec_cons c (ih acc (cursor + 1) (by omega))
      · rw [if_neg hz]
        exact tok_spec_error_mk _ _ _ _ _ (by omega) (by simp only [List.length_cons]; omega)
    · rw [if_neg hc]
      by_cases hd : is_dec_digit c
      · rw [if_pos hd]
        exact tok_spec_cons c (ih (acc.push c) (cursor + 1) (by omega))
      · rw [if_neg hd]
        by_cases hdot : c = '.'
        · rw [if_pos hdot]
          have hs := lex_float_fraction_spec start rest (cursor + 1) (by omega)
          split
          · rename_i frac ch2 cu2 hr
            rw [hr] at hs
            exact recog_finish_ok c .Float (acc ++ frac) hs
          · rename_i e hr
            rw [hr] at hs
            exact recog_error_cons c hs
        · rw [if_neg hdot]
          by_cases he : c = 'e' ∨ c = 'E'
          · rw [if_pos he]
            have hs := lex_float_exponent_spec start rest (cursor + 1) (by omega)
            split
            · rename_i expo ch2 cu2 hr
              rw [hr] at hs
              exact recog_finish_ok c .Float (acc ++ expo) hs
            · rename_i e hr
              rw [hr] at hs
              exact recog_error_cons c hs
          · rw [if_neg he]
            exact finish_num_spec _ acc start (c :: rest) cursor

theorem skip_horizontal_spec : ∀ (chars : List Char) (cursor : Nat)
    (chars' : List Char) (cursor' : Nat),
    skip_horizontal chars cursor = (chars', cursor') → Adv chars cursor chars' cursor' := by
  intro chars
  induction chars with
  | nil =>
    intro cursor chars' cursor' h
    unfold skip_horizontal at h
    cases h
    exact Adv.refl [] cursor
  | cons c rest ih =>
    intro cursor chars' cursor' h
    unfold skip_horizontal at h
    by_cases hc : c = ' ' ∨ c = '\t'
    · rw [if_pos hc] at h
      exact adv_cons c (ih (cursor + 1) chars' cursor' h)
    · rw [if_neg hc] at h
      cases h
      exact Adv.refl _ cursor

theorem skip_comment_spec : ∀ (chars : List Char) (cursor : Nat)
    (chars' : List Char) (cursor' : Nat),
    skip_comment chars cursor = (chars', cursor') → Adv chars cursor chars' cursor' := by
  intro chars
  induction chars with
  | nil =>
    intro cursor chars' cursor' h
    unfold skip_comment at h
    cases h
    exact Adv.refl [] cursor
  | cons c rest ih =>
    intro cursor chars' cursor' h
    unfold skip_comment at h
    by_cases hc : c = '\r' ∨ c = '\n'
    · rw [if_pos hc] at h
      cases h
      exact Adv.refl _ cursor
    · rw [if_neg hc] at h
      exact adv_cons c (ih (cursor + 1) chars' cursor' h)

theorem count_spaces_spec : ∀ (chars : List Char) (cursor : Nat) (prev : Option Char)
    (count : Int) (mixed : Bool) (p' : Option Char) (c' : Int) (m' : Bool)
    (chars' : List Char) (cursor' : Nat),
    count_spaces chars cursor prev count mixed = (p', c', m', chars', cursor') →
    Adv chars cursor chars' cursor' ∧
    c' = count + ((cursor' - cursor : Nat) : Int) ∧
    ((cursor' = cursor ∧ p' = prev) ∨
      (cursor < cursor' ∧ ∃ ch, p' = some ch ∧ (ch = ' ' ∨ ch = '\t'))) := by
  intro chars
  induction chars with
  | nil =>
    intro cursor prev count mixed p' c' m' chars' cursor' h
    unfold count_spaces at h
    cases h
    exact ⟨Adv.refl [] cursor, by simp, Or.inl ⟨rfl, rfl⟩⟩
  | cons c rest ih =>
    intro cursor prev count mixed p' c' m' chars' cursor' h
    unfold count_spaces at h
    by_cases hc : c = ' ' ∨ c = '\t'
    · rw [if_pos hc] at h
      obtain ⟨hA, hcount, hprev⟩ := ih (cursor + 1) (some c) (count + 1) _ _ _ _ _ _ h
      have hle := hA.cursor_le
      refine ⟨adv_cons c hA, by omega, ?_⟩
      rcases hprev with ⟨heq, hp⟩ | ⟨hlt, ch, hp, hch⟩
      · exact Or.inr ⟨by omega, c, hp, hc⟩
      · exact Or.inr ⟨by omega, ch, hp, hch⟩
    · rw [if_neg hc] at h
      cases h
      exact ⟨Adv.refl _ cursor, by simp, Or.inl ⟨rfl, rfl⟩⟩

/-! Claim-level predicates. -/

theorem crlf_skip_spec (c : Char) (chars : List Char) (cursor : Nat)
    {chars0 : List Char} {cursor0 : Nat}
    (h : crlf_skip c chars cursor = (chars0, cursor0)) :
    Adv chars cursor chars0 cursor0 := by
  unfold crlf_skip at h
  by_cases hwin : c = '\r' ∧ chars.head? = some '\n'
  · rw [if_pos hwin] at h
    cases h
    refine Adv.drop chars cursor 1 ?_
    cases hch : chars with
    | nil => rw [hch] at hwin; simp at hwin
    | cons a b => simp only [List.length_cons]; omega
  · rw [if_neg hwin] at h
    cases h
    exact Adv.refl _ _

theorem handler_spec_error_mk (start stop : Nat) (st1 : Lexer) (k : LexerErrorKind)
    (h1 : start < stop) (h2 : stop ≤ st1.cursor + st1.chars.length) :
    HandlerSpec start st1 (.error ⟨k, ⟨start, stop⟩⟩) :=
  ⟨rfl, h1, h2⟩

theorem handler_spec (c : Char) (start : Nat) (st1 : Lexer)
    (hcu : st1.cursor = start + 1)
    (hbuf : st1.token_buffer = [])
    (hlvl : 0 ≤ st1.indent_level) (hsz : 0 ≤ st1.indent_size)
    (hsz0 : st1.indent_size = 0 → st1.indent_level = 0) :
    HandlerSpec start st1 (tokenize_newline_or_indentation c start st1) := by
  unfold tokenize_newline_or_indentation
  split
  rename_i chars0 cursor0 hcrlf
  have hA0 := crlf_skip_spec c st1.chars st1.cursor hcrlf
  split
  rename_i prev_space space_count mixed_spaces chars1 cursor1 hcs
  obtain ⟨hA1, hcount, hprev⟩ :=
    count_spaces_spec _ _ _ _ _ _ _ _ _ _ hcs
  have hA := hA0.trans hA1
  have hc1 : st1.cursor ≤ cursor1 := hA.cursor_le
  have hsync : cursor1 + chars1.length = st1.cursor + st1.chars.length := hA.sync
  have hsc0 : 0 ≤ space_count := by
    rw [hcount]; positivity
  by_cases hg : space_count > 0 ∧
      ¬(chars1.head? = some '\r' ∨ chars1.head? = some '\n' ∨ chars1.head? = some '#')
  · rw [if_pos hg]
    by_cases hmix : mixed_spaces = true
    · rw [if_pos hmix]
      exact handler_spec_error_mk _ _ _ _ (by omega) (by omega)
    · rw [if_neg hmix]
      by_cases hik : st1.indent_kind ≠ IndentKind.Unknown ∧
          indent_kind_of_char (prev_space.getD ' ') ≠ st1.indent_kind
      · rw [if_pos hik]
        exact handler_spec_error_mk _ _ _ _ (by omega) (by omega)
      · rw [if_neg hik]
        by_cases hgt : space_count - st1.indent_level * st1.indent_size > 0
        · rw [if_pos hgt]
          by_cases hs0 : st1.indent_size = 0
          · rw [if_pos hs0]
            have hl0 : st1.indent_level = 0 := hsz0 hs0
            have hdiff : space_count - st1.indent_level * st1.indent_size = space_count := by
              rw [hl0, hs0]; ring_nf
            refine ⟨hc1, hsync, rfl, rfl, ?_, ?_, ?_, ?_, ?_, ?_, Or.inl rfl⟩
            · intro u hu
              simp only [hbuf] at hu
              exact absurd hu (List.not_mem_nil u)
            · intro habs
              rw [show ({ st1 with
                    chars := chars1, cursor := cursor1,
                    indent_size := space_count - st1.indent_level * st1.indent_size,
                    indent_kind := indent_kind_of_char (prev_space.getD ' '),
                    indent_level := space_count /
                      (space_count - st1.indent_level * st1.indent_size) } :
                  Lexer).token_buffer = st1.token_buffer from rfl, hbuf] at habs
              exact absurd rfl habs
            · show space_count / (space_count - st1.indent_level * st1.indent_size) +
                (st1.token_buffer.length : Int) = st1.indent_level + 1
              rw [hbuf, hdiff, Int.ediv_self (by omega)]
              simp only [List.length_nil, Nat.cast_zero]
              omega
            · show 0 ≤ space_count / (space_count - st1.indent_level * st1.indent_size)
              rw [hdiff, Int.ediv_self (by omega)]
              omega
            · show 0 ≤ space_count - st1.indent_level * st1.indent_size
              omega
            · intro habs
              exfalso
              have h0 : space_count - st1.indent_level * st1.indent_size = 0 := habs
              omega
          · rw [if_neg hs0]
            by_cases hms : st1.indent_size ≠ space_count - st1.indent_level * st1.indent_size
            · rw [if_pos hms]
              exact handler_spec_error_mk _ _ _ _ (by omega) (by omega)
            · rw [if_neg hms]
              push_neg at hms
              have hszpos : 0 < st1.indent_size := by omega
              have hsc : space_count =
                  (st1.indent_level + 1) * st1.indent_size := by
                have : space_count = st1.indent_level * st1.indent_size
                    + st1.indent_size := by omega
                rw [this]; ring
              have hlv : space_count / st1.indent_size = st1.indent_level + 1 := by
                rw [hsc, Int.mul_ediv_cancel _ (by omega)]
              refine ⟨hc1, hsync, rfl, rfl, ?_, ?_, ?_, ?_, ?_, ?_, Or.inl rfl⟩
              · intro u hu
                simp only [hbuf] at hu
                exact absurd hu (List.not_mem_nil u)
              · intro habs
                rw [show ({ st1 with
                      chars := chars1, cursor := cursor1,
                      indent_level := space_count / st1.indent_size } :
                    Lexer).token_buffer = st1.token_buffer from rfl, hbuf] at habs
                exact absurd rfl habs
              · show space_count / st1.indent_size + (st1.token_buffer.length : Int) =
                  st1.indent_level + 1
                rw [hbuf, hlv]
                simp only [List.length_nil, Nat.cast_zero]
                omega
              · show 0 ≤ space_count / st1.indent_size
                rw [hlv]; omega
              · show 0 ≤ st1.indent_size
                omega
              · intro habs
                exfalso
                exact absurd (show st1.indent_size = 0 from habs) (by omega)
        · rw [if_neg hgt]
          by_cases hlt : space_count - st1.indent_level * st1.indent_size < 0
          · rw [if_pos hlt]
            have hszne : st1.indent_size ≠ 0 := by
              intro h0
              have := hsz0 h0
              rw [this, h0] at hlt
              simp at hlt
              omega
            have hszpos : 0 < st1.indent_size := by omega
            by_cases hdm : (space_count - st1.indent_level * st1.indent_size)
                % st1.indent_size ≠ 0
            · rw [if_pos hdm]
              exact handler_spec_error_mk _ _ _ _ (by omega) (by omega)
            · rw [if_neg hdm]
              push_neg at hdm
              obtain ⟨m, hm⟩ := Int.dvd_of_emod_eq_zero hdm
              have hmneg : m < 0 := by
                by_contra hge
                push_neg at hge
                have : 0 ≤ st1.indent_size * m := mul_nonneg (by omega) hge
                omega
              have habs : |space_count - st1.indent_level * st1.indent_size| =
                  st1.indent_size * (-m) := by
                rw [abs_of_neg hlt, hm]; ring
              have hk : |space_count - st1.indent_level * st1.indent_size|
                  / st1.indent_size = -m := by
                rw [habs, Int.mul_ediv_cancel_left _ (by omega)]
              have hsc : space_count = st1.indent_size * (st1.indent_level + m) := by
                have h1 : space_count = st1.indent_level * st1.indent_size
                    + st1.indent_size * m := by omega
                rw [h1]; ring
              have hlv : space_count / st1.indent_size = st1.indent_level + m := by
                rw [hsc, Int.mul_ediv_cancel_left _ (by omega)]
              have hlm : 0 ≤ st1.indent_level + m := by
                by_contra hneg
                push_neg at hneg
                have : st1.indent_size * (st1.indent_level + m) < 0 :=
                  mul_neg_of_pos_of_neg hszpos hneg
                omega
              have hcast : (((-m - 1).toNat : Nat) : Int) = -m - 1 :=
                Int.toNat_of_nonneg (by omega)
              refine ⟨hc1, hsync, rfl, rfl, ?_, ?_, ?_, ?_, ?_, ?_, Or.inr (Or.inl rfl)⟩
              · intro u hu
                simp only [hbuf, List.append_nil] at hu
                exact List.eq_of_mem_replicate hu
              · intro _
                rfl
              · show space_count / st1.indent_size +
                  ((List.replicate ((|space_count - st1.indent_level * st1.indent_size|
                    / st1.indent_size - 1)).toNat
                    (⟨.Dedent, ⟨start, cursor1⟩⟩ : Token) ++ st1.token_buffer).length : Int) =
                  st1.indent_level + (-1)
                rw [hbuf, hk, hlv]
                simp only [List.append_nil, List.length_replicate]
                rw [hcast]
                omega
              · show 0 ≤ space_count / st1.indent_size
                rw [hlv]; omega
              · show 0 ≤ st1.indent_size
                omega
              · intro h0
                exact absurd (show st1.indent_size = 0 from h0) hszne
          · rw [if_neg hlt]
            refine ⟨hc1, hsync, rfl, rfl, ?_, ?_, ?_, hlvl, hsz, hsz0, Or.inr (Or.inr rfl)⟩
            · intro u hu
              simp only [hbuf] at hu
              exact absurd hu (List.not_mem_nil u)
            · intro habs
              rw [show ({ st1 with chars := chars1, cursor := cursor1 } :
                  Lexer).token_buffer = st1.token_buffer from rfl, hbuf] at habs
              exact absurd rfl habs
            · show st1.indent_level + (st1.token_buffer.length : Int) =
                st1.indent_level + (0 : Int)
              rw [hbuf]
              simp only [List.length_nil, Nat.cast_zero]
  · rw [if_neg hg]
    by_cases hpn : chars1.head? = none
    · rw [if_pos hpn]
      have hsc : space_count = 0 := by
        by_contra hne
        have hpos : space_count > 0 := by omega
        apply hg
        refine ⟨hpos, ?_⟩
        rw [hpn]
        simp
      by_cases hlt : space_count - st1.indent_level * st1.indent_size < 0
      · rw [if_pos hlt]
        have hszne : st1.indent_size ≠ 0 := by
          intro h0
          have := hsz0 h0
          rw [this, h0] at hlt
          simp at hlt
          omega
        have hszpos : 0 < st1.indent_size := by omega
        have hlvpos : 0 < st1.indent_level := by
          by_contra hle
          push_neg at hle
          have hl0 : st1.indent_level = 0 := by omega
          rw [hl0] at hlt
          simp at hlt
          omega
        have habs : |space_count - st1.indent_level * st1.indent_size| =
            st1.indent_size * st1.indent_level := by
          rw [abs_of_neg hlt]
          have : space_count = 0 := hsc
          have h2 : st1.indent_level * st1.indent_size =
              st1.indent_size * st1.indent_level := by ring
          omega
        have hk : |space_count - st1.indent_level * st1.indent_size|
            / st1.indent_size = st1.indent_level := by
          rw [habs, Int.mul_ediv_cancel_left _ (by omega)]
        have hlv : space_count / st1.indent_size = 0 := by
          rw [hsc]
          exact Int.zero_ediv _
        have hcast : (((st1.indent_level - 1).toNat : Nat) : Int) =
            st1.indent_level - 1 := Int.toNat_of_nonneg (by omega)
        refine ⟨hc1, hsync, rfl, rfl, ?_, ?_, ?_, ?_, hsz, ?_, Or.inr (Or.inl rfl)⟩
        · intro u hu
          simp only [hbuf, List.append_nil] at hu
          exact List.eq_of_mem_replicate hu
        · intro _
          rfl
        · show space_count / st1.indent_size +
            ((List.replicate ((|space_count - st1.indent_level * st1.indent_size|
              / st1.indent_size - 1)).toNat
              (⟨.Dedent, ⟨start, cursor1⟩⟩ : Token) ++ st1.token_buffer).length : Int) =
            st1.indent_level + (-1)
          rw [hbuf, hk, hlv]
          simp only [List.append_nil, List.length_replicate]
          rw [hcast]
          omega
        · show 0 ≤ space_count / st1.indent_size
          rw [hlv]
        · intro _
          show space_count / st1.indent_size = 0
          exact hlv
      · rw [if_neg hlt]
        refine ⟨hc1, hsync, rfl, rfl, ?_, ?_, ?_, hlvl, hsz, hsz0,
          Or.inr (Or.inr rfl)⟩
        · intro u hu
          simp only [hbuf] at hu
          exact absurd hu (List.not_mem_nil u)
        · intro habs
          rw [show ({ st1 with chars := chars1, cursor := cursor1 } :
              Lexer).token_buffer = st1.token_buffer from rfl, hbuf] at habs
          exact absurd rfl habs
        · show st1.indent_level + (st1.token_buffer.length : Int) =
            st1.indent_level + (0 : Int)
          rw [hbuf]
          simp only [List.length_nil, Nat.cast_zero]
    · rw [if_neg hpn]
      refine ⟨hc1, hsync, rfl, rfl, ?_, ?_, ?_, hlvl, hsz, hsz0, Or.inr (Or.inr rfl)⟩
      · intro u hu
        simp only [hbuf] at hu
        exact absurd hu (List.not_mem_nil u)
      · intro habs
        rw [show ({ st1 with chars := chars1, cursor := cursor1 } :
            Lexer).token_buffer = st1.token_buffer from rfl, hbuf] at habs
        exact absurd rfl habs
      · show st1.indent_level + (st1.token_buffer.length : Int) =
          st1.indent_level + (0 : Int)
        rw [hbuf]
        simp only [List.length_nil, Nat.cast_zero]

/-! Payload canonicity lemmas: numeric payloads never contain underscores,
and every exponent marker carries an explicit sign. -/

theorem expo_signed_cons_ne (c : Char) (h : c ≠ 'e') (rest : List Char) :
    expo_signed (c :: rest) = expo_signed rest := by
  conv_lhs => unfold expo_signed
  rw [if_neg h]

theorem dec_digit_ne_e {c : Char} (h : is_dec_digit c = true) : c ≠ 'e' := by
  intro heq
  subst heq
  simp [is_dec_digit] at h

theorem dec_digit_ne_und {c : Char} (h : is_dec_digit c = true) : c ≠ '_' := by
  intro heq
  subst heq
  simp [is_dec_digit] at h

theorem payload_ok_nil : payload_ok [] := ⟨by simp, rfl⟩

theorem payload_ok_cons {c : Char} {l : List Char} (hce : c ≠ 'e') (hcu : c ≠ '_')
    (h : payload_ok l) : payload_ok (c :: l) := by
  refine ⟨?_, ?_⟩
  · intro hm
    rcases List.mem_cons.mp hm with h1 | h1
    · exact hcu h1.symm
    · exact h.1 h1
  · rw [expo_signed_cons_ne c hce]
    exact h.2

theorem payload_ok_append_digits {l1 l2 : List Char}
    (h1 : ∀ ch ∈ l1, is_dec_digit ch) (h2 : payload_ok l2) :
    payload_ok (l1 ++ l2) := by
  induction l1 with
  | nil => simpa using h2
  | cons c rest ih =>
    have hd := h1 c (List.mem_cons_self c rest)
    have hrest := ih (fun ch hm => h1 ch (List.mem_cons_of_mem c hm))
    exact payload_ok_cons (dec_digit_ne_e hd) (dec_digit_ne_und hd) hrest

theorem payload_ok_digits {l : List Char} (h : ∀ ch ∈ l, is_dec_digit ch) :
    payload_ok l := by
  have := payload_ok_append_digits h payload_ok_nil
  simpa using this

theorem payload_ok_expo {sg : Char} {ds : List Char}
    (hsg : sg = '+' ∨ sg = '-') (hds : ∀ ch ∈ ds, is_dec_digit ch) :
    payload_ok ('e' :: sg :: ds) := by
  have hdsok := payload_ok_digits hds
  refine ⟨?_, ?_⟩
  · intro hm
    rcases List.mem_cons.mp hm with h1 | h1
    · exact absurd h1.symm (by decide)
    · rcases List.mem_cons.mp h1 with h2 | h2
      · rcases hsg with rfl | rfl <;> exact absurd h2.symm (by decide)
      · exact hdsok.1 h2
  · have h1 : (sg == '+' || sg == '-') = true := by
      rcases hsg with rfl | rfl <;> rfl
    show ((sg == '+' || sg == '-') && expo_signed ds) = true
    rw [h1, Bool.true_and]
    exact hdsok.2

theorem digits_only_push {s : String} {c : Char} (hs : digits_only s)
    (hc : is_dec_digit c) : digits_only (s.push c) := by
  intro ch hm
  rw [String.data_push] at hm
  rcases List.mem_append.mp hm with h1 | h1
  · exact hs ch h1
  · rw [List.mem_singleton] at h1
    subst h1
    exact hc

theorem lex_dec_digits_loop_payload (digits : String) (start : Nat)
    (chars : List Char) (cursor : Nat) {d : String} {ch : List Char} {cu : Nat}
    (hdig : digits_only digits)
    (h : lex_dec_digits_loop digits start chars cursor = .ok (d, ch, cu)) :
    digits_only d := by
  induction chars generalizing digits cursor with
  | nil =>
    unfold lex_dec_digits_loop at h
    cases h
    exact hdig
  | cons c rest ih =>
    unfold lex_dec_digits_loop at h
    by_cases hc : c = '_'
    · rw [if_pos hc] at h
      by_cases hd : (rest.head?.elim false is_dec_digit : Bool)
      · rw [if_pos hd] at h
        exact ih digits (cursor + 1) hdig h
      · rw [if_neg hd] at h
        cases h
    · rw [if_neg hc] at h
      by_cases hd : is_dec_digit c
      · rw [if_pos hd] at h
        exact ih (digits.push c) (cursor + 1) (digits_only_push hdig hd) h
      · rw [if_neg hd] at h
        cases h
        exact hdig

theorem lex_dec_digits_payload (c : Char) (start : Nat) (chars : List Char)
    (cursor : Nat) {d : String} {ch : List Char} {cu : Nat}
    (hc : c = '_' ∨ is_dec_digit c)
    (h : lex_dec_digits c start chars cursor = .ok (d, ch, cu)) :
    digits_only d := by
  unfold lex_dec_digits at h
  refine lex_dec_digits_loop_payload _ start chars cursor ?_ h
  by_cases hcu : c = '_'
  · rw [if_neg (by simpa using hcu)]
    intro ch hm
    simp at hm
  · rw [if_pos (by simpa using hcu)]
    intro ch hm
    have : ch = c := by
      have : (String.singleton c).data = [c] := rfl
      rw [this, List.mem_singleton] at hm
      exact hm
    subst this
    rcases hc with h1 | h1
    · exact absurd h1 hcu
    · exact h1

theorem lex_float_exponent_payload (start : Nat) (chars : List Char) (cursor : Nat)
    {s : String} {ch : List Char} {cu : Nat}
    (h : lex_float_exponent start chars cursor = .ok (s, ch, cu)) :
    payload_ok s.data := by
  unfold lex_float_exponent at h
  split at h
  case h_2 => cases h
  case h_1 c rest =>
    by_cases hc : c = '-' ∨ c = '+'
    · rw [if_pos hc] at h
      split at h
      · rename_i d rest2
        by_cases hd : is_dec_digit d
        · rw [if_pos hd] at h
          split at h
          · rename_i digits chars2 cursor2 hr
            cases h
            have hdig := lex_dec_digits_payload d start rest2 (cursor + 2)
              (Or.inr hd) hr
            have : (("e".push c) ++ digits).data = 'e' :: c :: digits.data := by
              rw [String.data_append, String.data_push]
              rfl
            rw [this]
            exact payload_ok_expo (by tauto) hdig
          · cases h
        · rw [if_neg hd] at h
          cases h
      · cases h
    · rw [if_neg hc] at h
      by_cases hd : is_dec_digit c
      · rw [if_pos hd] at h
        split at h
        · rename_i digits chars2 cursor2 hr
          cases h
          have hdig := lex_dec_digits_payload c start rest (cursor + 1)
            (Or.inr hd) hr
          have : (("e+" : String) ++ digits).data = 'e' :: '+' :: digits.data := by
            rw [String.data_append]
            rfl
          rw [this]
          exact payload_ok_expo (Or.inl rfl) hdig
        · cases h
      · rw [if_neg hd] at h
        cases h

theorem lex_float_fraction_payload (start : Nat) (chars : List Char) (cursor : Nat)
    {s : String} {ch : List Char} {cu : Nat}
    (h : lex_float_fraction start chars cursor = .ok (s, ch, cu)) :
    payload_ok s.data := by
  unfold lex_float_fraction at h
  split at h
  case h_2 => cases h
  case h_1 c rest =>
    by_cases hd : is_dec_digit c
    · rw [if_pos hd] at h
      split at h
      · rename_i digits chars2 cursor2 hr
        have hdig := lex_dec_digits_payload c start rest (cursor + 1) (Or.inr hd) hr
        split at h
        · rename_i rest1
          split at h
          · rename_i expo chars3 cursor3 hr2
            cases h
            have hex := lex_float_exponent_payload start rest1 _ hr2
            have hdata : (("." : String) ++ digits ++ expo).data =
                '.' :: (digits.data ++ expo.data) := by
              rw [String.data_append, String.data_append]
              rfl
            rw [hdata]
            exact payload_ok_cons (by decide) (by decide)
              (payload_ok_append_digits hdig hex)
          · cases h
        · cases h
          have hdata : (("." : String) ++ digits).data = '.' :: digits.data := by
            rw [String.data_append]
            rfl
          rw [hdata]
          exact payload_ok_cons (by decide) (by decide) (payload_ok_digits hdig)
      · cases h
    · rw [if_neg hd] at h
      cases h

theorem finish_num_kinds (plain : String → TokenKind) (payload : String)
    (start : Nat) (chars : List Char) (cursor : Nat)
    {t : Token} {ch : List Char} {cu : Nat}
    (h : finish_num plain payload start chars cursor = (t, ch, cu)) :
    t.kind = .Imag payload ∨ t.kind = plain payload := by
  unfold finish_num at h
  split at h
  · cases h; exact Or.inl rfl
  · cases h; exact Or.inr rfl

theorem tok_good_imag_or_float {t : Token} {payload : String}
    (hp : payload_ok payload.data)
    (h : t.kind = .Imag payload ∨ t.kind = .Float payload) : TokGood t := by
  rcases h with h | h <;>
    exact ⟨by rw [h]; rfl, by rw [payload_canonical, h]; exact ⟨hp.1, hp.2⟩⟩

theorem tok_good_imag_or_integer (ik : IntegerKind) {t : Token} {payload : String}
    (hp : payload_ok payload.data)
    (h : t.kind = .Imag payload ∨ t.kind = .Integer payload ik) : TokGood t := by
  rcases h with h | h
  · exact ⟨by rw [h]; rfl, by rw [payload_canonical, h]; exact ⟨hp.1, hp.2⟩⟩
  · exact ⟨by rw [h]; rfl, by rw [payload_canonical, h]; exact hp.1⟩

theorem payload_ok_zero_append {s : String} (hs : payload_ok s.data) :
    payload_ok (("0" ++ s) : String).data := by
  have : (("0" ++ s) : String).data = '0' :: s.data := by
    rw [String.data_append]; rfl
  rw [this]
  exact payload_ok_cons (by decide) (by decide) hs

theorem payload_ok_digits_append {acc s : String} (hacc : digits_only acc)
    (hs : payload_ok s.data) : payload_ok ((acc ++ s) : String).data := by
  rw [String.data_append]
  exact payload_ok_append_digits hacc hs

theorem payload_ok_of_digits_only {s : String} (h : digits_only s) :
    payload_ok s.data := payload_ok_digits h

theorem tokenize_leading_zero_payload (start : Nat) (chars : List Char) (cursor : Nat)
    {t : Token} {ch : List Char} {cu : Nat}
    (h : tokenize_leading_zero start chars cursor = .ok (t, ch, cu)) : TokGood t := by
  induction chars generalizing cursor with
  | nil =>
    unfold tokenize_leading_zero at h
    injection h with h
    rcases finish_num_kinds _ _ _ _ _ h with hk | hk
    · exact tok_good_imag_or_integer IntegerKind.Dec ⟨by decide, by decide⟩ (Or.inl hk)
    · exact tok_good_imag_or_integer IntegerKind.Dec ⟨by decide, by decide⟩ (Or.inr hk)
  | cons c rest ih =>
    unfold tokenize_leading_zero at h
    by_cases hc : c = '_'
    · rw [if_pos hc] at h
      by_cases hz : rest.head? = some '0'
      · rw [if_pos hz] at h
        exact ih (cursor + 1) h
      · rw [if_neg hz] at h
        cases h
    · rw [if_neg hc] at h
      by_cases h0 : c = '0'
      · rw [if_pos h0] at h
        exact ih (cursor + 1) h
      · rw [if_neg h0] at h
        by_cases hdot : c = '.'
        · rw [if_pos hdot] at h
          split at h
          · rename_i frac ch2 cu2 hr
            injection h with h
            have hp := payload_ok_zero_append (lex_float_fraction_payload start rest _ hr)
            exact tok_good_imag_or_float hp (finish_num_kinds _ _ _ _ _ h)
          · cases h
        · rw [if_neg hdot] at h
          by_cases he : c = 'e'
          · rw [if_pos he] at h
            split at h
            · rename_i expo ch2 cu2 hr
              injection h with h
              have hp := payload_ok_zero_append (lex_float_exponent_payload start rest _ hr)
              exact tok_good_imag_or_float hp (finish_num_kinds _ _ _ _ _ h)
            · cases h
          · rw [if_neg he] at h
            by_cases hd : is_dec_digit c
            · rw [if_pos hd] at h
              cases h
            · rw [if_neg hd] at h
              injection h with h
              rcases finish_num_kinds _ _ _ _ _ h with hk | hk
              · exact tok_good_imag_or_integer IntegerKind.Dec ⟨by decide, by decide⟩ (Or.inl hk)
              · exact tok_good_imag_or_integer IntegerKind.Dec ⟨by decide, by decide⟩ (Or.inr hk)

theorem tokenize_leading_non_zero_payload (acc : String) (start : Nat)
    (chars : List Char) (cursor : Nat) {t : Token} {ch : List Char} {cu : Nat}
    (hacc : digits_only acc)
    (h : tokenize_leading_non_zero acc start chars cursor = .ok (t, ch, cu)) :
    TokGood t := by
  induction chars generalizing acc cursor with
  | nil =>
    unfold tokenize_leading_non_zero at h
    injection h with h
    rcases finish_num_kinds _ _ _ _ _ h with hk | hk
    · exact tok_good_imag_or_integer IntegerKind.Dec (payload_ok_of_digits_only hacc) (Or.inl hk)
    · exact tok_good_imag_or_integer IntegerKind.Dec (payload_ok_of_digits_only hacc) (Or.inr hk)
  | cons c rest ih =>
    unfold tokenize_leading_non_zero at h
    by_cases hc : c = '_'
    · rw [if_pos hc] at h
      by_cases hz : (rest.head?.elim false is_dec_digit : Bool)
      · rw [if_pos hz] at h
        exact ih acc (cursor + 1) hacc h
      · rw [if_neg hz] at h
        cases h
    · rw [if_neg hc] at h
      by_cases hd : is_dec_digit c
      · rw [if_pos hd] at h
        exact ih (acc.push c) (cursor + 1) (digits_only_push hacc hd) h
      · rw [if_neg hd] at h
        by_cases hdot : c = '.'
        · rw [if_pos hdot] at h
          split at h
          · rename_i frac ch2 cu2 hr
            injection h with h
            have hp := payload_ok_digits_append hacc
              (lex_float_fraction_payload start rest _ hr)
            exact tok_good_imag_or_float hp (finish_num_kinds _ _ _ _ _ h)
          · cases h
        · rw [if_neg hdot] at h
          by_cases he : c = 'e' ∨ c = 'E'
          · rw [if_pos he] at h
            split at h
            · rename_i expo ch2 cu2 hr
              injection h with h
              have hp := payload_ok_digits_append hacc
                (lex_float_exponent_payload start rest _ hr)
              exact tok_good_imag_or_float hp (finish_num_kinds _ _ _ _ _ h)
            · cases h
          · rw [if_neg he] at h
            injection h with h
            rcases finish_num_kinds _ _ _ _ _ h with hk | hk
            · exact tok_good_imag_or_integer IntegerKind.Dec (payload_ok_of_digits_only hacc) (Or.inl hk)
            · exact tok_good_imag_or_integer IntegerKind.Dec (payload_ok_of_digits_only hacc) (Or.inr hk)

theorem not_und_of_bin {c : Char} (h : is_bin_digit c = true) : c ≠ '_' := by
  intro heq; subst heq; simp [is_bin_digit] at h

theorem not_und_of_two_to_seven {c : Char} (h : is_two_to_seven c = true) : c ≠ '_' := by
  intro heq; subst heq; simp [is_two_to_seven] at h

theorem not_und_of_high_hex {c : Char} (h : is_high_hex_digit c = true) : c ≠ '_' := by
  intro heq; subst heq; simp [is_high_hex_digit] at h

theorem no_und_push {s : String} {c : Char} (hs : '_' ∉ s.data) (hc : c ≠ '_') :
    '_' ∉ (s.push c).data := by
  rw [String.data_push]
  intro hm
  rcases List.mem_append.mp hm with h1 | h1
  · exact hs h1
  · rw [List.mem_singleton] at h1
    exact hc h1.symm

theorem lex_prefixed_digits_loop_no_und (digits : String) (start : Nat)
    (base : IntBase) (chars : List Char) (cursor : Nat)
    {d : String} {ch : List Char} {cu : Nat}
    (hdig : '_' ∉ digits.data)
    (h : lex_prefixed_digits_loop digits start base chars cursor = .ok (d, ch, cu)) :
    '_' ∉ d.data := by
  induction chars generalizing digits cursor with
  | nil =>
    unfold lex_prefixed_digits_loop at h
    cases h
    exact hdig
  | cons c rest ih =>
    unfold lex_prefixed_digits_loop at h
    by_cases hc : c = '_'
    · rw [if_pos hc] at h
      by_cases hok : prefixed_underscore_ok base rest.head?
      · rw [if_pos hok] at h
        exact ih digits (cursor + 1) hdig h
      · rw [if_neg hok] at h
        cases h
    · rw [if_neg hc] at h
      by_cases h1 : is_bin_digit c
      · rw [if_pos h1] at h
        exact ih (digits.push c) (cursor + 1) (no_und_push hdig (not_und_of_bin h1)) h
      · rw [if_neg h1] at h
        by_cases h2 : is_two_to_seven c
        · rw [if_pos h2] at h
          by_cases hb : base = IntBase.Bin
          · rw [if_pos hb] at h; cases h
          · rw [if_neg hb] at h
            exact ih (digits.push c) (cursor + 1)
              (no_und_push hdig (not_und_of_two_to_seven h2)) h
        · rw [if_neg h2] at h
          by_cases h3 : is_high_hex_digit c
          · rw [if_pos h3] at h
            by_cases hb : base = IntBase.Bin ∨ base = IntBase.Oct
            · rw [if_pos hb] at h; cases h
            · rw [if_neg hb] at h
              exact ih (digits.push c) (cursor + 1)
                (no_und_push hdig (not_und_of_high_hex h3)) h
          · rw [if_neg h3] at h
            cases h
            exact hdig

theorem lex_prefixed_digits_no_und (c : Char) (start : Nat) (base : IntBase)
    (chars : List Char) (cursor : Nat) {d : String} {ch : List Char} {cu : Nat}
    (h : lex_prefixed_digits c start base chars cursor = .ok (d, ch, cu)) :
    '_' ∉ d.data := by
  unfold lex_prefixed_digits at h
  refine lex_prefixed_digits_loop_no_und _ start base chars cursor ?_ h
  by_cases hcu : c = '_'
  · rw [if_neg (by simpa using hcu)]
    intro hm
    simp at hm
  · rw [if_pos (by simpa using hcu)]
    intro hm
    have : '_' = c := by
      have hd : (String.singleton c).data = [c] := rfl
      rw [hd, List.mem_singleton] at hm
      exact hm
    exact hcu this.symm

theorem tokenize_prefixed_integer_payload (c : Char) (start : Nat)
    (chars : List Char) (cursor : Nat) {t : Token} {ch : List Char} {cu : Nat}
    (h : tokenize_prefixed_integer c start chars cursor = .ok (t, ch, cu)) :
    TokGood t := by
  unfold tokenize_prefixed_integer at h
  split at h <;>
    [skip;
     (split at h <;>
      [skip;
       skip])]
  all_goals (
    first
    | (split at h
       · rename_i d rest
         split at h
         · split at h
           · rename_i digits ch2 cu2 hr
             cases h
             exact ⟨rfl, lex_prefixed_digits_no_und _ _ _ _ _ hr⟩
           · cases h
         · cases h
       · cases h)
    | skip)

theorem tokenize_identifier_or_keyword_kinds (acc : String) (start : Nat)
    (chars : List Char) (cursor : Nat) {t : Token} {ch : List Char} {cu : Nat}
    (h : tokenize_identifier_or_keyword acc start chars cursor = (t, ch, cu)) :
    TokGood t := by
  induction chars generalizing acc cursor with
  | nil =>
    unfold tokenize_identifier_or_keyword at h
    cases h
    cases hk : keyword_from_string acc <;>
      simp only [hk, Option.elim] <;>
      exact ⟨rfl, trivial⟩
  | cons c rest ih =>
    unfold tokenize_identifier_or_keyword at h
    by_cases hw : is_word_char c
    · rw [if_pos hw] at h
      exact ih (acc.push c) (cursor + 1) h
    · rw [if_neg hw] at h
      cases h
      cases hk : keyword_from_string acc <;>
        simp only [hk, Option.elim] <;>
        exact ⟨rfl, trivial⟩

/-! Step-level contracts for the dispatcher. -/

theorem step_spec_lift (s s2 : Lexer)
    (hl : s2.indent_level = s.indent_level)
    (hb : s2.token_buffer = s.token_buffer)
    (hcur : s.cursor ≤ s2.cursor)
    (hsync : s2.cursor + s2.chars.length = s.cursor + s.chars.length)
    (hlt : s2.chars.length < s.chars.length)
    (r : Except LexerError (Token × Lexer)) (h : StepSpec s2 r) : StepSpec s r := by
  match r with
  | .ok (t, s') =>
    obtain ⟨⟨h1, h2, h3, h4, h5, h6, h7, h8, h9⟩, hinv'⟩ := h
    refine ⟨⟨le_trans hcur h1, by omega, h3, h4, h5, ?_, ?_, h8, ?_⟩, hinv'⟩
    · intro hsb
      have := h6 (by rw [hb, hsb])
      omega
    · rw [hl, hb] at h7
      exact h7
    · rw [hl, hb] at h9
      omega
  | .error e =>
    obtain ⟨h1, h2⟩ := h
    exact ⟨h1, by omega⟩

theorem Optstep_spec_lift (s s2 : Lexer)
    (hl : s2.indent_level = s.indent_level)
    (hb : s2.token_buffer = s.token_buffer)
    (hcur : s.cursor ≤ s2.cursor)
    (hsync : s2.cursor + s2.chars.length = s.cursor + s.chars.length)
    (hlt : s2.chars.length < s.chars.length)
    (o : Option (Except LexerError (Token × Lexer)))
    (h : OptStepSpec s2 o) : OptStepSpec s o := by
  match o with
  | none => trivial
  | some r => exact step_spec_lift s s2 hl hb hcur hsync hlt r h

theorem step_error (s : Lexer) (k : LexerErrorKind) (stop : Nat)
    (h1 : s.cursor < stop) (h2 : stop ≤ s.cursor + s.chars.length) :
    StepSpec s (.error ⟨k, ⟨s.cursor, stop⟩⟩) := ⟨h1, h2⟩

theorem step_simple (s : Lexer) (hinv : StateInv s) (hbuf : s.token_buffer = [])
    (k : Nat) (hk1 : 1 ≤ k) (hklen : k ≤ s.chars.length)
    (kind : TokenKind) (hdelta : token_delta kind = 0)
    (hpc : payload_canonical ⟨kind, ⟨s.cursor, s.cursor + k⟩⟩)
    (s2 : Lexer) (h2 : s2 = { s with chars := s.chars.drop k, cursor := s.cursor + k }) :
    StepSpec s (.ok (⟨kind, ⟨s.cursor, s.cursor + k⟩⟩, s2)) := by
  subst h2
  obtain ⟨hl0, hs0, hz0, _, _⟩ := hinv
  refine ⟨⟨?_, ?_, ?_, ?_, ?_, ?_, ?_, hpc, ?_⟩, hl0, hs0, hz0, ?_, ?_⟩
  · show s.cursor ≤ s.cursor + k
    omega
  · show s.cursor + k + (s.chars.drop k).length = s.cursor + s.chars.length
    simp only [List.length_drop]
    omega
  · show s.cursor < s.cursor + k
    omega
  · show (s.cursor + k : Nat) ≤ s.cursor + k
    exact Nat.le_refl _
  · intro u hu
    have hu' : u ∈ s.token_buffer := hu
    rw [hbuf] at hu'
    exact absurd hu' (List.not_mem_nil u)
  · exact fun _ => Nat.le_refl _
  · show s.indent_level + (s.token_buffer.length : Int) =
      s.indent_level + (s.token_buffer.length : Int) + token_delta kind
    rw [hdelta]
    omega
  · show 2 * (s.chars.drop k).length + s.token_buffer.length + s.indent_level.toNat
      < 2 * s.chars.length + s.token_buffer.length + s.indent_level.toNat
    simp only [List.length_drop]
    omega
  · intro u hu
    have hu' : u ∈ s.token_buffer := hu
    rw [hbuf] at hu'
    exact absurd hu' (List.not_mem_nil u)
  · intro u hu
    have hu' : u ∈ s.token_buffer := hu
    rw [hbuf] at hu'
    exact absurd hu' (List.not_mem_nil u)

theorem step_with_state (s st1 : Lexer) (hinv : StateInv s) (hbuf : s.token_buffer = [])
    (hl : st1.indent_level = s.indent_level)
    (hb : st1.token_buffer = s.token_buffer)
    (hsz : st1.indent_size = s.indent_size)
    (chars : List Char) (cursor : Nat)
    (hA : Adv s.chars s.cursor chars cursor) (hcs : s.cursor < cursor)
    (r : Except LexerError (Token × List Char × Nat))
    (hspec : TokSpec s.cursor chars cursor r)
    (hgood : ∀ t ch cu, r = .ok (t, ch, cu) → TokGood t) :
    StepSpec s (with_state st1 r) := by
  match r with
  | .ok (t, ch2, cu2) =>
    obtain ⟨hA2, hts, hte⟩ := hspec
    obtain ⟨hdelta, hpc⟩ := hgood t ch2 cu2 rfl
    have hAf := Adv.trans hA hA2
    have hc2 : s.cursor < cu2 := Nat.lt_of_lt_of_le hcs hA2.cursor_le
    have hsyn := hAf.sync
    have hlen : ch2.length < s.chars.length := hAf.length_lt hc2
    obtain ⟨hl0, hs0, hz0, _, _⟩ := hinv
    show StepSpec s (.ok (t, { st1 with chars := ch2, cursor := cu2 }))
    refine ⟨⟨?_, ?_, ?_, ?_, ?_, ?_, ?_, hpc, ?_⟩, ?_, ?_, ?_, ?_, ?_⟩
    · show s.cursor ≤ cu2
      omega
    · show cu2 + ch2.length = s.cursor + s.chars.length
      omega
    · rw [hts, hte]
      exact hc2
    · show t.span.stop ≤ cu2
      rw [hte]
    · intro u hu
      have hu' : u ∈ st1.token_buffer := hu
      rw [hb, hbuf] at hu'
      exact absurd hu' (List.not_mem_nil u)
    · exact fun _ => le_of_eq hts.symm
    · show st1.indent_level + (st1.token_buffer.length : Int) =
        s.indent_level + (s.token_buffer.length : Int) + token_delta t.kind
      rw [hl, hb, hdelta]
      omega
    · show 2 * ch2.length + st1.token_buffer.length + st1.indent_level.toNat
        < 2 * s.chars.length + s.token_buffer.length + s.indent_level.toNat
      rw [hl, hb]
      omega
    · show 0 ≤ st1.indent_level
      rw [hl]
      exact hl0
    · show 0 ≤ st1.indent_size
      rw [hsz]
      exact hs0
    · show st1.indent_size = 0 → st1.indent_level = 0
      rw [hsz, hl]
      exact hz0
    · intro u hu
      have hu' : u ∈ st1.token_buffer := hu
      rw [hb, hbuf] at hu'
      exact absurd hu' (List.not_mem_nil u)
    · intro u hu
      have hu' : u ∈ st1.token_buffer := hu
      rw [hb, hbuf] at hu'
      exact absurd hu' (List.not_mem_nil u)
  | .error e =>
    obtain ⟨h1, h2, h3⟩ := hspec
    have hsyn := hA.sync
    show StepSpec s (.error e)
    exact ⟨by rw [h1]; exact h2, by omega⟩

theorem tok_spec_finish (plain : String → TokenKind) (payload : String)
    {start cursor : Nat} {chars ch2 : List Char} {cu2 : Nat} {p : String}
    (hs : RecogSpec (α := String) start chars cursor (.ok (p, ch2, cu2))) :
    TokSpec start chars cursor (.ok (finish_num plain payload start ch2 cu2)) := by
  have hf := finish_num_spec plain payload start ch2 cu2
  match hfn : finish_num plain payload start ch2 cu2 with
  | (t, ch3, cu3) =>
    rw [hfn] at hf
    exact ⟨(hs : Adv chars cursor ch2 cu2).trans hf.1, hf.2⟩

theorem step_quoted_string (s st1 : Lexer) (hinv : StateInv s) (hbuf : s.token_buffer = [])
    (hl : st1.indent_level = s.indent_level)
    (hb : st1.token_buffer = s.token_buffer)
    (hsz : st1.indent_size = s.indent_size)
    (quote : Char) (mk : String → TokenKind)
    (hmk : ∀ p sp, TokGood ⟨mk p, sp⟩)
    (chars : List Char) (cursor : Nat)
    (hA : Adv s.chars s.cursor chars cursor) (hcs : s.cursor < cursor) :
    StepSpec s (lex_quoted_string quote mk s.cursor st1 chars cursor) := by
  have hlong : decide (chars.take 2 = [quote, quote]) = true → 2 ≤ chars.length := by
    intro hd
    have heq := of_decide_eq_true hd
    have hlen : (chars.take 2).length = 2 := by rw [heq]; rfl
    simp only [List.length_take] at hlen
    omega
  have hs := lex_short_or_long_string_spec quote s.cursor
    (decide (chars.take 2 = [quote, quote])) chars cursor hcs hlong
  unfold lex_quoted_string
  split
  · rename_i p ch2 cu2 hr
    rw [hr] at hs
    show StepSpec s (with_state st1 (.ok (⟨mk p, ⟨s.cursor, cu2⟩⟩, ch2, cu2)))
    refine step_with_state s st1 hinv hbuf hl hb hsz chars cursor hA hcs
      (.ok (⟨mk p, ⟨s.cursor, cu2⟩⟩, ch2, cu2)) ⟨hs, rfl, rfl⟩ ?_
    intro t ch cu hok
    cases hok
    exact hmk p _
  · rename_i e hr
    rw [hr] at hs
    have hsyn := hA.sync
    have h3 := hs.2.2
    exact ⟨by rw [hs.1]; exact hs.2.1, by omega⟩

theorem step_quoted_bytes (s st1 : Lexer) (hinv : StateInv s) (hbuf : s.token_buffer = [])
    (hl : st1.indent_level = s.indent_level)
    (hb : st1.token_buffer = s.token_buffer)
    (hsz : st1.indent_size = s.indent_size)
    (quote : Char) (mk : String → TokenKind)
    (hmk : ∀ p sp, TokGood ⟨mk p, sp⟩)
    (chars : List Char) (cursor : Nat)
    (hA : Adv s.chars s.cursor chars cursor) (hcs : s.cursor < cursor) :
    StepSpec s (lex_quoted_bytes quote mk s.cursor st1 chars cursor) := by
  have hlong : decide (chars.take 2 = [quote, quote]) = true → 2 ≤ chars.length := by
    intro hd
    have heq := of_decide_eq_true hd
    have hlen : (chars.take 2).length = 2 := by rw [heq]; rfl
    simp only [List.length_take] at hlen
    omega
  have hs := lex_short_or_long_bytes_spec quote s.cursor
    (decide (chars.take 2 = [quote, quote])) chars cursor hcs hlong
  unfold lex_quoted_bytes
  split
  · rename_i p ch2 cu2 hr
    rw [hr] at hs
    show StepSpec s (with_state st1 (.ok (⟨mk p, ⟨s.cursor, cu2⟩⟩, ch2, cu2)))
    refine step_with_state s st1 hinv hbuf hl hb hsz chars cursor hA hcs
      (.ok (⟨mk p, ⟨s.cursor, cu2⟩⟩, ch2, cu2)) ⟨hs, rfl, rfl⟩ ?_
    intro t ch cu hok
    cases hok
    exact hmk p _
  · rename_i e hr
    rw [hr] at hs
    have hsyn := hA.sync
    have h3 := hs.2.2
    exact ⟨by rw [hs.1]; exact hs.2.1, by omega⟩

theorem step_handler (s : Lexer) (hinv : StateInv s) (hbuf : s.token_buffer = [])
    (c : Char) (rest : List Char) (heq : s.chars = c :: rest) :
    StepSpec s (tokenize_newline_or_indentation c s.cursor
      { s with chars := rest, cursor := s.cursor + 1 }) := by
  obtain ⟨hl0, hs0, hz0, _, _⟩ := hinv
  have hh := handler_spec c s.cursor { s with chars := rest, cursor := s.cursor + 1 }
    rfl hbuf hl0 hs0 hz0
  match hr : tokenize_newline_or_indentation c s.cursor
      { s with chars := rest, cursor := s.cursor + 1 } with
  | .ok (t, s') =>
    rw [hr] at hh
    obtain ⟨h1, h2, h3, h4, h5, h5d, h6, h7, h8, h9, h10⟩ := hh
    have hrlen : rest.length + 1 = s.chars.length := by
      rw [heq]
      simp only [List.length_cons]
    refine ⟨⟨?_, ?_, ?_, ?_, h5, ?_, ?_, ?_, ?_⟩, h7, h8, h9, ?_, ?_⟩
    · show s.cursor ≤ s'.cursor
      have : (s.cursor + 1 : Nat) ≤ s'.cursor := h1
      omega
    · have : s'.cursor + s'.chars.length = s.cursor + 1 + rest.length := h2
      omega
    · rw [h3, h4]
      have : (s.cursor + 1 : Nat) ≤ s'.cursor := h1
      omega
    · rw [h4]
    · intro _
      rw [h3]
    · show s'.indent_level + (s'.token_buffer.length : Int) =
        s.indent_level + (s.token_buffer.length : Int) + token_delta t.kind
      rw [hbuf]
      simp only [List.length_nil, Nat.cast_zero]
      have : s'.indent_level + (s'.token_buffer.length : Int) =
        s.indent_level + token_delta t.kind := h6
      omega
    · rcases h10 with hk | hk | hk <;>
      · rw [payload_canonical, hk]
        trivial
    · show 2 * s'.chars.length + s'.token_buffer.length + s'.indent_level.toNat
        < 2 * s.chars.length + s.token_buffer.length + s.indent_level.toNat
      rw [hbuf]
      have hc1 : (s.cursor + 1 : Nat) ≤ s'.cursor := h1
      have hsy : s'.cursor + s'.chars.length = s.cursor + 1 + rest.length := h2
      have heqn : s'.indent_level + (s'.token_buffer.length : Int) =
        s.indent_level + token_delta t.kind := h6
      have hdel : token_delta t.kind ≤ 1 := by
        rcases h10 with hk | hk | hk <;> rw [hk] <;> decide
      simp only [List.length_nil]
      omega
    · intro u hu
      have := h5 u hu
      subst this
      have hkd := h5d (by intro h0; rw [h0] at hu; exact absurd hu (List.not_mem_nil u))
      refine ⟨hkd, ?_, ?_⟩
      · rw [h3, h4]
        have : (s.cursor + 1 : Nat) ≤ s'.cursor := h1
        omega
      · rw [h4]
    · intro u hu v hv
      rw [h5 u hu, h5 v hv]
  | .error e =>
    rw [hr] at hh
    obtain ⟨h1, h2, h3⟩ := hh
    have hrlen : rest.length + 1 = s.chars.length := by
      rw [heq]
      simp only [List.length_cons]
    refine ⟨by rw [h1]; exact h2, ?_⟩
    have : e.span.stop ≤ s.cursor + 1 + rest.length := h3
    omega

theorem one_le_len {c : Char} {rest : List Char} : 1 ≤ (c :: rest).length :=
  Nat.succ_le_succ (Nat.zero_le _)

theorem two_le_len {c : Char} {rest : List Char} (h : rest ≠ []) :
    2 ≤ (c :: rest).length := by
  cases rest with
  | nil => exact absurd rfl h
  | cons a b => exact Nat.succ_le_succ (Nat.succ_le_succ (Nat.zero_le _))

theorem three_le_len {c a : Char} {rest : List Char}
    (h : (rest.drop 1).head? = some a) : 3 ≤ (c :: rest).length := by
  cases rest with
  | nil => simp at h
  | cons x xs =>
    cases xs with
    | nil => simp at h
    | cons y ys =>
      simp only [List.length_cons]
      omega

theorem ne_nil_of_head {l : List Char} {a : Char} (h : l.head? = some a) : l ≠ [] := by
  intro h0
  rw [h0] at h
  cases h

theorem len_pos_of_head {l : List Char} {a : Char} (h : l.head? = some a) :
    1 ≤ l.length := by
  cases l with
  | nil => cases h
  | cons x xs => exact Nat.succ_le_succ (Nat.zero_le _)

theorem adv_after_one (s : Lexer) {c : Char} {rest : List Char}
    (heq : s.chars = c :: rest) : Adv s.chars s.cursor rest (s.cursor + 1) := by
  rw [heq]
  exact adv_cons c (Adv.refl _ _)

theorem adv_after_two (s : Lexer) {c c2 : Char} {rest : List Char}
    (heq : s.chars = c :: rest) (h2 : rest.head? = some c2) :
    Adv s.chars s.cursor (rest.drop 1) (s.cursor + 1 + 1) := by
  rw [heq]
  cases rest with
  | nil => cases h2
  | cons a b => exact adv_cons c (adv_cons a (Adv.refl _ _))

theorem adv_after_three (s : Lexer) {c c2 c3 : Char} {rest : List Char}
    (heq : s.chars = c :: rest) (h2 : rest.head? = some c2)
    (h3 : (rest.drop 1).head? = some c3) :
    Adv s.chars s.cursor (rest.drop 2) (s.cursor + 1 + 2) := by
  rw [heq]
  cases rest with
  | nil => cases h2
  | cons a b =>
    cases b with
    | nil => simp at h3
    | cons a2 b2 => exact adv_cons c (adv_cons a (adv_cons a2 (Adv.refl _ _)))

theorem recog_refl (start : Nat) (chars : List Char) (cursor : Nat) (p : String) :
    RecogSpec (α := String) start chars cursor (.ok (p, chars, cursor)) :=
  Adv.refl chars cursor

theorem digits_only_singleton {c : Char} (h : is_dec_digit c = true) :
    digits_only (String.singleton c) := by
  intro ch hm
  have hd : (String.singleton c).data = [c] := rfl
  rw [hd, List.mem_singleton] at hm
  rw [hm]
  exact h

theorem step_error_cons (s : Lexer) {c : Char} {rest : List Char}
    (heq : s.chars = c :: rest) {e : LexerError}
    (hs : e.span.start = s.cursor ∧ s.cursor < e.span.stop ∧
      e.span.stop ≤ s.cursor + 1 + rest.length) :
    StepSpec s (.error e) := by
  refine ⟨by rw [hs.1]; exact hs.2.1, ?_⟩
  have h3 := hs.2.2
  have hlen : s.chars.length = rest.length + 1 := by
    rw [heq]
    simp only [List.length_cons]
  omega

theorem step_error_cons2 (s : Lexer) {c c2 : Char} {rest : List Char}
    (heq : s.chars = c :: rest) (h2 : rest.head? = some c2) {e : LexerError}
    (hs : e.span.start = s.cursor ∧ s.cursor < e.span.stop ∧
      e.span.stop ≤ s.cursor + 1 + 1 + (rest.drop 1).length) :
    StepSpec s (.error e) := by
  refine ⟨by rw [hs.1]; exact hs.2.1, ?_⟩
  have h3 := hs.2.2
  have hlen : s.chars.length = rest.length + 1 := by
    rw [heq]
    simp only [List.length_cons]
  have hpos := len_pos_of_head h2
  have hd : (rest.drop 1).length = rest.length - 1 := by
    simp only [List.length_drop]
  omega

theorem st1_eq (s : Lexer) {c : Char} {rest : List Char} (heq : s.chars = c :: rest) :
    ({ s with chars := rest, cursor := s.cursor + 1 } : Lexer)
      = { s with chars := s.chars.drop 1, cursor := s.cursor + 1 } := by
  rw [heq]
  rfl

theorem StateInv.same_fields (s s2 : Lexer) (hinv : StateInv s)
    (hbuf : s.token_buffer = [])
    (hl : s2.indent_level = s.indent_level) (hsz : s2.indent_size = s.indent_size)
    (hb : s2.token_buffer = s.token_buffer) : StateInv s2 := by
  obtain ⟨hl0, hs0, hz0, _, _⟩ := hinv
  refine ⟨by rw [hl]; exact hl0, by rw [hsz]; exact hs0,
    by rw [hsz, hl]; exact fun h => hz0 h, ?_, ?_⟩
  · intro u hu
    rw [hb, hbuf] at hu
    exact absurd hu (List.not_mem_nil u)
  · intro u hu
    rw [hb, hbuf] at hu
    exact absurd hu (List.not_mem_nil u)

theorem loop_continue (s : Lexer) (hinv : StateInv s) (hbuf : s.token_buffer = [])
    (fuel : Nat)
    (ih : ∀ (s' : Lexer), StateInv s' → s'.token_buffer = [] → s'.chars.length < fuel →
      OptStepSpec s' (next_token_loop fuel s'))
    (chars2 : List Char) (cursor2 : Nat)
    (hA : Adv s.chars s.cursor chars2 cursor2)
    (hlt : chars2.length < s.chars.length)
    (hfl : s.chars.length ≤ fuel) :
    OptStepSpec s (next_token_loop fuel
      { s with chars := chars2, cursor := cursor2 }) := by
  have hinv2 : StateInv { s with chars := chars2, cursor := cursor2 } :=
    StateInv.same_fields s _ hinv hbuf rfl rfl rfl
  exact Optstep_spec_lift s { s with chars := chars2, cursor := cursor2 } rfl rfl
    hA.cursor_le hA.sync hlt _
    (ih _ hinv2 hbuf (show chars2.length < fuel by omega))

theorem next_token_loop_spec : ∀ (fuel : Nat) (s : Lexer), StateInv s →
    s.token_buffer = [] → s.chars.length < fuel →
    OptStepSpec s (next_token_loop fuel s) := by
  intro fuel
  induction fuel with
  | zero =>
    intro s _ _ hlt
    exact absurd hlt (by omega)
  | succ fuel ih =>
    intro s hinv hbuf hfuel
    unfold next_token_loop
    split
    · trivial
    · rename_i c rest heq
      simp only []
      by_cases hsp : c = ' ' ∨ c = '\t'
      · rw [if_pos hsp]
        have hA1 : Adv rest (s.cursor + 1) (skip_horizontal rest (s.cursor + 1)).1
            (skip_horizontal rest (s.cursor + 1)).2 :=
          skip_horizontal_spec rest (s.cursor + 1) _ _ rfl
        have hA : Adv s.chars s.cursor (skip_horizontal rest (s.cursor + 1)).1
            (skip_horizontal rest (s.cursor + 1)).2 := by
          rw [heq]
          exact adv_cons c hA1
        have hlen : (skip_horizontal rest (s.cursor + 1)).1.length < s.chars.length := by
          have h1 := hA1.length_le
          rw [heq]
          simp only [List.length_cons]
          omega
        exact loop_continue s hinv hbuf fuel ih _ _ hA hlen (by omega)
      rw [if_neg hsp]
      by_cases hnl : c = '\r' ∨ c = '\n'
      · rw [if_pos hnl]
        exact step_handler s hinv hbuf c rest heq
      rw [if_neg hnl]
      by_cases hcm : c = '#'
      · rw [if_pos hcm]
        have hA1 : Adv rest (s.cursor + 1) (skip_comment rest (s.cursor + 1)).1
            (skip_comment rest (s.cursor + 1)).2 :=
          skip_comment_spec rest (s.cursor + 1) _ _ rfl
        have hA : Adv s.chars s.cursor (skip_comment rest (s.cursor + 1)).1
            (skip_comment rest (s.cursor + 1)).2 := by
          rw [heq]
          exact adv_cons c hA1
        have hlen : (skip_comment rest (s.cursor + 1)).1.length < s.chars.length := by
          have h1 := hA1.length_le
          rw [heq]
          simp only [List.length_cons]
          omega
        exact loop_continue s hinv hbuf fuel ih _ _ hA hlen (by omega)
      rw [if_neg hcm]
      by_cases hbs : c = '\\'
      · rw [if_pos hbs]
        by_cases hcr : rest.head? = some '\r'
        · rw [if_pos hcr]
          by_cases hn2 : (rest.drop 1).head? = some '\n'
          · rw [if_pos hn2]
            have hA : Adv s.chars s.cursor (rest.drop 2) (s.cursor + 3) := by
              rw [heq]
              cases rest with
              | nil => cases hcr
              | cons a b =>
                cases b with
                | nil => simp at hn2
                | cons a2 b2 => exact adv_cons c (adv_cons a (adv_cons a2 (Adv.refl _ _)))
            have hlen : (rest.drop 2).length < s.chars.length := by
              rw [heq]
              simp only [List.length_cons, List.length_drop]
              omega
            exact loop_continue s hinv hbuf fuel ih _ _ hA hlen (by omega)
          · rw [if_neg hn2]
            have hA : Adv s.chars s.cursor (rest.drop 1) (s.cursor + 2) := by
              rw [heq]
              cases rest with
              | nil => cases hcr
              | cons a b => exact adv_cons c (adv_cons a (Adv.refl _ _))
            have hlen : (rest.drop 1).length < s.chars.length := by
              rw [heq]
              simp only [List.length_cons, List.length_drop]
              omega
            exact loop_continue s hinv hbuf fuel ih _ _ hA hlen (by omega)
        · rw [if_neg hcr]
          by_cases hlf : rest.head? = some '\n'
          · rw [if_pos hlf]
            have hA : Adv s.chars s.cursor (rest.drop 1) (s.cursor + 2) := by
              rw [heq]
              cases rest with
              | nil => cases hlf
              | cons a b => exact adv_cons c (adv_cons a (Adv.refl _ _))
            have hlen : (rest.drop 1).length < s.chars.length := by
              rw [heq]
              simp only [List.length_cons, List.length_drop]
              omega
            exact loop_continue s hinv hbuf fuel ih _ _ hA hlen (by omega)
          · rw [if_neg hlf]
            exact step_error s _ (s.cursor + 1) (by omega)
              (by rw [heq]; simp only [List.length_cons]; omega)
      rw [if_neg hbs]
      by_cases hq1 : c = '\''
      · rw [if_pos hq1]
        exact step_quoted_string s { s with chars := rest, cursor := s.cursor + 1 } hinv hbuf rfl rfl rfl '\''
          (fun p => TokenKind.Str p StringKind.Str)
          (fun p sp => ⟨rfl, trivial⟩) rest (s.cursor + 1)
          (adv_after_one s heq) (by omega)
      rw [if_neg hq1]
      by_cases hq2 : c = '"'
      · rw [if_pos hq2]
        exact step_quoted_string s { s with chars := rest, cursor := s.cursor + 1 } hinv hbuf rfl rfl rfl '"'
          (fun p => TokenKind.Str p StringKind.Str)
          (fun p sp => ⟨rfl, trivial⟩) rest (s.cursor + 1)
          (adv_after_one s heq) (by omega)
      rw [if_neg hq2]
      by_cases hdot : c = '.'
      · rw [if_pos hdot]
        by_cases hfr : rest.head?.elim false is_dec_digit = true
        · rw [if_pos hfr]
          split
          · rename_i frac chars2 cursor2 hrr
            have hs := lex_float_fraction_spec s.cursor rest (s.cursor + 1) (by omega)
            rw [hrr] at hs
            refine step_with_state s { s with chars := rest, cursor := s.cursor + 1 } hinv hbuf rfl rfl rfl rest (s.cursor + 1)
              (adv_after_one s heq) (by omega) _
              (tok_spec_finish .Float ("0" ++ frac) hs) ?_
            intro t ch cu hok
            injection hok with hok2
            exact tok_good_imag_or_float
              (payload_ok_zero_append (lex_float_fraction_payload s.cursor rest _ hrr))
              (finish_num_kinds _ _ _ _ _ hok2)
          · rename_i e hrr
            have hs := lex_float_fraction_spec s.cursor rest (s.cursor + 1) (by omega)
            rw [hrr] at hs
            exact step_error_cons s heq hs
        · rw [if_neg hfr]
          exact step_simple s hinv hbuf 1 (Nat.le_refl 1)
            (by rw [heq]; exact one_le_len) (.Delim .Dot) rfl trivial _ (st1_eq s heq)
      rw [if_neg hdot]
      by_cases h0 : c = '0'
      · rw [if_pos h0]
        split
        · rename_i c2 heq2
          by_cases hx : c2 = 'x' ∨ c2 = 'X' ∨ c2 = 'b' ∨ c2 = 'B' ∨ c2 = 'o' ∨ c2 = 'O'
          · rw [if_pos hx]
            exact step_with_state s { s with chars := rest, cursor := s.cursor + 1 } hinv hbuf rfl rfl rfl (rest.drop 1) (s.cursor + 1 + 1)
              (adv_after_two s heq heq2) (by omega) _
              (tokenize_prefixed_integer_spec c2 s.cursor (rest.drop 1)
                (s.cursor + 1 + 1) (by omega))
              (fun t ch cu hok => tokenize_prefixed_integer_payload c2 s.cursor _ _ hok)
          · rw [if_neg hx]
            by_cases hu0 : c2 = '_' ∨ c2 = '0'
            · rw [if_pos hu0]
              by_cases hbad : c2 = '_' ∧ ¬((rest.drop 1).head? = some '0')
              · rw [if_pos hbad]
                exact step_error s _ (s.cursor + 1 + 1) (by omega)
                  (by rw [heq]
                      simp only [List.length_cons]
                      have := len_pos_of_head heq2
                      omega)
              · rw [if_neg hbad]
                exact step_with_state s { s with chars := rest, cursor := s.cursor + 1 } hinv hbuf rfl rfl rfl (rest.drop 1)
                  (s.cursor + 1 + 1) (adv_after_two s heq heq2) (by omega) _
                  (tokenize_leading_zero_spec s.cursor (rest.drop 1)
                    (s.cursor + 1 + 1) (by omega))
                  (fun t ch cu hok => tokenize_leading_zero_payload s.cursor _ _ hok)
            · rw [if_neg hu0]
              by_cases hd2 : is_dec_digit c2 = true
              · rw [if_pos hd2]
                exact step_error s _ (s.cursor + 1) (by omega)
                  (by rw [heq]; simp only [List.length_cons]; omega)
              · rw [if_neg hd2]
                by_cases hdot2 : c2 = '.'
                · rw [if_pos hdot2]
                  split
                  · rename_i frac chars2 cursor2 hrr
                    have hs := lex_float_fraction_spec s.cursor (rest.drop 1)
                      (s.cursor + 1 + 1) (by omega)
                    rw [hrr] at hs
                    refine step_with_state s { s with chars := rest, cursor := s.cursor + 1 } hinv hbuf rfl rfl rfl (rest.drop 1)
                      (s.cursor + 1 + 1) (adv_after_two s heq heq2) (by omega) _
                      (tok_spec_finish .Float ("0" ++ frac) hs) ?_
                    intro t ch cu hok
                    injection hok with hok2
                    exact tok_good_imag_or_float
                      (payload_ok_zero_append
                        (lex_float_fraction_payload s.cursor (rest.drop 1) _ hrr))
                      (finish_num_kinds _ _ _ _ _ hok2)
                  · rename_i e hrr
                    have hs := lex_float_fraction_spec s.cursor (rest.drop 1)
                      (s.cursor + 1 + 1) (by omega)
                    rw [hrr] at hs
                    exact step_error_cons2 s heq heq2 hs
                · rw [if_neg hdot2]
                  by_cases he2 : c2 = 'e' ∨ c2 = 'E'
                  · rw [if_pos he2]
                    split
                    · rename_i expo chars2 cursor2 hrr
                      have hs := lex_float_exponent_spec s.cursor (rest.drop 1)
                        (s.cursor + 1 + 1) (by omega)
                      rw [hrr] at hs
                      refine step_with_state s { s with chars := rest, cursor := s.cursor + 1 } hinv hbuf rfl rfl rfl (rest.drop 1)
                        (s.cursor + 1 + 1) (adv_after_two s heq heq2) (by omega) _
                        (tok_spec_finish .Float ("0" ++ expo) hs) ?_
                      intro t ch cu hok
                      injection hok with hok2
                      exact tok_good_imag_or_float
                        (payload_ok_zero_append
                          (lex_float_exponent_payload s.cursor (rest.drop 1) _ hrr))
                        (finish_num_kinds _ _ _ _ _ hok2)
                    · rename_i e hrr
                      have hs := lex_float_exponent_spec s.cursor (rest.drop 1)
                        (s.cursor + 1 + 1) (by omega)
                      rw [hrr] at hs
                      exact step_error_cons2 s heq heq2 hs
                  · rw [if_neg he2]
                    refine step_with_state s { s with chars := rest, cursor := s.cursor + 1 } hinv hbuf rfl rfl rfl rest (s.cursor + 1)
                      (adv_after_one s heq) (by omega) _
                      (tok_spec_finish (fun p => TokenKind.Integer p IntegerKind.Dec) "0" (recog_refl s.cursor rest (s.cursor + 1) "")) ?_
                    intro t ch cu hok
                    injection hok with hok2
                    rcases finish_num_kinds _ _ _ _ _ hok2 with hk | hk
                    · exact tok_good_imag_or_integer IntegerKind.Dec ⟨by decide, by decide⟩ (Or.inl hk)
                    · exact tok_good_imag_or_integer IntegerKind.Dec ⟨by decide, by decide⟩ (Or.inr hk)
        · rename_i heq2
          refine step_with_state s { s with chars := rest, cursor := s.cursor + 1 } hinv hbuf rfl rfl rfl rest (s.cursor + 1)
            (adv_after_one s heq) (by omega) _
            (tok_spec_finish (fun p => TokenKind.Integer p IntegerKind.Dec) "0" (recog_refl s.cursor rest (s.cursor + 1) "")) ?_
          intro t ch cu hok
          injection hok with hok2
          rcases finish_num_kinds _ _ _ _ _ hok2 with hk | hk
          · exact tok_good_imag_or_integer IntegerKind.Dec ⟨by decide, by decide⟩ (Or.inl hk)
          · exact tok_good_imag_or_integer IntegerKind.Dec ⟨by decide, by decide⟩ (Or.inr hk)
      rw [if_neg h0]
      by_cases hdig : is_dec_digit c = true
      · rw [if_pos hdig]
        split
        · rename_i c2 heq2
          by_cases hud : c2 = '_' ∨ is_dec_digit c2 = true
          · rw [if_pos hud]
            by_cases hbad : c2 = '_' ∧ ¬((rest.drop 1).head?.elim false is_dec_digit = true)
            · rw [if_pos hbad]
              exact step_error s _ (s.cursor + 1 + 1) (by omega)
                (by rw [heq]
                    simp only [List.length_cons]
                    have := len_pos_of_head heq2
                    omega)
            · rw [if_neg hbad]
              by_cases hu2 : c2 = '_'
              · rw [if_pos hu2]
                refine step_with_state s { s with chars := rest, cursor := s.cursor + 1 } hinv hbuf rfl rfl rfl (rest.drop 1)
                  (s.cursor + 1 + 1) (adv_after_two s heq heq2) (by omega) _
                  (tokenize_leading_non_zero_spec (String.singleton c) s.cursor
                    (rest.drop 1) (s.cursor + 1 + 1) (by omega)) ?_
                intro t ch cu hok
                exact tokenize_leading_non_zero_payload _ s.cursor _ _
                  (digits_only_singleton hdig) hok
              · rw [if_neg hu2]
                have hd2 : is_dec_digit c2 = true := hud.resolve_left hu2
                refine step_with_state s { s with chars := rest, cursor := s.cursor + 1 } hinv hbuf rfl rfl rfl (rest.drop 1)
                  (s.cursor + 1 + 1) (adv_after_two s heq heq2) (by omega) _
                  (tokenize_leading_non_zero_spec ((String.singleton c).push c2) s.cursor
                    (rest.drop 1) (s.cursor + 1 + 1) (by omega)) ?_
                intro t ch cu hok
                exact tokenize_leading_non_zero_payload _ s.cursor _ _
                  (digits_only_push (digits_only_singleton hdig) hd2) hok
          · rw [if_neg hud]
            by_cases hdot2 : c2 = '.'
            · rw [if_pos hdot2]
              split
              · rename_i frac chars2 cursor2 hrr
                have hs := lex_float_fraction_spec s.cursor (rest.drop 1)
                  (s.cursor + 1 + 1) (by omega)
                rw [hrr] at hs
                refine step_with_state s { s with chars := rest, cursor := s.cursor + 1 } hinv hbuf rfl rfl rfl (rest.drop 1)
                  (s.cursor + 1 + 1) (adv_after_two s heq heq2) (by omega) _
                  (tok_spec_finish .Float (String.singleton c ++ frac) hs) ?_
                intro t ch cu hok
                injection hok with hok2
                exact tok_good_imag_or_float
                  (payload_ok_digits_append (digits_only_singleton hdig)
                    (lex_float_fraction_payload s.cursor (rest.drop 1) _ hrr))
                  (finish_num_kinds _ _ _ _ _ hok2)
              · rename_i e hrr
                have hs := lex_float_fraction_spec s.cursor (rest.drop 1)
                  (s.cursor + 1 + 1) (by omega)
                rw [hrr] at hs
                exact step_error_cons2 s heq heq2 hs
            · rw [if_neg hdot2]
              by_cases he2 : c2 = 'e' ∨ c2 = 'E'
              · rw [if_pos he2]
                split
                · rename_i expo chars2 cursor2 hrr
                  have hs := lex_float_exponent_spec s.cursor (rest.drop 1)
                    (s.cursor + 1 + 1) (by omega)
                  rw [hrr] at hs
                  refine step_with_state s { s with chars := rest, cursor := s.cursor + 1 } hinv hbuf rfl rfl rfl (rest.drop 1)
                    (s.cursor + 1 + 1) (adv_after_two s heq heq2) (by omega) _
                    (tok_spec_finish .Float (String.singleton c ++ expo) hs) ?_
                  intro t ch cu hok
                  injection hok with hok2
                  exact tok_good_imag_or_float
                    (payload_ok_digits_append (digits_only_singleton hdig)
                      (lex_float_exponent_payload s.cursor (rest.drop 1) _ hrr))
                    (finish_num_kinds _ _ _ _ _ hok2)
                · rename_i e hrr
                  have hs := lex_float_exponent_spec s.cursor (rest.drop 1)
                    (s.cursor + 1 + 1) (by omega)
                  rw [hrr] at hs
                  exact step_error_cons2 s heq heq2 hs
              · rw [if_neg he2]
                refine step_with_state s { s with chars := rest, cursor := s.cursor + 1 } hinv hbuf rfl rfl rfl rest (s.cursor + 1)
                  (adv_after_one s heq) (by omega) _
                  (tok_spec_finish (fun p => TokenKind.Integer p IntegerKind.Dec) (String.singleton c) (recog_refl s.cursor rest (s.cursor + 1) "")) ?_
                intro t ch cu hok
                injection hok with hok2
                rcases finish_num_kinds _ _ _ _ _ hok2 with hk | hk
                · exact tok_good_imag_or_integer IntegerKind.Dec (payload_ok_of_digits_only (digits_only_singleton hdig)) (Or.inl hk)
                · exact tok_good_imag_or_integer IntegerKind.Dec (payload_ok_of_digits_only (digits_only_singleton hdig)) (Or.inr hk)
        · rename_i heq2
          refine step_with_state s { s with chars := rest, cursor := s.cursor + 1 } hinv hbuf rfl rfl rfl rest (s.cursor + 1)
            (adv_after_one s heq) (by omega) _
            (tok_spec_finish (fun p => TokenKind.Integer p IntegerKind.Dec) (String.singleton c) (recog_refl s.cursor rest (s.cursor + 1) "")) ?_
          intro t ch cu hok
          injection hok with hok2
          rcases finish_num_kinds _ _ _ _ _ hok2 with hk | hk
          · exact tok_good_imag_or_integer IntegerKind.Dec (payload_ok_of_digits_only (digits_only_singleton hdig)) (Or.inl hk)
          · exact tok_good_imag_or_integer IntegerKind.Dec (payload_ok_of_digits_only (digits_only_singleton hdig)) (Or.inr hk)
      rw [if_neg hdig]
      by_cases hf : c = 'f'
      · rw [if_pos hf]
        split
        · rename_i heq2
          exact step_quoted_string s { s with chars := rest, cursor := s.cursor + 1 } hinv hbuf rfl rfl rfl '"'
            (fun p => TokenKind.Str p StringKind.Format)
            (fun p sp => ⟨rfl, trivial⟩) (rest.drop 1) (s.cursor + 1 + 1)
            (adv_after_two s heq heq2) (by omega)
        · rename_i heq2
          exact step_quoted_string s { s with chars := rest, cursor := s.cursor + 1 } hinv hbuf rfl rfl rfl '\''
            (fun p => TokenKind.Str p StringKind.Format)
            (fun p sp => ⟨rfl, trivial⟩) (rest.drop 1) (s.cursor + 1 + 1)
            (adv_after_two s heq heq2) (by omega)
        · refine step_with_state s { s with chars := rest, cursor := s.cursor + 1 } hinv hbuf rfl rfl rfl rest (s.cursor + 1)
            (adv_after_one s heq) (by omega) _
            (tokenize_identifier_or_keyword_spec "f" s.cursor rest (s.cursor + 1)) ?_
          intro t ch cu hok
          injection hok with hok2
          exact tokenize_identifier_or_keyword_kinds _ _ _ _ hok2
      rw [if_neg hf]
      by_cases hb2 : c = 'b'
      · rw [if_pos hb2]
        split
        · rename_i heq2
          exact step_quoted_bytes s { s with chars := rest, cursor := s.cursor + 1 } hinv hbuf rfl rfl rfl '"'
            (fun p => TokenKind.ByteStr p BytesKind.Bytes)
            (fun p sp => ⟨rfl, trivial⟩) (rest.drop 1) (s.cursor + 1 + 1)
            (adv_after_two s heq heq2) (by omega)
        · rename_i heq2
          exact step_quoted_bytes s { s with chars := rest, cursor := s.cursor + 1 } hinv hbuf rfl rfl rfl '\''
            (fun p => TokenKind.ByteStr p BytesKind.Bytes)
            (fun p sp => ⟨rfl, trivial⟩) (rest.drop 1) (s.cursor + 1 + 1)
            (adv_after_two s heq heq2) (by omega)
        · refine step_with_state s { s with chars := rest, cursor := s.cursor + 1 } hinv hbuf rfl rfl rfl rest (s.cursor + 1)
            (adv_after_one s heq) (by omega) _
            (tokenize_identifier_or_keyword_spec "b" s.cursor rest (s.cursor + 1)) ?_
          intro t ch cu hok
          injection hok with hok2
          exact tokenize_identifier_or_keyword_kinds _ _ _ _ hok2
      rw [if_neg hb2]
      by_cases hr2 : c = 'r'
      · rw [if_pos hr2]
        split
        · rename_i heq2
          exact step_quoted_bytes s { s with chars := rest, cursor := s.cursor + 1 } hinv hbuf rfl rfl rfl '"'
            (fun p => TokenKind.Str p StringKind.RawStr)
            (fun p sp => ⟨rfl, trivial⟩) (rest.drop 1) (s.cursor + 1 + 1)
            (adv_after_two s heq heq2) (by omega)
        · rename_i heq2
          exact step_quoted_bytes s { s with chars := rest, cursor := s.cursor + 1 } hinv hbuf rfl rfl rfl '\''
            (fun p => TokenKind.Str p StringKind.RawStr)
            (fun p sp => ⟨rfl, trivial⟩) (rest.drop 1) (s.cursor + 1 + 1)
            (adv_after_two s heq heq2) (by omega)
        · rename_i heq2
          split
          · rename_i heq3
            exact step_quoted_bytes s { s with chars := rest, cursor := s.cursor + 1 } hinv hbuf rfl rfl rfl '"'
              (fun p => TokenKind.ByteStr p BytesKind.RawBytes)
              (fun p sp => ⟨rfl, trivial⟩) (rest.drop 2) (s.cursor + 1 + 2)
              (adv_after_three s heq heq2 heq3) (by omega)
          · rename_i heq3
            exact step_quoted_bytes s { s with chars := rest, cursor := s.cursor + 1 } hinv hbuf rfl rfl rfl '\''
              (fun p => TokenKind.ByteStr p BytesKind.RawBytes)
              (fun p sp => ⟨rfl, trivial⟩) (rest.drop 2) (s.cursor + 1 + 2)
              (adv_after_three s heq heq2 heq3) (by omega)
          · refine step_with_state s { s with chars := rest, cursor := s.cursor + 1 } hinv hbuf rfl rfl rfl (rest.drop 1)
              (s.cursor + 1 + 1) (adv_after_two s heq heq2) (by omega) _
              (tokenize_identifier_or_keyword_spec "rb" s.cursor (rest.drop 1)
                (s.cursor + 1 + 1)) ?_
            intro t ch cu hok
            injection hok with hok2
            exact tokenize_identifier_or_keyword_kinds _ _ _ _ hok2
        · rename_i heq2
          split
          · rename_i heq3
            exact step_quoted_bytes s { s with chars := rest, cursor := s.cursor + 1 } hinv hbuf rfl rfl rfl '"'
              (fun p => TokenKind.Str p StringKind.RawFormat)
              (fun p sp => ⟨rfl, trivial⟩) (rest.drop 2) (s.cursor + 1 + 2)
              (adv_after_three s heq heq2 heq3) (by omega)
          · rename_i heq3
            exact step_quoted_bytes s { s with chars := rest, cursor := s.cursor + 1 } hinv hbuf rfl rfl rfl '\''
              (fun p => TokenKind.Str p StringKind.RawFormat)
              (fun p sp => ⟨rfl, trivial⟩) (rest.drop 2) (s.cursor + 1 + 2)
              (adv_after_three s heq heq2 heq3) (by omega)
          · refine step_with_state s { s with chars := rest, cursor := s.cursor + 1 } hinv hbuf rfl rfl rfl (rest.drop 1)
              (s.cursor + 1 + 1) (adv_after_two s heq heq2) (by omega) _
              (tokenize_identifier_or_keyword_spec "rf" s.cursor (rest.drop 1)
                (s.cursor + 1 + 1)) ?_
            intro t ch cu hok
            injection hok with hok2
            exact tokenize_identifier_or_keyword_kinds _ _ _ _ hok2
        · refine step_with_state s { s with chars := rest, cursor := s.cursor + 1 } hinv hbuf rfl rfl rfl rest (s.cursor + 1)
            (adv_after_one s heq) (by omega) _
            (tokenize_identifier_or_keyword_spec "r" s.cursor rest (s.cursor + 1)) ?_
          intro t ch cu hok
          injection hok with hok2
          exact tokenize_identifier_or_keyword_kinds _ _ _ _ hok2
      rw [if_neg hr2]
      by_cases hw : ('a' ≤ c ∧ c ≤ 'z') ∨ ('A' ≤ c ∧ c ≤ 'Z') ∨ c = '_'
      · rw [if_pos hw]
        refine step_with_state s { s with chars := rest, cursor := s.cursor + 1 } hinv hbuf rfl rfl rfl rest (s.cursor + 1)
          (adv_after_one s heq) (by omega) _
          (tokenize_identifier_or_keyword_spec (String.singleton c) s.cursor rest
            (s.cursor + 1)) ?_
        intro t ch cu hok
        injection hok with hok2
        exact tokenize_identifier_or_keyword_kinds _ _ _ _ hok2
      rw [if_neg hw]
      by_cases hsl : c = '/'
      · rw [if_pos hsl]
        by_cases hh1 : rest.head? = some '/'
        · rw [if_pos hh1]
          by_cases hh2 : (rest.drop 1).head? = some '='
          · rw [if_pos hh2]
            exact step_simple s hinv hbuf 3 (by omega)
              (by rw [heq]; exact three_le_len hh2) (.Delim .IntDivAssign) rfl trivial _ rfl
          · rw [if_neg hh2]
            exact step_simple s hinv hbuf 2 (by omega)
              (by rw [heq]; exact two_le_len (ne_nil_of_head hh1)) (.Op .IntDiv)
              rfl trivial _ rfl
        · rw [if_neg hh1]
          by_cases hh2 : rest.head? = some '='
          · rw [if_pos hh2]
            exact step_simple s hinv hbuf 2 (by omega)
              (by rw [heq]; exact two_le_len (ne_nil_of_head hh2)) (.Delim .DivAssign)
              rfl trivial _ rfl
          · rw [if_neg hh2]
            exact step_simple s hinv hbuf 1 (Nat.le_refl 1)
              (by rw [heq]; exact one_le_len) (.Op .Div) rfl trivial _ (st1_eq s heq)
      rw [if_neg hsl]
      by_cases hgt : c = '>'
      · rw [if_pos hgt]
        by_cases hh1 : rest.head? = some '>'
        · rw [if_pos hh1]
          by_cases hh2 : (rest.drop 1).head? = some '='
          · rw [if_pos hh2]
            exact step_simple s hinv hbuf 3 (by omega)
              (by rw [heq]; exact three_le_len hh2) (.Delim .ShiftRAssign) rfl trivial _ rfl
          · rw [if_neg hh2]
            exact step_simple s hinv hbuf 2 (by omega)
              (by rw [heq]; exact two_le_len (ne_nil_of_head hh1)) (.Op .ShiftR)
              rfl trivial _ rfl
        · rw [if_neg hh1]
          by_cases hh2 : rest.head? = some '='
          · rw [if_pos hh2]
            exact step_simple s hinv hbuf 2 (by omega)
              (by rw [heq]; exact two_le_len (ne_nil_of_head hh2)) (.Op .GreaterEq)
              rfl trivial _ rfl
          · rw [if_neg hh2]
            exact step_simple s hinv hbuf 1 (Nat.le_refl 1)
              (by rw [heq]; exact one_le_len) (.Op .Greater) rfl trivial _ (st1_eq s heq)
      rw [if_neg hgt]
      by_cases hlt2 : c = '<'
      · rw [if_pos hlt2]
        by_cases hh1 : rest.head? = some '<'
        · rw [if_pos hh1]
          by_cases hh2 : (rest.drop 1).head? = some '='
          · rw [if_pos hh2]
            exact step_simple s hinv hbuf 3 (by omega)
              (by rw [heq]; exact three_le_len hh2) (.Delim .ShiftLAssign) rfl trivial _ rfl
          · rw [if_neg hh2]
            exact step_simple s hinv hbuf 2 (by omega)
              (by rw [heq]; exact two_le_len (ne_nil_of_head hh1)) (.Op .ShiftL)
              rfl trivial _ rfl
        · rw [if_neg hh1]
          by_cases hh2 : rest.head? = some '='
          · rw [if_pos hh2]
            exact step_simple s hinv hbuf 2 (by omega)
              (by rw [heq]; exact two_le_len (ne_nil_of_head hh2)) (.Op .LessEq)
              rfl trivial _ rfl
          · rw [if_neg hh2]
            exact step_simple s hinv hbuf 1 (Nat.le_refl 1)
              (by rw [heq]; exact one_le_len) (.Op .Less) rfl trivial _ (st1_eq s heq)
      rw [if_neg hlt2]
      by_cases heqc : c = '='
      · rw [if_pos heqc]
        by_cases hh1 : rest.head? = some '='
        · rw [if_pos hh1]
          exact step_simple s hinv hbuf 2 (by omega)
            (by rw [heq]; exact two_le_len (ne_nil_of_head hh1)) (.Op .Eq)
            rfl trivial _ rfl
        · rw [if_neg hh1]
          exact step_simple s hinv hbuf 1 (Nat.le_refl 1)
            (by rw [heq]; exact one_le_len) (.Delim .Assign) rfl trivial _ (st1_eq s heq)
      rw [if_neg heqc]
      by_cases hex : c = '!'
      · rw [if_pos hex]
        by_cases hh1 : rest.head? = some '='
        · rw [if_pos hh1]
          exact step_simple s hinv hbuf 2 (by omega)
            (by rw [heq]; exact two_le_len (ne_nil_of_head hh1)) (.Op .NotEq)
            rfl trivial _ rfl
        · rw [if_neg hh1]
          exact step_error s _ (s.cursor + 1) (by omega)
            (by rw [heq]; simp only [List.length_cons]; omega)
      rw [if_neg hex]
      by_cases hpipe : c = '|'
      · rw [if_pos hpipe]
        by_cases hh1 : rest.head? = some '='
        · rw [if_pos hh1]
          exact step_simple s hinv hbuf 2 (by omega)
            (by rw [heq]; exact two_le_len (ne_nil_of_head hh1)) (.Delim .BitOrAssign)
            rfl trivial _ rfl
        · rw [if_neg hh1]
          exact step_simple s hinv hbuf 1 (Nat.le_refl 1)
            (by rw [heq]; exact one_le_len) (.Op .BitOr) rfl trivial _ (st1_eq s heq)
      rw [if_neg hpipe]
      by_cases hmin : c = '-'
      · rw [if_pos hmin]
        by_cases hh1 : rest.head? = some '='
        · rw [if_pos hh1]
          exact step_simple s hinv hbuf 2 (by omega)
            (by rw [heq]; exact two_le_len (ne_nil_of_head hh1)) (.Delim .MinusAssign)
            rfl trivial _ rfl
        · rw [if_neg hh1]
          by_cases hh2 : rest.head? = some '>'
          · rw [if_pos hh2]
            exact step_simple s hinv hbuf 2 (by omega)
              (by rw [heq]; exact two_le_len (ne_nil_of_head hh2)) (.Delim .Arrow)
              rfl trivial _ rfl
          · rw [if_neg hh2]
            exact step_simple s hinv hbuf 1 (Nat.le_refl 1)
              (by rw [heq]; exact one_le_len) (.Op .Minus) rfl trivial _ (st1_eq s heq)
      rw [if_neg hmin]
      by_cases hplus : c = '+'
      · rw [if_pos hplus]
        by_cases hh1 : rest.head? = some '='
        · rw [if_pos hh1]
          exact step_simple s hinv hbuf 2 (by omega)
            (by rw [heq]; exact two_le_len (ne_nil_of_head hh1)) (.Delim .PlusAssign)
            rfl trivial _ rfl
        · rw [if_neg hh1]
          exact step_simple s hinv hbuf 1 (Nat.le_refl 1)
            (by rw [heq]; exact one_le_len) (.Op .Plus) rfl trivial _ (st1_eq s heq)
      rw [if_neg hplus]
      by_cases hmul : c = '*'
      · rw [if_pos hmul]
        by_cases hh1 : rest.head? = some '='
        · rw [if_pos hh1]
          exact step_simple s hinv hbuf 2 (by omega)
            (by rw [heq]; exact two_le_len (ne_nil_of_head hh1)) (.Delim .MulAssign)
            rfl trivial _ rfl
        · rw [if_neg hh1]
          by_cases hh2 : rest.head? = some '*'
          · rw [if_pos hh2]
            exact step_simple s hinv hbuf 2 (by omega)
              (by rw [heq]; exact two_le_len (ne_nil_of_head hh2)) (.Op .Pow)
              rfl trivial _ rfl
          · rw [if_neg hh2]
            exact step_simple s hinv hbuf 1 (Nat.le_refl 1)
              (by rw [heq]; exact one_le_len) (.Op .Mul) rfl trivial _ (st1_eq s heq)
      rw [if_neg hmul]
      by_cases hxor : c = '^'
      · rw [if_pos hxor]
        by_cases hh1 : rest.head? = some '='
        · rw [if_pos hh1]
          exact step_simple s hinv hbuf 2 (by omega)
            (by rw [heq]; exact two_le_len (ne_nil_of_head hh1)) (.Delim .BitXorAssign)
            rfl trivial _ rfl
        · rw [if_neg hh1]
          exact step_simple s hinv hbuf 1 (Nat.le_refl 1)
            (by rw [heq]; exact one_le_len) (.Op .BitXor) rfl trivial _ (st1_eq s heq)
      rw [if_neg hxor]
      by_cases hamp : c = '&'
      · rw [if_pos hamp]
        by_cases hh1 : rest.head? = some '='
        · rw [if_pos hh1]
          exact step_simple s hinv hbuf 2 (by omega)
            (by rw [heq]; exact two_le_len (ne_nil_of_head hh1)) (.Delim .BitAndAssign)
            rfl trivial _ rfl
        · rw [if_neg hh1]
          exact step_simple s hinv hbuf 1 (Nat.le_refl 1)
            (by rw [heq]; exact one_le_len) (.Op .BitAnd) rfl trivial _ (st1_eq s heq)
      rw [if_neg hamp]
      by_cases hmod : c = '%'
      · rw [if_pos hmod]
        by_cases hh1 : rest.head? = some '='
        · rw [if_pos hh1]
          exact step_simple s hinv hbuf 2 (by omega)
            (by rw [heq]; exact two_le_len (ne_nil_of_head hh1)) (.Delim .ModAssign)
            rfl trivial _ rfl
        · rw [if_neg hh1]
          exact step_simple s hinv hbuf 1 (Nat.le_refl 1)
            (by rw [heq]; exact one_le_len) (.Op .Mod) rfl trivial _ (st1_eq s heq)
      rw [if_neg hmod]
      by_cases hat : c = '@'
      · rw [if_pos hat]
        by_cases hh1 : rest.head? = some '='
        · rw [if_pos hh1]
          exact step_simple s hinv hbuf 2 (by omega)
            (by rw [heq]; exact two_le_len (ne_nil_of_head hh1)) (.Delim .AtAssign)
            rfl trivial _ rfl
        · rw [if_neg hh1]
          exact step_simple s hinv hbuf 1 (Nat.le_refl 1)
            (by rw [heq]; exact one_le_len) (.Delim .At) rfl trivial _ (st1_eq s heq)
      rw [if_neg hat]
      by_cases hnot : c = '~'
      · rw [if_pos hnot]
        exact step_simple s hinv hbuf 1 (Nat.le_refl 1)
          (by rw [heq]; exact one_le_len) (.Op .BitNot) rfl trivial _ (st1_eq s heq)
      rw [if_neg hnot]
      by_cases hsq : c = '²'
      · rw [if_pos hsq]
        exact step_simple s hinv hbuf 1 (Nat.le_refl 1)
          (by rw [heq]; exact one_le_len) (.Op .Square) rfl trivial _ (st1_eq s heq)
      rw [if_neg hsq]
      by_cases hrt : c = '√'
      · rw [if_pos hrt]
        exact step_simple s hinv hbuf 1 (Nat.le_refl 1)
          (by rw [heq]; exact one_le_len) (.Op .Sqrt) rfl trivial _ (st1_eq s heq)
      rw [if_neg hrt]
      by_cases hlb : c = '{'
      · rw [if_pos hlb]
        exact step_simple s hinv hbuf 1 (Nat.le_refl 1)
          (by rw [heq]; exact one_le_len) (.Delim .LBrace) rfl trivial _ (st1_eq s heq)
      rw [if_neg hlb]
      by_cases hrb : c = '}'
      · rw [if_pos hrb]
        exact step_simple s hinv hbuf 1 (Nat.le_refl 1)
          (by rw [heq]; exact one_le_len) (.Delim .RBrace) rfl trivial _ (st1_eq s heq)
      rw [if_neg hrb]
      by_cases hlp : c = '('
      · rw [if_pos hlp]
        exact step_simple s hinv hbuf 1 (Nat.le_refl 1)
          (by rw [heq]; exact one_le_len) (.Delim .LParen) rfl trivial _ (st1_eq s heq)
      rw [if_neg hlp]
      by_cases hrp : c = ')'
      · rw [if_pos hrp]
        exact step_simple s hinv hbuf 1 (Nat.le_refl 1)
          (by rw [heq]; exact one_le_len) (.Delim .RParen) rfl trivial _ (st1_eq s heq)
      rw [if_neg hrp]
      by_cases hlk : c = '['
      · rw [if_pos hlk]
        exact step_simple s hinv hbuf 1 (Nat.le_refl 1)
          (by rw [heq]; exact one_le_len) (.Delim .LBracket) rfl trivial _ (st1_eq s heq)
      rw [if_neg hlk]
      by_cases hrk : c = ']'
      · rw [if_pos hrk]
        exact step_simple s hinv hbuf 1 (Nat.le_refl 1)
          (by rw [heq]; exact one_le_len) (.Delim .RBracket) rfl trivial _ (st1_eq s heq)
      rw [if_neg hrk]
      by_cases hcma : c = ','
      · rw [if_pos hcma]
        exact step_simple s hinv hbuf 1 (Nat.le_refl 1)
          (by rw [heq]; exact one_le_len) (.Delim .Comma) rfl trivial _ (st1_eq s heq)
      rw [if_neg hcma]
      by_cases hcol : c = ':'
      · rw [if_pos hcol]
        exact step_simple s hinv hbuf 1 (Nat.le_refl 1)
          (by rw [heq]; exact one_le_len) (.Delim .Colon) rfl trivial _ (st1_eq s heq)
      rw [if_neg hcol]
      by_cases hsem : c = ';'
      · rw [if_pos hsem]
        exact step_simple s hinv hbuf 1 (Nat.le_refl 1)
          (by rw [heq]; exact one_le_len) (.Delim .SemiColon) rfl trivial _ (st1_eq s heq)
      rw [if_neg hsem]
      exact step_error s _ (s.cursor + 1) (by omega)
        (by rw [heq]; simp only [List.length_cons]; omega)

theorem next_token_spec (s : Lexer) (hinv : StateInv s) :
    OptStepSpec s (next_token s) := by
  obtain ⟨hl0, hs0, hz0, h4, h5⟩ := hinv
  unfold next_token
  split
  · rename_i t rest hbufeq
    have hmt : t ∈ s.token_buffer := by
      rw [hbufeq]
      exact List.mem_cons_self t rest
    have ht := h4 t hmt
    have htd : token_delta t.kind = -1 := by
      rw [ht.1]
      rfl
    refine ⟨⟨Nat.le_refl _, rfl, ht.2.1, ht.2.2, ?_, ?_, ?_, ?_, ?_⟩,
      hl0, hs0, hz0, ?_, ?_⟩
    · intro u hu
      have hu' : u ∈ s.token_buffer := by
        rw [hbufeq]
        exact List.mem_cons_of_mem t hu
      exact h5 u hu' t hmt
    · intro h0
      rw [hbufeq] at h0
      exact absurd h0 (by simp)
    · show s.indent_level + (rest.length : Int) =
        s.indent_level + (s.token_buffer.length : Int) + token_delta t.kind
      rw [htd, hbufeq]
      simp only [List.length_cons]
      push_cast
      omega
    · rw [payload_canonical, ht.1]
      trivial
    · show 2 * s.chars.length + rest.length + s.indent_level.toNat
        < 2 * s.chars.length + s.token_buffer.length + s.indent_level.toNat
      rw [hbufeq]
      simp only [List.length_cons]
      omega
    · intro u hu
      have hu' : u ∈ s.token_buffer := by
        rw [hbufeq]
        exact List.mem_cons_of_mem t hu
      exact h4 u hu'
    · intro u hu v hv
      have hu' : u ∈ s.token_buffer := by
        rw [hbufeq]
        exact List.mem_cons_of_mem t hu
      have hv' : v ∈ s.token_buffer := by
        rw [hbufeq]
        exact List.mem_cons_of_mem t hv
      exact h5 u hu' v hv'
  · rename_i hbufeq
    exact next_token_loop_spec (s.chars.length + 1) s ⟨hl0, hs0, hz0, h4, h5⟩
      hbufeq (by omega)

/-! Stream-level facts: the iterator of `tokenize` pulled to exhaustion. -/

theorem bal_counts : ∀ (l : List (Except LexerError Token)),
    bal l = (indent_count l : Int) - (dedent_count l : Int) := by
  intro l
  induction l with
  | nil => rfl
  | cons item rest ih =>
    cases item with
    | error e =>
      show (0 : Int) + bal rest = _
      rw [ih]
      show _ = (indent_count rest : Int) - (dedent_count rest : Int)
      omega
    | ok t =>
      show token_delta t.kind + bal rest = _
      rw [ih]
      show _ = ((((if t.kind = TokenKind.Indent then 1 else 0) + indent_count rest : Nat)) : Int)
        - (((if t.kind = TokenKind.Dedent then 1 else 0) + dedent_count rest : Nat) : Int)
      cases hk : t.kind <;>
        simp only [token_delta] <;>
        push_cast <;>
        simp <;>
        omega

theorem init_inv (code : String) : StateInv (init_lexer code) := by
  refine ⟨le_refl 0, le_refl 0, fun _ => rfl, ?_, ?_⟩
  · intro u hu
    exact absurd hu (List.not_mem_nil u)
  · intro u hu
    exact absurd hu (List.not_mem_nil u)

theorem stream_ok_then_err : ∀ (fuel : Nat) (s : Lexer),
    OkThenErr (stream fuel s) := by
  intro fuel
  induction fuel with
  | zero =>
    intro s
    exact trivial
  | succ fuel ih =>
    intro s
    unfold stream
    cases hres : next_token s with
    | none => exact trivial
    | some r =>
      cases r with
      | error e => exact rfl
      | ok p =>
        obtain ⟨t, s'⟩ := p
        exact ih s'

theorem stream_congr : ∀ (fuel fuel2 : Nat) (s : Lexer), StateInv s →
    2 * s.chars.length + s.token_buffer.length + s.indent_level.toNat < fuel →
    2 * s.chars.length + s.token_buffer.length + s.indent_level.toNat < fuel2 →
    stream fuel s = stream fuel2 s := by
  intro fuel
  induction fuel with
  | zero =>
    intro fuel2 s _ h1 _
    exact absurd h1 (by omega)
  | succ fuel ih =>
    intro fuel2 s hinv h1 h2
    cases fuel2 with
    | zero => exact absurd h2 (by omega)
    | succ fuel2 =>
      have hstep := next_token_spec s hinv
      unfold stream
      cases hres : next_token s with
      | none => rfl
      | some r =>
        cases r with
        | error e => rfl
        | ok p =>
          obtain ⟨t, s'⟩ := p
          rw [hres] at hstep
          have hps : NextOk s t s' ∧ StateInv s' := hstep
          obtain ⟨hok, hinv'⟩ := hps
          obtain ⟨h1o, h2o, h3o, h4o, h5o, h6o, h7o, h8o, h9o⟩ := hok
          show Except.ok t :: stream fuel s' = Except.ok t :: stream fuel2 s'
          rw [ih fuel2 s' hinv' (by omega) (by omega)]

theorem stream_spans : ∀ (fuel : Nat) (s : Lexer), StateInv s →
    ∀ item ∈ stream fuel s, item_span_ok (s.cursor + s.chars.length) item := by
  intro fuel
  induction fuel with
  | zero =>
    intro s _ item hitem
    exact absurd hitem (List.not_mem_nil item)
  | succ fuel ih =>
    intro s hinv item hitem
    rw [show stream (fuel + 1) s = match next_token s with
      | none => []
      | some (.error e) => [.error e]
      | some (.ok (t, st')) => .ok t :: stream fuel st' from rfl] at hitem
    have hstep := next_token_spec s hinv
    cases hres : next_token s with
    | none =>
      rw [hres] at hitem
      exact absurd hitem (List.not_mem_nil item)
    | some r =>
      cases r with
      | error e =>
        rw [hres] at hitem hstep
        have he : NextErr s e := hstep
        rw [List.mem_singleton] at hitem
        subst hitem
        exact ⟨he.1, he.2⟩
      | ok p =>
        obtain ⟨t, s'⟩ := p
        rw [hres] at hitem hstep
        have hps : NextOk s t s' ∧ StateInv s' := hstep
        obtain ⟨hok, hinv'⟩ := hps
        obtain ⟨h1o, h2o, h3o, h4o, h5o, h6o, h7o, h8o, h9o⟩ := hok
        rcases List.mem_cons.mp hitem with heqi | htail
        · subst heqi
          exact ⟨h3o, by omega⟩
        · have := ih s' hinv' item htail
          rw [show s'.cursor + s'.chars.length = s.cursor + s.chars.length from h2o] at this
          exact this

theorem stream_canonical : ∀ (fuel : Nat) (s : Lexer), StateInv s →
    ∀ item ∈ stream fuel s, item_canonical item := by
  intro fuel
  induction fuel with
  | zero =>
    intro s _ item hitem
    exact absurd hitem (List.not_mem_nil item)
  | succ fuel ih =>
    intro s hinv item hitem
    rw [show stream (fuel + 1) s = match next_token s with
      | none => []
      | some (.error e) => [.error e]
      | some (.ok (t, st')) => .ok t :: stream fuel st' from rfl] at hitem
    have hstep := next_token_spec s hinv
    cases hres : next_token s with
    | none =>
      rw [hres] at hitem
      exact absurd hitem (List.not_mem_nil item)
    | some r =>
      cases r with
      | error e =>
        rw [hres] at hitem
        rw [List.mem_singleton] at hitem
        subst hitem
        exact trivial
      | ok p =>
        obtain ⟨t, s'⟩ := p
        rw [hres] at hitem hstep
        have hps : NextOk s t s' ∧ StateInv s' := hstep
        obtain ⟨hok, hinv'⟩ := hps
        rcases List.mem_cons.mp hitem with heqi | htail
        · subst heqi
          exact hok.2.2.2.2.2.2.2.1
        · exact ih s' hinv' item htail

theorem stream_balance : ∀ (fuel : Nat) (s : Lexer), StateInv s → ∀ (n : Nat),
    0 ≤ s.indent_level + (s.token_buffer.length : Int)
      + bal (List.take n (stream fuel s)) := by
  intro fuel
  induction fuel with
  | zero =>
    intro s hinv n
    obtain ⟨hl0, _, _, _, _⟩ := hinv
    have hb0 : bal (List.take n (stream 0 s)) = 0 := by
      rw [show stream 0 s = [] from rfl, List.take_nil]
      rfl
    rw [hb0]
    omega
  | succ fuel ih =>
    intro s hinv n
    have hl0 : 0 ≤ s.indent_level := hinv.1
    have hstep := next_token_spec s hinv
    rw [show stream (fuel + 1) s = match next_token s with
      | none => []
      | some (.error e) => [.error e]
      | some (.ok (t, st')) => .ok t :: stream fuel st' from rfl]
    cases hres : next_token s with
    | none =>
      have hb0 : bal (List.take n ([] : List (Except LexerError Token))) = 0 := by
        rw [List.take_nil]
        rfl
      rw [hb0]
      omega
    | some r =>
      cases r with
      | error e =>
        have hb0 : bal (List.take n [(.error e : Except LexerError Token)]) = 0 := by
          cases n with
          | zero => rfl
          | succ n =>
            rw [List.take_succ_cons, List.take_nil]
            rfl
        rw [hb0]
        omega
      | ok p =>
        obtain ⟨t, s'⟩ := p
        rw [hres] at hstep
        have hps : NextOk s t s' ∧ StateInv s' := hstep
        obtain ⟨hok, hinvs'⟩ := hps
        obtain ⟨h1o, h2o, h3o, h4o, h5o, h6o, h7o, h8o, h9o⟩ := hok
        cases n with
        | zero =>
          have hb0 : bal (List.take 0 (Except.ok t :: stream fuel s')) = 0 := rfl
          rw [hb0]
          omega
        | succ n =>
          rw [List.take_succ_cons]
          have hb := ih s' hinvs' n
          have hbal : bal (Except.ok t :: List.take n (stream fuel s'))
              = token_delta t.kind + bal (List.take n (stream fuel s')) := rfl
          rw [hbal]
          omega

theorem stream_chain : ∀ (fuel : Nat) (s : Lexer) (t : Token), StateInv s →
    PrevOk t s → List.Chain span_rel t (ok_tokens (stream fuel s)) := by
  intro fuel
  induction fuel with
  | zero =>
    intro s t _ _
    exact List.Chain.nil
  | succ fuel ih =>
    intro s t hinv hprev
    unfold stream
    cases hbufc : s.token_buffer with
    | cons v vs =>
      have hres : next_token s = some (.ok (v, { s with token_buffer := vs })) := by
        unfold next_token
        rw [hbufc]
      have hstep := next_token_spec s hinv
      rw [hres] at hstep
      have hps : NextOk s v { s with token_buffer := vs } ∧
          StateInv { s with token_buffer := vs } := hstep
      obtain ⟨hok, hinv'⟩ := hps
      obtain ⟨h1o, h2o, h3o, h4o, h5o, h6o, h7o, h8o, h9o⟩ := hok
      rw [hres]
      have hvt : v = t := hprev.2 v (by rw [hbufc]; exact List.mem_cons_self v vs)
      obtain ⟨_, _, _, hb4, _⟩ := hinv
      have hvk := hb4 v (by rw [hbufc]; exact List.mem_cons_self v vs)
      subst hvt
      refine List.Chain.cons ?_ (ih _ v hinv' ⟨fun _ => h4o, h5o⟩)
      exact Or.inr ⟨hvk.1, hvk.1, rfl⟩
    | nil =>
      have hstep := next_token_spec s hinv
      cases hres : next_token s with
      | none => exact List.Chain.nil
      | some r =>
        cases r with
        | error e => exact List.Chain.nil
        | ok p =>
          obtain ⟨u, s'⟩ := p
          rw [hres] at hstep
          have hps : NextOk s u s' ∧ StateInv s' := hstep
          obtain ⟨hok, hinv'⟩ := hps
          obtain ⟨h1o, h2o, h3o, h4o, h5o, h6o, h7o, h8o, h9o⟩ := hok
          refine List.Chain.cons ?_ (ih s' u hinv' ⟨fun _ => h4o, h5o⟩)
          exact Or.inl ⟨le_trans (hprev.1 hbufc) (h6o hbufc), le_of_lt h3o⟩

theorem stream_chain_start : ∀ (fuel : Nat) (s : Lexer), StateInv s →
    List.Chain' span_rel (ok_tokens (stream fuel s)) := by
  intro fuel
  cases fuel with
  | zero =>
    intro s _
    exact trivial
  | succ fuel =>
    intro s hinv
    unfold stream
    have hstep := next_token_spec s hinv
    cases hres : next_token s with
    | none => exact trivial
    | some r =>
      cases r with
      | error e => exact trivial
      | ok p =>
        obtain ⟨t, s'⟩ := p
        rw [hres] at hstep
        have hps : NextOk s t s' ∧ StateInv s' := hstep
        obtain ⟨hok, hinv'⟩ := hps
        exact stream_chain fuel s' t hinv' ⟨fun _ => hok.2.2.2.1, hok.2.2.2.2.1⟩

theorem lex_string_loop_err_kind (quote : Char) (start : Nat) (long : Bool) :
    ∀ (chars : List Char) (acc : String) (cursor : Nat) (e : LexerError),
    lex_string_loop quote start long acc chars cursor = .error e →
    e.kind = LexerErrorKind.UnterminatedString := by
  intro chars
  induction chars with
  | nil =>
    intro acc cursor e h
    unfold lex_string_loop at h
    cases h
    rfl
  | cons pc rest ih =>
    intro acc cursor e h
    unfold lex_string_loop at h
    by_cases h1 : pc = quote
    · rw [if_pos h1] at h
      by_cases h2 : long = true ∧ rest.take 2 ≠ [quote, quote]
      · rw [if_pos h2] at h
        split at h
        · rename_i q rest2
          split at h
          · cases h
            rfl
          · cases h
            rfl
        · cases h
          rfl
      · rw [if_neg h2] at h
        cases h
    · rw [if_neg h1] at h
      by_cases h3 : ¬long = true ∧ (pc = '\n' ∨ pc = '\r')
      · rw [if_pos h3] at h
        cases h
        rfl
      · rw [if_neg h3] at h
        exact ih (acc.push pc) (cursor + 1) e h

theorem lex_bytes_loop_ascii_err_kind (quote : Char) (start : Nat) (long : Bool) :
    ∀ (chars : List Char) (acc : String) (cursor : Nat) (e : LexerError),
    (∀ ch ∈ chars, is_ascii_char ch = true) →
    lex_bytes_loop quote start long acc chars cursor = .error e →
    e.kind = LexerErrorKind.UnterminatedString := by
  intro chars
  induction chars with
  | nil =>
    intro acc cursor e _ h
    unfold lex_bytes_loop at h
    cases h
    rfl
  | cons pc rest ih =>
    intro acc cursor e hascii h
    unfold lex_bytes_loop at h
    by_cases h1 : pc = quote
    · rw [if_pos h1] at h
      by_cases h2 : long = true ∧ rest.take 2 ≠ [quote, quote]
      · rw [if_pos h2] at h
        split at h
        · rename_i q rest2
          split at h
          · cases h
            rfl
          · cases h
            rfl
        · cases h
          rfl
      · rw [if_neg h2] at h
        cases h
    · rw [if_neg h1] at h
      by_cases h3 : ¬long = true ∧ (pc = '\n' ∨ pc = '\r')
      · rw [if_pos h3] at h
        cases h
        rfl
      · rw [if_neg h3] at h
        rw [if_pos (hascii pc (List.mem_cons_self pc rest))] at h
        exact ih (acc.push pc) (cursor + 1) e
          (fun ch hm => hascii ch (List.mem_cons_of_mem pc hm)) h

/-! The Greater branch of the indentation engine: step adoption, locking,
and the multiple-of-step consequence. -/

theorem indent_step_spec (c : Char) (start : Nat) (st : Lexer)
    (chars0 : List Char) (cursor0 : Nat)
    (prev_space : Option Char) (space_count : Int) (mixed_spaces : Bool)
    (chars1 : List Char) (cursor1 : Nat)
    (hcrlf : crlf_skip c st.chars st.cursor = (chars0, cursor0))
    (hcount : count_spaces chars0 cursor0 none 0 false
      = (prev_space, space_count, mixed_spaces, chars1, cursor1))
    (hmain : space_count > 0 ∧ ¬(chars1.head? = some '\r' ∨ chars1.head? = some '\n'
      ∨ chars1.head? = some '#'))
    (hmix : mixed_spaces = false)
    (hkind : ¬(st.indent_kind ≠ IndentKind.Unknown ∧
      indent_kind_of_char (prev_space.getD ' ') ≠ st.indent_kind))
    (hgt : space_count - st.indent_level * st.indent_size > 0)
    (hsz0 : st.indent_size = 0 → st.indent_level = 0) :
    (st.indent_size = 0 →
      ∃ s', tokenize_newline_or_indentation c start st
          = .ok (⟨.Indent, ⟨start, cursor1⟩⟩, s') ∧
        s'.indent_size = space_count ∧
        s'.indent_kind = indent_kind_of_char (prev_space.getD ' ') ∧
        s'.indent_level = 1 ∧
        space_count = s'.indent_level * s'.indent_size) ∧
    (st.indent_size ≠ 0 → st.indent_size ≠ space_count - st.indent_level * st.indent_size →
      tokenize_newline_or_indentation c start st
        = .error ⟨.MixedIndentSizes, ⟨start, cursor1⟩⟩) ∧
    (st.indent_size ≠ 0 → st.indent_size = space_count - st.indent_level * st.indent_size →
      ∃ s', tokenize_newline_or_indentation c start st
          = .ok (⟨.Indent, ⟨start, cursor1⟩⟩, s') ∧
        s'.indent_size = st.indent_size ∧
        s'.indent_level = st.indent_level + 1 ∧
        space_count = s'.indent_level * s'.indent_size) := by
  have hstep : tokenize_newline_or_indentation c start st =
      (if st.indent_size = 0 then
        .ok (⟨.Indent, ⟨start, cursor1⟩⟩,
          { st with
            chars := chars1
            cursor := cursor1
            indent_size := space_count - st.indent_level * st.indent_size
            indent_kind := indent_kind_of_char (prev_space.getD ' ')
            indent_level := space_count /
              (space_count - st.indent_level * st.indent_size) })
      else if st.indent_size ≠ space_count - st.indent_level * st.indent_size then
        .error ⟨.MixedIndentSizes, ⟨start, cursor1⟩⟩
      else
        .ok (⟨.Indent, ⟨start, cursor1⟩⟩,
          { st with
            chars := chars1
            cursor := cursor1
            indent_level := space_count / st.indent_size })) := by
    unfold tokenize_newline_or_indentation
    rw [hcrlf]
    simp only []
    rw [hcount]
    simp only []
    rw [if_pos hmain, if_neg (by rw [hmix]; exact Bool.false_ne_true),
      if_neg hkind, if_pos hgt]
  refine ⟨?_, ?_, ?_⟩
  · intro hz
    rw [hstep, if_pos hz]
    have hdz : space_count - st.indent_level * st.indent_size = space_count := by
      rw [hz, hsz0 hz]
      ring
    refine ⟨_, rfl, ?_, rfl, ?_, ?_⟩
    · show space_count - st.indent_level * st.indent_size = space_count
      exact hdz
    · show space_count / (space_count - st.indent_level * st.indent_size) = 1
      rw [hdz]
      exact Int.ediv_self (ne_of_gt hmain.1)
    · show space_count
        = space_count / (space_count - st.indent_level * st.indent_size)
          * (space_count - st.indent_level * st.indent_size)
      rw [hdz, Int.ediv_self (ne_of_gt hmain.1), one_mul]
  · intro hnz hne
    rw [hstep, if_neg hnz, if_pos hne]
  · intro hnz heq
    rw [hstep, if_neg hnz, if_neg (not_not_intro heq)]
    have hsp : space_count = (st.indent_level + 1) * st.indent_size := by
      rw [add_mul, one_mul]
      omega
    refine ⟨_, rfl, rfl, ?_, ?_⟩
    · show space_count / st.indent_size = st.indent_level + 1
      rw [hsp, Int.mul_ediv_cancel _ hnz]
    · show space_count = space_count / st.indent_size * st.indent_size
      rw [hsp, Int.mul_ediv_cancel _ hnz]

theorem dedent_step_spec (c : Char) (start : Nat) (st : Lexer)
    (chars0 : List Char) (cursor0 : Nat)
    (prev_space : Option Char) (space_count : Int) (mixed_spaces : Bool)
    (chars1 : List Char) (cursor1 : Nat)
    (hcrlf : crlf_skip c st.chars st.cursor = (chars0, cursor0))
    (hcount : count_spaces chars0 cursor0 none 0 false
      = (prev_space, space_count, mixed_spaces, chars1, cursor1))
    (hmain : space_count > 0 ∧ ¬(chars1.head? = some '\r' ∨ chars1.head? = some '\n'
      ∨ chars1.head? = some '#'))
    (hmix : mixed_spaces = false)
    (hkind : ¬(st.indent_kind ≠ IndentKind.Unknown ∧
      indent_kind_of_char (prev_space.getD ' ') ≠ st.indent_kind))
    (hlt : space_count - st.indent_level * st.indent_size < 0) :
    ((space_count - st.indent_level * st.indent_size) % st.indent_size ≠ 0 →
      tokenize_newline_or_indentation c start st
        = .error ⟨.InconsistentDedent, ⟨start, cursor1⟩⟩) ∧
    ((space_count - st.indent_level * st.indent_size) % st.indent_size = 0 →
      ∃ s', tokenize_newline_or_indentation c start st
          = .ok (⟨.Dedent, ⟨start, cursor1⟩⟩, s') ∧
        s'.indent_size = st.indent_size ∧
        s'.indent_level = space_count / st.indent_size ∧
        space_count = s'.indent_level * s'.indent_size ∧
        st.indent_level * st.indent_size - space_count
          = (st.indent_level - s'.indent_level) * st.indent_size) := by
  have hstep : tokenize_newline_or_indentation c start st =
      (if (space_count - st.indent_level * st.indent_size) % st.indent_size ≠ 0 then
        .error ⟨.InconsistentDedent, ⟨start, cursor1⟩⟩
      else
        .ok (⟨.Dedent, ⟨start, cursor1⟩⟩,
          { st with
            chars := chars1
            cursor := cursor1
            token_buffer :=
              List.replicate
                (|space_count - st.indent_level * st.indent_size|
                  / st.indent_size - 1).toNat ⟨.Dedent, ⟨start, cursor1⟩⟩
                ++ st.token_buffer
            indent_level := space_count / st.indent_size })) := by
    unfold tokenize_newline_or_indentation
    rw [hcrlf]
    simp only []
    rw [hcount]
    simp only []
    rw [if_pos hmain, if_neg (by rw [hmix]; exact Bool.false_ne_true),
      if_neg hkind, if_neg (show ¬(space_count - st.indent_level * st.indent_size > 0)
        by omega), if_pos hlt]
  refine ⟨?_, ?_⟩
  · intro hne
    rw [hstep, if_pos hne]
  · intro hmod
    rw [hstep, if_neg (not_not_intro hmod)]
    have hdvd : st.indent_size ∣ space_count := by
      have h1 : st.indent_size ∣ (space_count - st.indent_level * st.indent_size) :=
        Int.dvd_of_emod_eq_zero hmod
      have h2 : st.indent_size ∣ st.indent_level * st.indent_size :=
        ⟨st.indent_level, by ring⟩
      have h3 := dvd_add h1 h2
      have h4 : space_count = (space_count - st.indent_level * st.indent_size)
          + st.indent_level * st.indent_size := by ring
      rw [h4]
      exact h3
    refine ⟨_, rfl, rfl, rfl, ?_, ?_⟩
    · show space_count = space_count / st.indent_size * st.indent_size
      exact (Int.ediv_mul_cancel hdvd).symm
    · show st.indent_level * st.indent_size - space_count
        = (st.indent_level - space_count / st.indent_size) * st.indent_size
      rw [sub_mul, Int.ediv_mul_cancel hdvd]

theorem eof_dedent_spec (c : Char) (start : Nat) (st : Lexer)
    (chars0 : List Char) (cursor0 : Nat)
    (prev_space : Option Char) (space_count : Int) (mixed_spaces : Bool)
    (chars1 : List Char) (cursor1 : Nat)
    (hcrlf : crlf_skip c st.chars st.cursor = (chars0, cursor0))
    (hcount : count_spaces chars0 cursor0 none 0 false
      = (prev_space, space_count, mixed_spaces, chars1, cursor1))
    (hnmain : ¬(space_count > 0 ∧ ¬(chars1.head? = some '\r'
      ∨ chars1.head? = some '\n' ∨ chars1.head? = some '#')))
    (hpeek : chars1.head? = none)
    (hlt : space_count - st.indent_level * st.indent_size < 0) :
    space_count = 0 ∧
    ∃ s', tokenize_newline_or_indentation c start st
        = .ok (⟨.Dedent, ⟨start, cursor1⟩⟩, s') ∧
      s'.indent_size = st.indent_size ∧
      s'.indent_level = 0 ∧
      space_count = s'.indent_level * s'.indent_size ∧
      st.indent_level * st.indent_size - space_count
        = (st.indent_level - s'.indent_level) * st.indent_size := by
  obtain ⟨_, hc, _⟩ := count_spaces_spec chars0 cursor0 none 0 false prev_space
    space_count mixed_spaces chars1 cursor1 hcount
  have hP : ¬(chars1.head? = some '\r' ∨ chars1.head? = some '\n'
      ∨ chars1.head? = some '#') := by
    intro hcon
    rw [hpeek] at hcon
    rcases hcon with h | h | h <;> simp at h
  have hsc0 : space_count = 0 := by
    have hngt : ¬(space_count > 0) := fun hgt => hnmain ⟨hgt, hP⟩
    omega
  have hstep : tokenize_newline_or_indentation c start st =
      .ok (⟨.Dedent, ⟨start, cursor1⟩⟩,
        { st with
          chars := chars1
          cursor := cursor1
          token_buffer :=
            List.replicate
              (|space_count - st.indent_level * st.indent_size|
                / st.indent_size - 1).toNat ⟨.Dedent, ⟨start, cursor1⟩⟩
              ++ st.token_buffer
          indent_level := space_count / st.indent_size }) := by
    unfold tokenize_newline_or_indentation
    rw [hcrlf]
    simp only []
    rw [hcount]
    simp only []
    rw [if_neg hnmain, if_pos hpeek, if_pos hlt]
  refine ⟨hsc0, _, hstep, rfl, ?_, ?_, ?_⟩
  · show space_count / st.indent_size = 0
    rw [hsc0, Int.zero_ediv]
  · show space_count = space_count / st.indent_size * st.indent_size
    rw [hsc0, Int.zero_ediv, zero_mul]
  · show st.indent_level * st.indent_size - space_count
      = (st.indent_level - space_count / st.indent_size) * st.indent_size
    rw [hsc0, Int.zero_ediv]
    ring

/-! The claims. -/

/-- C1: for every Unicode input, iterating the stream returned by `tokenize`
terminates and yields a finite list of `Ok` tokens optionally followed by
exactly one `Err`, after which nothing more is yielded: the item list has
the ok-then-error shape, and every fuel beyond the `2 * length + 1` bound
that `tokenize` uses reproduces exactly the same finite list, so the
iteration is genuinely finished. -/
theorem C1_tokenize_terminates_ok_then_err :
    ∀ (code : String), OkThenErr (tokenize code) ∧
      (∀ fuel : Nat, 2 * code.length + 1 ≤ fuel →
        stream fuel (init_lexer code) = tokenize code) := by
  intro code
  constructor
  · exact stream_ok_then_err _ _
  · intro fuel hf
    have hcd : code.data.length = code.length := rfl
    refine stream_congr fuel (2 * code.length + 1) (init_lexer code)
      (init_inv code) ?_ ?_
    · show 2 * code.data.length + ([] : List Token).length + (0 : Int).toNat < fuel
      simp only [List.length_nil, Int.toNat_zero]
      omega
    · show 2 * code.data.length + ([] : List Token).length + (0 : Int).toNat
        < 2 * code.length + 1
      simp only [List.length_nil, Int.toNat_zero]
      omega

/-- C2 (amended): the cited lexer tracks no bracket scopes at all: a bracket
character is an ordinary one-character delimiter token, and consuming it
leaves the indentation machinery — `indent_kind`, `indent_level`,
`indent_size` and the pending-token buffer — completely untouched.  (The
original suspension claim is refuted by `C2_counterexample`: an `Indent` is
emitted between a matched `(` and `)`.) -/
theorem C2_brackets_are_plain_delimiters :
    ∀ (fuel cursor : Nat) (rest : List Char) (ik : IndentKind) (lvl sz : Int)
      (buf : List Token),
      next_token_loop (fuel + 1) ⟨'(' :: rest, cursor, ik, lvl, sz, buf⟩
        = some (.ok (⟨.Delim .LParen, ⟨cursor, cursor + 1⟩⟩,
            ⟨rest, cursor + 1, ik, lvl, sz, buf⟩)) ∧
      next_token_loop (fuel + 1) ⟨')' :: rest, cursor, ik, lvl, sz, buf⟩
        = some (.ok (⟨.Delim .RParen, ⟨cursor, cursor + 1⟩⟩,
            ⟨rest, cursor + 1, ik, lvl, sz, buf⟩)) ∧
      next_token_loop (fuel + 1) ⟨'[' :: rest, cursor, ik, lvl, sz, buf⟩
        = some (.ok (⟨.Delim .LBracket, ⟨cursor, cursor + 1⟩⟩,
            ⟨rest, cursor + 1, ik, lvl, sz, buf⟩)) ∧
      next_token_loop (fuel + 1) ⟨']' :: rest, cursor, ik, lvl, sz, buf⟩
        = some (.ok (⟨.Delim .RBracket, ⟨cursor, cursor + 1⟩⟩,
            ⟨rest, cursor + 1, ik, lvl, sz, buf⟩)) ∧
      next_token_loop (fuel + 1) ⟨'{' :: rest, cursor, ik, lvl, sz, buf⟩
        = some (.ok (⟨.Delim .LBrace, ⟨cursor, cursor + 1⟩⟩,
            ⟨rest, cursor + 1, ik, lvl, sz, buf⟩)) ∧
      next_token_loop (fuel + 1) ⟨'}' :: rest, cursor, ik, lvl, sz, buf⟩
        = some (.ok (⟨.Delim .RBrace, ⟨cursor, cursor + 1⟩⟩,
            ⟨rest, cursor + 1, ik, lvl, sz, buf⟩)) := by
  intro fuel cursor rest ik lvl sz buf
  refine ⟨?_, ?_, ?_, ?_, ?_, ?_⟩ <;> rfl

/-- C2 counterexample: inside a matched `(`/`)` pair an `Indent` token IS
emitted — there is no bracket suspension. -/
theorem C2_counterexample :
    tokenize "(\n  x\n)" = [.ok ⟨.Delim .LParen, ⟨0, 1⟩⟩, .ok ⟨.Indent, ⟨1, 4⟩⟩,
      .ok ⟨.Identifier "x", ⟨4, 5⟩⟩, .ok ⟨.Newline, ⟨5, 6⟩⟩,
      .ok ⟨.Delim .RParen, ⟨6, 7⟩⟩] := by
  decide

/-- C3 (amended): on every prefix of the emitted stream the number of
`Dedent` tokens never exceeds the number of `Indent` tokens; and when the
input ends with a newline, the pending dedents are synthesized at end of
input, as in `"a\n  b\n"` whose stream closes with the balancing `Dedent`.
(The original equality at end-of-stream is refuted by `C3_counterexample`:
with no trailing newline the lexer never reaches its end-of-input dedent
branch.) -/
theorem C3_dedent_balance :
    (∀ (code : String) (n : Nat),
      (dedent_count (List.take n (tokenize code)) : Int)
        ≤ (indent_count (List.take n (tokenize code)) : Int)) ∧
    tokenize "a\n  b\n" = [.ok ⟨.Identifier "a", ⟨0, 1⟩⟩, .ok ⟨.Indent, ⟨1, 4⟩⟩,
      .ok ⟨.Identifier "b", ⟨4, 5⟩⟩, .ok ⟨.Dedent, ⟨5, 6⟩⟩] := by
  constructor
  · intro code n
    have hb := stream_balance (2 * code.length + 1) (init_lexer code)
      (init_inv code) n
    have ht : tokenize code = stream (2 * code.length + 1) (init_lexer code) := rfl
    have hbc := bal_counts (List.take n (tokenize code))
    rw [ht] at hbc
    have h0 : (init_lexer code).indent_level = 0 := rfl
    have h1 : (init_lexer code).token_buffer = ([] : List Token) := rfl
    rw [h0, h1] at hb
    simp only [List.length_nil, Nat.cast_zero] at hb
    rw [ht]
    omega
  · decide

/-- C3 counterexample: when the input does not end with a newline the open
indentation is left unbalanced — `"a\n  b"` emits one `Indent` and no
`Dedent` even though the stream ends without error. -/
theorem C3_counterexample :
    tokenize "a\n  b" = [.ok ⟨.Identifier "a", ⟨0, 1⟩⟩, .ok ⟨.Indent, ⟨1, 4⟩⟩,
      .ok ⟨.Identifier "b", ⟨4, 5⟩⟩] ∧
    indent_count (tokenize "a\n  b") = 1 ∧
    dedent_count (tokenize "a\n  b") = 0 := by
  refine ⟨by decide, by decide, by decide⟩

/-- C4, actual behaviour: the payload of `'a'` in `"'a'bc"` is the body
verbatim, and raw newline or end of input yields `UnterminatedString`; but
the close-quote path advances the cursor twice, so the single token spans
`[0, 5)` — the character after the closing quote is swallowed and lexing
does not resume at it (the spec's `[s, s+|B|+2)` span is violated). -/
theorem C4_short_string_actual :
    tokenize "'a'bc" = [.ok ⟨.Str "a" .Str, ⟨0, 5⟩⟩] ∧
    tokenize "'a\nb'" = [.error ⟨.UnterminatedString, ⟨0, 2⟩⟩] ∧
    tokenize "'ab" = [.error ⟨.UnterminatedString, ⟨0, 3⟩⟩] := by
  refine ⟨by decide, by decide, by decide⟩

/-- C5 (amended): `InvalidCharacterInByteString` is raised exactly by the
byte-mode body recognizer, and that recognizer serves `b`, `rb`, `r` AND
`rf` literals: the text-string recognizer (plain and `f` strings) can only
fail with `UnterminatedString`, an all-ASCII body never raises
`InvalidCharacterInByteString` in byte mode either, and well-formed ASCII
`b`/`r`/`rf` literals produce their `ByteStr Bytes` / `Str RawStr` /
`Str RawFormat` tokens.  (That the error requires a `b` prefix is refuted by
`C5_counterexample`: `r'é'` raises it too.) -/
theorem C5_bytestring_error_scope :
    (∀ (quote : Char) (start : Nat) (long : Bool) (chars : List Char)
      (cursor : Nat) (e : LexerError),
      lex_short_or_long_string quote start long chars cursor = .error e →
      e.kind = LexerErrorKind.UnterminatedString) ∧
    (∀ (quote : Char) (start : Nat) (long : Bool) (chars : List Char)
      (cursor : Nat) (e : LexerError),
      (∀ ch ∈ chars, is_ascii_char ch = true) →
      lex_short_or_long_bytes quote start long chars cursor = .error e →
      e.kind = LexerErrorKind.UnterminatedString) ∧
    tokenize "b'a'" = [.ok ⟨.ByteStr "a" .Bytes, ⟨0, 4⟩⟩] ∧
    tokenize "r'a'" = [.ok ⟨.Str "a" .RawStr, ⟨0, 4⟩⟩] ∧
    tokenize "rf'a'" = [.ok ⟨.Str "a" .RawFormat, ⟨0, 5⟩⟩] := by
  refine ⟨?_, ?_, by decide, by decide, by decide⟩
  · intro quote start long chars cursor e h
    unfold lex_short_or_long_string at h
    by_cases hl : long = true
    · rw [if_pos hl] at h
      exact lex_string_loop_err_kind quote start long _ _ _ e h
    · rw [if_neg hl] at h
      exact lex_string_loop_err_kind quote start long _ _ _ e h
  · intro quote start long chars cursor e hascii h
    unfold lex_short_or_long_bytes at h
    by_cases hl : long = true
    · rw [if_pos hl] at h
      exact lex_bytes_loop_ascii_err_kind quote start long _ _ _ e
        (fun ch hm => hascii ch (List.drop_subset _ _ hm)) h
    · rw [if_neg hl] at h
      exact lex_bytes_loop_ascii_err_kind quote start long _ _ _ e hascii h

/-- C5 counterexample: a non-ASCII character in an `r`-prefixed literal —
whose prefix contains no `b` — still raises `InvalidCharacterInByteString`,
because `r` literals are routed through the byte-string recognizer. -/
theorem C5_counterexample :
    tokenize "r'é'" = [.error ⟨.InvalidCharacterInByteString, ⟨0, 2⟩⟩] := by
  decide

/-- C6 (amended): successive `Ok` tokens touch in order — `t1.span.stop ≤
t2.span.start ≤ t2.span.stop` — except that `Dedent` tokens drained from the
pending buffer repeat the very span of the `Dedent` they were buffered with,
so a run of synthesized dedents shares one span instead of advancing.  (The
unconditional ordering of the original claim is refuted by
`C6_counterexample`.) -/
theorem C6_monotonic_spans :
    ∀ (code : String), List.Chain' span_rel (ok_tokens (tokenize code)) := by
  intro code
  exact stream_chain_start _ _ (init_inv code)

/-- C6 counterexample: two successive `Dedent` tokens drained at end of
input carry the identical non-empty span `[11, 12)`, violating
`t1.span.stop ≤ t2.span.start`. -/
theorem C6_counterexample :
    tokenize "a\n  b\n    c\n" = [.ok ⟨.Identifier "a", ⟨0, 1⟩⟩,
      .ok ⟨.Indent, ⟨1, 4⟩⟩, .ok ⟨.Identifier "b", ⟨4, 5⟩⟩,
      .ok ⟨.Indent, ⟨5, 10⟩⟩, .ok ⟨.Identifier "c", ⟨10, 11⟩⟩,
      .ok ⟨.Dedent, ⟨11, 12⟩⟩, .ok ⟨.Dedent, ⟨11, 12⟩⟩] ∧
    ¬(12 ≤ 11) := by
  refine ⟨by decide, by decide⟩

/-- C7: on a logical line indented deeper than the enclosing level, the
`Greater` branch of the indentation engine adopts the difference as the
indent step when none is set (locking the indentation kind, emitting one
`Indent`), and otherwise requires the difference to equal the established
step — raising `MixedIndentSizes` when it does not, and emitting one
`Indent` that raises the level by exactly one otherwise; consequently,
whenever the step is nonzero, every emitted `Indent` or `Dedent` width is an
integer multiple of the step: after an accepted `Indent` or `Dedent` the new
width equals `level' * step`, a dedent that is not a multiple of the step
raises `InconsistentDedent`, an accepted dedent's width difference is
`(level - level') * step`, and the end-of-input dedents always drop to width
zero. -/
theorem C7_indent_step_adoption :
    ∀ (c : Char) (start : Nat) (st : Lexer) (chars0 : List Char) (cursor0 : Nat)
      (prev_space : Option Char) (space_count : Int) (mixed_spaces : Bool)
      (chars1 : List Char) (cursor1 : Nat),
      crlf_skip c st.chars st.cursor = (chars0, cursor0) →
      count_spaces chars0 cursor0 none 0 false
        = (prev_space, space_count, mixed_spaces, chars1, cursor1) →
      (st.indent_size = 0 → st.indent_level = 0) →
      ((space_count > 0 ∧ ¬(chars1.head? = some '\r' ∨ chars1.head? = some '\n'
          ∨ chars1.head? = some '#')) →
        mixed_spaces = false →
        ¬(st.indent_kind ≠ IndentKind.Unknown ∧
          indent_kind_of_char (prev_space.getD ' ') ≠ st.indent_kind) →
        (space_count - st.indent_level * st.indent_size > 0 →
          (st.indent_size = 0 →
            ∃ s', tokenize_newline_or_indentation c start st
                = .ok (⟨.Indent, ⟨start, cursor1⟩⟩, s') ∧
              s'.indent_size = space_count ∧
              s'.indent_kind = indent_kind_of_char (prev_space.getD ' ') ∧
              s'.indent_level = 1 ∧
              space_count = s'.indent_level * s'.indent_size) ∧
          (st.indent_size ≠ 0 →
            st.indent_size ≠ space_count - st.indent_level * st.indent_size →
            tokenize_newline_or_indentation c start st
              = .error ⟨.MixedIndentSizes, ⟨start, cursor1⟩⟩) ∧
          (st.indent_size ≠ 0 →
            st.indent_size = space_count - st.indent_level * st.indent_size →
            ∃ s', tokenize_newline_or_indentation c start st
                = .ok (⟨.Indent, ⟨start, cursor1⟩⟩, s') ∧
              s'.indent_size = st.indent_size ∧
              s'.indent_level = st.indent_level + 1 ∧
              space_count = s'.indent_level * s'.indent_size)) ∧
        (space_count - st.indent_level * st.indent_size < 0 →
          ((space_count - st.indent_level * st.indent_size) % st.indent_size ≠ 0 →
            tokenize_newline_or_indentation c start st
              = .error ⟨.InconsistentDedent, ⟨start, cursor1⟩⟩) ∧
          ((space_count - st.indent_level * st.indent_size) % st.indent_size = 0 →
            ∃ s', tokenize_newline_or_indentation c start st
                = .ok (⟨.Dedent, ⟨start, cursor1⟩⟩, s') ∧
              s'.indent_size = st.indent_size ∧
              s'.indent_level = space_count / st.indent_size ∧
              space_count = s'.indent_level * s'.indent_size ∧
              st.indent_level * st.indent_size - space_count
                = (st.indent_level - s'.indent_level) * st.indent_size))) ∧
      (¬(space_count > 0 ∧ ¬(chars1.head? = some '\r' ∨ chars1.head? = some '\n'
          ∨ chars1.head? = some '#')) →
        chars1.head? = none →
        space_count - st.indent_level * st.indent_size < 0 →
        space_count = 0 ∧
        ∃ s', tokenize_newline_or_indentation c start st
            = .ok (⟨.Dedent, ⟨start, cursor1⟩⟩, s') ∧
          s'.indent_size = st.indent_size ∧
          s'.indent_level = 0 ∧
          space_count = s'.indent_level * s'.indent_size ∧
          st.indent_level * st.indent_size - space_count
            = (st.indent_level - s'.indent_level) * st.indent_size) := by
  intro c start st chars0 cursor0 prev_space space_count mixed_spaces chars1
    cursor1 hcrlf hcount hsz0
  refine ⟨?_, ?_⟩
  · intro hmain hmix hkind
    refine ⟨?_, ?_⟩
    · intro hgt
      exact indent_step_spec c start st chars0 cursor0 prev_space space_count
        mixed_spaces chars1 cursor1 hcrlf hcount hmain hmix hkind hgt hsz0
    · intro hlt
      exact dedent_step_spec c start st chars0 cursor0 prev_space space_count
        mixed_spaces chars1 cursor1 hcrlf hcount hmain hmix hkind hlt
  · intro hnmain hpeek hlt
    exact eof_dedent_spec c start st chars0 cursor0 prev_space space_count
      mixed_spaces chars1 cursor1 hcrlf hcount hnmain hpeek hlt

/-- C7 witness: lexing the newline of `"a\n  x"` from a fresh state adopts
the width 2 as the indent step, locks the space kind, and emits one `Indent`
over `[1, 4)`; and with the step locked at 2 on level 2, a line of width 2
emits one `Dedent` whose widths are exact multiples of the step. -/
theorem C7_witness :
    (∃ s', tokenize_newline_or_indentation '\n' 1
        (⟨[' ', ' ', 'x'], 2, .Unknown, 0, 0, []⟩ : Lexer)
        = .ok (⟨.Indent, ⟨1, 4⟩⟩, s') ∧
      s'.indent_size = 2 ∧
      s'.indent_kind = indent_kind_of_char ((some ' ').getD ' ') ∧
      s'.indent_level = 1 ∧
      (2 : Int) = s'.indent_level * s'.indent_size) ∧
    (∃ s', tokenize_newline_or_indentation '\n' 5
        (⟨[' ', ' ', 'x'], 6, .Space, 2, 2, []⟩ : Lexer)
        = .ok (⟨.Dedent, ⟨5, 8⟩⟩, s') ∧
      s'.indent_size = 2 ∧
      s'.indent_level = 1 ∧
      (2 : Int) = s'.indent_level * s'.indent_size ∧
      (2 : Int) * 2 - 2 = (2 - s'.indent_level) * 2) := by
  constructor
  · exact ((C7_indent_step_adoption '\n' 1 ⟨[' ', ' ', 'x'], 2, .Unknown, 0, 0, []⟩
      [' ', ' ', 'x'] 2 (some ' ') 2 false ['x'] 4 (by decide) (by decide)
      (fun _ => rfl)).1 (by decide) rfl (by decide)).1 (by decide) |>.1 rfl
  · exact (((C7_indent_step_adoption '\n' 5 ⟨[' ', ' ', 'x'], 6, .Space, 2, 2, []⟩
      [' ', ' ', 'x'] 6 (some ' ') 2 false ['x'] 8 (by decide) (by decide)
      (by intro h; exact absurd h (by decide))).1 (by decide) rfl
      (by decide)).2 (by decide)).2 (by decide)

/-- C8: every token the lexer yields carries a canonical payload — numeric
payloads contain no underscore and float or imaginary exponents always carry
an explicit sign — and the spec's example `"12_3.4_56e+7_8"` lexes to the
single `Float` token `"123.456e+78"` spanning `[0, 14)`. -/
theorem C8_canonical_payloads :
    (∀ (code : String), ∀ item ∈ tokenize code, item_canonical item) ∧
    tokenize "12_3.4_56e+7_8" = [.ok ⟨.Float "123.456e+78", ⟨0, 14⟩⟩] := by
  constructor
  · intro code item hitem
    exact stream_canonical _ _ (init_inv code) item hitem
  · decide

/-- C9, actual behaviour: after a float fraction only a lowercase `e` opens
the exponent — an uppercase `E` ends the literal, so `"1.5E3"` lexes as the
`Float` `"1.5"` followed by the identifier `"E3"`, unlike `"1.5e3"` which
yields the single `Float` `"1.5e+3"`. -/
theorem C9_uppercase_exponent_actual :
    tokenize "1.5E3" = [.ok ⟨.Float "1.5", ⟨0, 3⟩⟩,
      .ok ⟨.Identifier "E3", ⟨3, 5⟩⟩] ∧
    tokenize "1.5e3" = [.ok ⟨.Float "1.5e+3", ⟨0, 5⟩⟩] := by
  refine ⟨by decide, by decide⟩

/-- C10: every yielded item — token or error — carries a span that is
non-empty (`start < stop`) and ends within the input. -/
theorem C10_spans_nonempty_in_bounds :
    ∀ (code : String), ∀ item ∈ tokenize code, item_span_ok code.length item := by
  intro code item hitem
  have hs := stream_spans (2 * code.length + 1) (init_lexer code)
    (init_inv code) item hitem
  have hb : (init_lexer code).cursor + (init_lexer code).chars.length
      = code.length := by
    show 0 + code.data.length = code.length
    rw [Nat.zero_add]
    rfl
  rw [hb] at hs
  exact hs

/-- C10 witness: the single token of `"a"` has the non-empty in-bounds span
`[0, 1)`. -/
theorem C10_witness :
    (Except.ok ⟨.Identifier "a", ⟨0, 1⟩⟩) ∈ tokenize "a" ∧
    item_span_ok (String.length "a") (.ok ⟨.Identifier "a", ⟨0, 1⟩⟩) :=
  ⟨by decide, C10_spans_nonempty_in_bounds "a" _ (by decide)⟩

end Raccoon
